import Mathlib

/-!
Nub: a shallow embedding of the ingestion pipeline

The Go sources `config.go`, `crawler.go`, `llm.go`, `storage.go`, `main.go` and
`daemon.go` are embedded as pure functions over an explicit `World` (the files
under `~/.local/nub`, the process table, the wall clock and the log of
externally visible actions) and an `Env` of oracles that answers for the
operating system and the network.

Go strings are byte sequences: `len` and slicing count bytes.  A `GoString` is
the list of its bytes, each a natural number below 256.
-/

namespace Nub

/-! ## Strings -/

/-- A Go string: the sequence of its bytes. -/
abbrev GoString := List Nat

/-- The bytes of an ASCII literal of the source. -/
def lit (s : String) : GoString := s.toList.map Char.toNat

/-- Number of Unicode characters of a UTF-8 byte string: every byte that is
not a continuation byte (`10xxxxxx`) starts one. -/
def runeCount (s : GoString) : Nat := (s.filter (fun b => b / 64 != 2)).length

/-- Whether `p` is a prefix of `s` (`strings.HasPrefix`). -/
def hasPrefix : GoString → GoString → Bool
  | _, [] => true
  | [], _ :: _ => false
  | a :: s, b :: p => a == b && hasPrefix s p

/-- Whether `sub` occurs in `s` (`strings.Contains`). -/
def contains : GoString → GoString → Bool
  | [], sub => sub.isEmpty
  | a :: s, sub => hasPrefix (a :: s) sub || contains s sub

/-- Index of the first occurrence of the byte `c` in `s` (`strings.Index` with
a one-byte needle), `none` for Go's `-1`. -/
def indexByte : GoString → Nat → Option Nat
  | [], _ => none
  | a :: s, c => if a = c then some 0 else (indexByte s c).map (· + 1)

/-- Non-overlapping replacement from left to right of a non-empty `old`
(`strings.ReplaceAll`); the fuel is the number of bytes still to be scanned. -/
def replaceAllFuel : Nat → GoString → GoString → GoString → GoString
  | 0, s, _, _ => s
  | _ + 1, [], _, _ => []
  | n + 1, a :: s, old, new =>
    if hasPrefix (a :: s) old then new ++ replaceAllFuel n ((a :: s).drop old.length) old new
    else a :: replaceAllFuel n s old new

/-- The call `strings.ReplaceAll(s, old, new)` for a non-empty `old`. -/
def replaceAll (s old new : GoString) : GoString := replaceAllFuel s.length s old new

/-- Splitting at every occurrence of the byte `sep`, as `strings.Split` does
for a one-byte separator: `n` separators give `n + 1` pieces. -/
def splitOn (sep : Nat) : GoString → List GoString
  | [] => [[]]
  | a :: s =>
    if a = sep then [] :: splitOn sep s
    else match splitOn sep s with
      | [] => [[a]]
      | l :: ls => (a :: l) :: ls

/-- Joining with a separator (`strings.Join`). -/
def join (sep : GoString) : List GoString → GoString
  | [] => []
  | [x] => x
  | x :: y :: r => x ++ sep ++ join sep (y :: r)

/-- The UTF-8 encodings of the characters for which `unicode.IsSpace` holds:
tab, line feed, vertical tab, form feed, carriage return, space, U+0085,
U+00A0, U+1680, U+2000 to U+200A, U+2028, U+2029, U+202F, U+205F, U+3000. -/
def spaceEncodings : List GoString :=
  [[9], [10], [11], [12], [13], [32], [194, 133], [194, 160], [225, 154, 128],
   [226, 128, 128], [226, 128, 129], [226, 128, 130], [226, 128, 131],
   [226, 128, 132], [226, 128, 133], [226, 128, 134], [226, 128, 135],
   [226, 128, 136], [226, 128, 137], [226, 128, 138], [226, 128, 168],
   [226, 128, 169], [226, 128, 175], [226, 129, 159], [227, 128, 128]]

/-- Length of the white-space character that `s` starts with, if any. -/
def leadingSpace (encs : List GoString) (s : GoString) : Option Nat :=
  (encs.find? (fun e => hasPrefix s e)).map List.length

/-- Dropping leading white space; the fuel bounds the number of characters. -/
def trimLeftFuel (encs : List GoString) : Nat → GoString → GoString
  | 0, s => s
  | n + 1, s =>
    match leadingSpace encs s with
    | some k => trimLeftFuel encs n (s.drop k)
    | none => s

/-- The function `strings.TrimSpace`: leading and trailing white space, in the
sense of `unicode.IsSpace` on the UTF-8 decoding, is removed. -/
def trimSpace (s : GoString) : GoString :=
  let l := trimLeftFuel spaceEncodings s.length s
  (trimLeftFuel (spaceEncodings.map List.reverse) l.length l.reverse).reverse

/-! ## MD5 and hexadecimal encoding (`crypto/md5`, `encoding/hex`) -/

/-- Rotation to the left of a 32-bit word. -/
def rotl32 (x c : Nat) : Nat := ((x <<< c) ||| (x >>> (32 - c))) % 4294967296

/-- The per-round shift amounts of MD5. -/
def md5Shift : List Nat :=
  [7, 12, 17, 22, 7, 12, 17, 22, 7, 12, 17, 22, 7, 12, 17, 22,
   5, 9, 14, 20, 5, 9, 14, 20, 5, 9, 14, 20, 5, 9, 14, 20,
   4, 11, 16, 23, 4, 11, 16, 23, 4, 11, 16, 23, 4, 11, 16, 23,
   6, 10, 15, 21, 6, 10, 15, 21, 6, 10, 15, 21, 6, 10, 15, 21]

/-- The constants of MD5, the integer parts of `2^32 * |sin (i + 1)|`. -/
def md5K : List Nat :=
  [0xd76aa478, 0xe8c7b756, 0x242070db, 0xc1bdceee, 0xf57c0faf, 0x4787c62a, 0xa8304613, 0xfd469501,
   0x698098d8, 0x8b44f7af, 0xffff5bb1, 0x895cd7be, 0x6b901122, 0xfd987193, 0xa679438e, 0x49b40821,
   0xf61e2562, 0xc040b340, 0x265e5a51, 0xe9b6c7aa, 0xd62f105d, 0x02441453, 0xd8a1e681, 0xe7d3fbc8,
   0x21e1cde6, 0xc33707d6, 0xf4d50d87, 0x455a14ed, 0xa9e3e905, 0xfcefa3f8, 0x676f02d9, 0x8d2a4c8a,
   0xfffa3942, 0x8771f681, 0x6d9d6122, 0xfde5380c, 0xa4beea44, 0x4bdecfa9, 0xf6bb4b60, 0xbebfbc70,
   0x289b7ec6, 0xeaa127fa, 0xd4ef3085, 0x04881d05, 0xd9d4d039, 0xe6db99e5, 0x1fa27cf8, 0xc4ac5665,
   0xf4292244, 0x432aff97, 0xab9423a7, 0xfc93a039, 0x655b59c3, 0x8f0ccc92, 0xffeff47d, 0x85845dd1,
   0x6fa87e4f, 0xfe2ce6e0, 0xa3014314, 0x4e0811a1, 0xf7537e82, 0xbd3af235, 0x2ad7d2bb, 0xeb86d391]

/-- The four 32-bit words of the MD5 state. -/
structure Md5State where
  a : Nat
  b : Nat
  c : Nat
  d : Nat
  deriving DecidableEq, Repr

/-- The initial MD5 state. -/
def md5Init : Md5State := ⟨0x67452301, 0xefcdab89, 0x98badcfe, 0x10325476⟩

/-- Complement of a 32-bit word. -/
def not32 (x : Nat) : Nat := 4294967295 - x % 4294967296

/-- Little-endian 32-bit word from four bytes. -/
def le32 (bs : List Nat) : Nat :=
  bs.getD 0 0 + 256 * bs.getD 1 0 + 65536 * bs.getD 2 0 + 16777216 * bs.getD 3 0

/-- The four bytes of a 32-bit word, least significant first. -/
def bytes32 (w : Nat) : List Nat :=
  [w % 256, w / 256 % 256, w / 65536 % 256, w / 16777216 % 256]

/-- The sixteen message words of a 64-byte block. -/
def md5Words (block : List Nat) : List Nat :=
  (List.range 16).map (fun i => le32 (block.drop (4 * i)))

/-- One of the 64 operations of MD5 on the words `m` of the current block. -/
def md5Round (m : List Nat) (s : Md5State) (i : Nat) : Md5State :=
  let f :=
    if i < 16 then (s.b &&& s.c) ||| (not32 s.b &&& s.d)
    else if i < 32 then (s.d &&& s.b) ||| (not32 s.d &&& s.c)
    else if i < 48 then s.b ^^^ s.c ^^^ s.d
    else s.c ^^^ (s.b ||| not32 s.d)
  let g :=
    if i < 16 then i
    else if i < 32 then (5 * i + 1) % 16
    else if i < 48 then (3 * i + 5) % 16
    else (7 * i) % 16
  let f := (f + s.a + md5K.getD i 0 + m.getD g 0) % 4294967296
  ⟨s.d, (s.b + rotl32 f (md5Shift.getD i 0)) % 4294967296, s.b, s.c⟩

/-- Processing of one 64-byte block. -/
def md5Block (s : Md5State) (block : List Nat) : Md5State :=
  let t := (List.range 64).foldl (md5Round (md5Words block)) s
  ⟨(s.a + t.a) % 4294967296, (s.b + t.b) % 4294967296,
   (s.c + t.c) % 4294967296, (s.d + t.d) % 4294967296⟩

/-- The message followed by the bit `1`, zeros up to 56 modulo 64 bytes, and
the length in bits as a 64-bit little-endian number. -/
def md5Pad (msg : List Nat) : List Nat :=
  let n := msg.length
  let zeros := (119 - n % 64) % 64
  let bits := (8 * n) % 18446744073709551616
  msg ++ [128] ++ List.replicate zeros 0 ++ bytes32 (bits % 4294967296) ++ bytes32 (bits / 4294967296)

/-- Folding the state over the consecutive 64-byte blocks. -/
def md5Blocks : Nat → Md5State → List Nat → Md5State
  | 0, s, _ => s
  | n + 1, s, bs => md5Blocks n (md5Block s (bs.take 64)) (bs.drop 64)

/-- The function `md5.Sum`: the 16 bytes of the digest. -/
def md5Sum (msg : GoString) : List Nat :=
  let p := md5Pad (msg.map (· % 256))
  let s := md5Blocks (p.length / 64) md5Init p
  bytes32 s.a ++ bytes32 s.b ++ bytes32 s.c ++ bytes32 s.d

/-- The digit of `hex.EncodeToString` for a value below 16. -/
def hexDigit (n : Nat) : Nat := if n < 10 then 48 + n else 87 + n

/-- The function `hex.EncodeToString`: two lower-case digits per byte. -/
def hexEncode : List Nat → GoString
  | [] => []
  | b :: r => hexDigit (b / 16 % 16) :: hexDigit (b % 16) :: hexEncode r

/-! ## Text extraction (`crawler.go`) -/

/-- The first loop of `extractTextFromHTML`: lines that mention a `script` or
`style` tag are dropped and switch the two flags; other lines are copied,
followed by a line feed, while neither flag is set. -/
def scanLines : Bool → Bool → List GoString → GoString
  | _, _, [] => []
  | inScript, inStyle, line :: rest =>
    if contains line (lit "<script") then scanLines true inStyle rest
    else if contains line (lit "</script>") then scanLines false inStyle rest
    else if contains line (lit "<style") then scanLines inScript true rest
    else if contains line (lit "</style>") then scanLines inScript false rest
    else if !inScript && !inStyle then line ++ [10] ++ scanLines inScript inStyle rest
    else scanLines inScript inStyle rest

/-- The tag-stripping loop of `extractTextFromHTML`: while the text has a `<`
and a `>`, the stretch from the first `<` to the first `>` after it becomes a
space; the loop is left when no `>` follows the first `<`.  Every round
shortens the text, so a fuel of the length of the text is never used up. -/
def stripTagsFuel : Nat → GoString → GoString
  | 0, text => text
  | n + 1, text =>
    if contains text [60] && contains text [62] then
      match indexByte text 60 with
      | none => text
      | some start =>
        match indexByte (text.drop start) 62 with
        | none => text
        | some e => stripTagsFuel n (text.take start ++ [32] ++ text.drop (start + e + 1))
    else text

/-- The last loop of `extractTextFromHTML`: lines are trimmed and kept when
longer than 3 bytes. -/
def cleanLines (lines : List GoString) : List GoString :=
  (lines.map trimSpace).filter (fun l => l != [] && l.length > 3)

/-- The function `extractTextFromHTML` of `crawler.go`. -/
def extractTextFromHTML (html : GoString) : GoString :=
  let text := replaceAll html (lit "<script") (lit "\n<script")
  let text := replaceAll text (lit "</script>") (lit "</script>\n")
  let text := replaceAll text (lit "<style") (lit "\n<style")
  let text := replaceAll text (lit "</style>") (lit "</style>\n")
  let text := scanLines false false (splitOn 10 text)
  let text := stripTagsFuel text.length text
  join [10] (cleanLines (splitOn 10 text))

/-! ## Configuration (`config.go`) -/

/-- The struct `Config`. -/
structure Config where
  Sources : List GoString
  LLMAPIKey : GoString
  LLMAPIURL : GoString
  LLMAPIModel : GoString
  ScheduleMinutes : Int
  SummaryPrompt : GoString
  FocusTopics : GoString
  deriving DecidableEq, Repr

/-! ## Errors, files, processes and the world -/

/-- The errors that the embedded functions return.  `sys` stands for an error
of the operating system or of the network, identified by a code, and
`nonPositiveInterval` for the panic of `time.NewTicker`. -/
inductive Err
  | noSources
  | apiKeyNotSet
  | apiURLNotSet
  | apiModelNotSet
  | sys (code : Nat)
  | notExist
  | httpStatus (status : Nat)
  | apiError (status : Nat) (body : GoString)
  | noResponse
  | alreadyRunning (pid : Int)
  | notRunning
  | createDataDir (cause : Err)
  | openLogFile (cause : Err)
  | startDaemon (cause : Err)
  | writePidFile (cause : Err)
  | stopDaemon (cause : Err)
  | removeDataDir (cause : Err)
  | sourceExists (url : GoString)
  | sourceNotFound (idOrURL : GoString)
  | nonPositiveInterval
  deriving DecidableEq, Repr

/-- The directories of the persisted layout: the data directory
`~/.local/nub` itself and its sub-directories. -/
inductive Dir
  | data
  | cache
  | summaries
  | focus
  deriving DecidableEq, Repr

/-- A file of the persisted layout: its directory and its name. -/
structure Path where
  dir : Dir
  name : GoString
  deriving DecidableEq, Repr

/-- A file: its bytes and its modification time in nanoseconds. -/
structure File where
  content : GoString
  mtime : Int
  deriving DecidableEq, Repr

/-- A process other than the caller to which the caller may send a signal:
`alive` is false once it has exited, `termSent` records that SIGTERM was sent
to it, `daemon` that `StartDaemon` spawned it. -/
structure Proc where
  pid : Nat
  alive : Bool
  termSent : Bool
  daemon : Bool
  deriving DecidableEq, Repr

/-- The request of a chat completion as the program builds it: endpoint, key,
model, and the content of the single user message, the last two as the Go
strings that are handed to `json.Marshal`. -/
structure ChatRequest where
  url : GoString
  key : GoString
  model : GoString
  prompt : GoString
  deriving DecidableEq, Repr

/-- What comes back from the endpoint: a transport error, or a status with the
body and, when the body is JSON of the expected shape, the contents of its
choices. -/
inductive ChatReply
  | failed (e : Err)
  | answered (status : Nat) (body : GoString) (choices : Except Err (List GoString))

/-- The externally visible actions: requests posted, each recorded as the
program builds it, files written, signals sent, and the lines of the console
or the log that report on a source. -/
inductive Event
  | processing (source : GoString)
  | completed (source : GoString)
  | errorProcessing (source : GoString) (e : Err)
  | warnExtract (e : Err)
  | warnStore (e : Err)
  | httpGet (url : GoString)
  | chat (req : ChatRequest)
  | wrote (path : Path) (content : GoString)
  | spawned (pid : Nat)
  | sigterm (pid : Nat)
  deriving DecidableEq, Repr

/-- The state outside the program: the wall clock in nanoseconds, the files
under the data directory, the process table, and the actions so far. -/
structure World where
  now : Int
  files : List (Path × File)
  procs : List Proc
  out : List Event
  deriving DecidableEq, Repr

/-- The answers of the operating system and of the network, each a function
of the current world: failures of the system calls, the result of an HTTP GET,
the reply of the chat endpoint, the time a request takes, the rendering of a
time stamp, the process id of a spawned child, and the processes that the
kernel reaches for a process id that is not positive: for 0 the process group
of the caller, for -1 every process that the caller may signal, and for `t`
below -1 the process group `-t`. -/
structure Env where
  homeErr : World → Option Err
  mkdirErr : World → Dir → Option Err
  statErr : World → Path → Option Err
  readErr : World → Path → Option Err
  writeErr : World → Path → Option Err
  removeAllErr : World → Dir → Option Err
  fetch : World → GoString → Except Err GoString
  chat : World → ChatRequest → ChatReply
  elapsed : World → Nat
  fmtTime : Int → GoString
  removeErr : World → Path → Option Err
  openLogErr : World → Option Err
  executableErr : World → Option Err
  spawn : World → Except Err Nat
  group : World → Int → List Nat

/-- The file at a path, if there is one. -/
def getFile : List (Path × File) → Path → Option File
  | [], _ => none
  | (q, f) :: r, p => if q = p then some f else getFile r p

/-- Creating or replacing the file at a path. -/
def putFile : List (Path × File) → Path → File → List (Path × File)
  | [], p, f => [(p, f)]
  | (q, g) :: r, p, f => if q = p then (p, f) :: r else (q, g) :: putFile r p f

/-- Appending an action to the record of the world. -/
def World.log (w : World) (e : Event) : World := { w with out := w.out ++ [e] }

/-- The call `os.ReadFile`. -/
def readFile (env : Env) (w : World) (p : Path) : Except Err GoString :=
  match env.readErr w p with
  | some e => .error e
  | none =>
    match getFile w.files p with
    | none => .error .notExist
    | some f => .ok f.content

/-- The call `os.WriteFile`: on success the file holds the content and its
modification time is the current time. -/
def writeFile (env : Env) (p : Path) (content : GoString) (w : World) : Except Err Unit × World :=
  match env.writeErr w p with
  | some e => (.error e, w)
  | none => (.ok (), { w with files := putFile w.files p ⟨content, w.now⟩,
                              out := w.out ++ [.wrote p content] })

/-- The function `GetDataDir`: fails when the home directory is unknown. -/
def GetDataDir (env : Env) (w : World) : Except Err Dir :=
  match env.homeErr w with
  | some e => .error e
  | none => .ok .data

/-- The common shape of `getCacheFilePath`, `getSummaryFilePath` and
`getFocusFilePath`: the directory is created when missing, and the file name
is the hexadecimal MD5 digest of the URL followed by the extension. -/
def hashedPath (env : Env) (w : World) (dir : Dir) (ext : GoString) (url : GoString) :
    Except Err Path :=
  match GetDataDir env w with
  | .error e => .error e
  | .ok _ =>
    match env.mkdirErr w dir with
    | some e => .error e
    | none => .ok ⟨dir, hexEncode (md5Sum url) ++ ext⟩

/-! ## The content cache (`crawler.go`) -/

/-- The function `getCacheFilePath`. -/
def getCacheFilePath (env : Env) (w : World) (url : GoString) : Except Err Path :=
  hashedPath env w .cache (lit ".html") url

/-- The freshness window, `24*time.Hour`, in nanoseconds. -/
def freshness : Int := 24 * 3600 * 1000000000

/-- The function `IsCached`. -/
def IsCached (env : Env) (w : World) (url : GoString) : Except Err Bool :=
  match getCacheFilePath env w url with
  | .error e => .error e
  | .ok cachePath =>
    match env.statErr w cachePath with
    | some e => .error e
    | none =>
      match getFile w.files cachePath with
      | none => .ok false
      | some info => if w.now - info.mtime > freshness then .ok false else .ok true

/-- The function `GetCachedContent`. -/
def GetCachedContent (env : Env) (w : World) (url : GoString) : Except Err GoString :=
  match getCacheFilePath env w url with
  | .error e => .error e
  | .ok cachePath => readFile env w cachePath

/-- The function `CacheContent`. -/
def CacheContent (env : Env) (url content : GoString) (w : World) : Except Err Unit × World :=
  match getCacheFilePath env w url with
  | .error e => (.error e, w)
  | .ok cachePath => writeFile env cachePath content w

/-- The function `CrawlWebsite`: one HTTP GET, which takes time. -/
def CrawlWebsite (env : Env) (url : GoString) (w : World) : Except Err GoString × World :=
  (env.fetch w url, { w with now := w.now + env.elapsed w, out := w.out ++ [.httpGet url] })

/-- The function `ClearCache`: every file of the cache directory goes.  The
stat of the directory, which makes the function return early when there is no
cache directory and hence no cache file, is not modelled. -/
def ClearCache (env : Env) (w : World) : Except Err Unit × World :=
  match GetDataDir env w with
  | .error e => (.error e, w)
  | .ok _ =>
    match env.removeAllErr w .cache with
    | some e => (.error e, w)
    | none =>
      let w1 := { w with files := w.files.filter (fun pf => pf.1.dir != .cache) }
      match env.mkdirErr w1 .cache with
      | some e => (.error e, w1)
      | none => (.ok (), w1)

/-! ## The chat-completion client (`llm.go`) -/

/-- The prompt used when `SummaryPrompt` is empty. -/
def defaultPrompt : GoString :=
  lit "Summarize the key news topics and main stories from this website. Focus on the most important headlines and provide a concise overview in markdown format."

/-- The sentinel that the focus prompt asks for when nothing is relevant. -/
def noRelevantContent : GoString := lit "No relevant content found."

/-- The text that `SummarizeWithAI` puts into the prompt: the extracted text,
cut after 8000 bytes when it is longer. -/
def submittedText (htmlContent : GoString) : GoString :=
  let text := extractTextFromHTML htmlContent
  if text.length > 8000 then text.take 8000 else text

/-- The content of the user message built by `SummarizeWithAI`. -/
def summaryPrompt (config : Config) (htmlContent url : GoString) : GoString :=
  let userPrompt := if config.SummaryPrompt = [] then defaultPrompt else config.SummaryPrompt
  userPrompt ++ lit "\n\nWebsite URL: " ++ url ++ lit "\n\nContent:\n" ++ submittedText htmlContent ++
    lit "\n\nFormat your response in clean markdown with headings, bullet points, and clear structure."

/-- The content of the user message built by `ExtractFocusedContent`. -/
def focusPrompt (config : Config) (summary : GoString) : GoString :=
  lit "Extract only the content related to these topics: " ++ config.FocusTopics ++
    lit "\n\nFrom this summary, extract and list ONLY the items that are directly related to the specified topics. Return them as a bullet list in markdown format. If there are no relevant items, return \"No relevant content found.\"\n\nSummary:\n" ++
    summary

/-- Whether there is a byte and it lies between `lo` and `hi`. -/
def byteIn (b : Option Nat) (lo hi : Nat) : Bool :=
  match b with
  | some c => lo ≤ c && c ≤ hi
  | none => false

/-- The size that `utf8.DecodeRuneInString` reports for a valid encoding at
the start of the string, and `none` where it reports `RuneError` with size 1:
on the empty string, on a byte that cannot start an encoding, and on a leading
byte that is not followed by the continuation bytes it needs, the second byte
within the range that excludes overlong forms, surrogates and values above
U+10FFFF. -/
def decodeRuneSize : GoString → Option Nat
  | [] => none
  | s0 :: r =>
    if s0 < 128 then some 1
    else if 194 ≤ s0 ∧ s0 ≤ 223 then
      (if byteIn r[0]? 128 191 then some 2 else none)
    else if 224 ≤ s0 ∧ s0 ≤ 239 then
      (if byteIn r[0]? (if s0 = 224 then 160 else 128) (if s0 = 237 then 159 else 191) &&
          byteIn r[1]? 128 191 then some 3 else none)
    else if 240 ≤ s0 ∧ s0 ≤ 244 then
      (if byteIn r[0]? (if s0 = 240 then 144 else 128) (if s0 = 244 then 143 else 191) &&
          byteIn r[1]? 128 191 && byteIn r[2]? 128 191 then some 4 else none)
    else none

/-- The string that a JSON decoder reads back from what `json.Marshal` writes
for a Go string: the encoder goes through the string with
`utf8.DecodeRuneInString` and writes U+FFFD, the bytes `EF BF BD`, for every
byte at which no valid encoding starts.  The first argument counts the bytes
still to be copied of the encoding that was decoded last. -/
def jsonStringFrom : Nat → GoString → GoString
  | _, [] => []
  | k + 1, b :: r => b :: jsonStringFrom k r
  | 0, b :: r =>
    match decodeRuneSize (b :: r) with
    | some n => b :: jsonStringFrom (n - 1) r
    | none => 239 :: 191 :: 189 :: jsonStringFrom 0 r

/-- The string that the endpoint receives for a Go string of the request
body. -/
def jsonString (s : GoString) : GoString := jsonStringFrom 0 s

/-- Whether a string is valid UTF-8 (`utf8.ValidString`); the first argument
counts the bytes still to be passed of the encoding that was decoded last. -/
def validUTF8From : Nat → GoString → Bool
  | _, [] => true
  | k + 1, _ :: r => validUTF8From k r
  | 0, b :: r =>
    match decodeRuneSize (b :: r) with
    | some n => validUTF8From (n - 1) r
    | none => false

/-- Whether a string is valid UTF-8. -/
def validUTF8 (s : GoString) : Bool := validUTF8From 0 s

/-- The request as the endpoint receives it: the model and the content of the
message travel in the JSON body, the key in a header. -/
def wireRequest (req : ChatRequest) : ChatRequest :=
  { req with model := jsonString req.model, prompt := jsonString req.prompt }

/-- What `SummarizeWithAI` and `ExtractFocusedContent` make of the reply: a
transport error, a status other than 200, a body that does not parse and an
empty list of choices are errors; otherwise the trimmed content of the first
choice is returned. -/
def chatResult : ChatReply → Except Err GoString
  | .failed e => .error e
  | .answered status body choices =>
    if status ≠ 200 then .error (.apiError status body)
    else
      match choices with
      | .error e => .error e
      | .ok [] => .error .noResponse
      | .ok (c :: _) => .ok (trimSpace c)

/-- The exchange shared by `SummarizeWithAI` and `ExtractFocusedContent`: the
request is built and recorded, its body is marshalled and posted, which takes
time, and the reply to what the endpoint received is evaluated. -/
def postChat (env : Env) (config : Config) (prompt : GoString) (w : World) :
    Except Err GoString × World :=
  let req : ChatRequest := ⟨config.LLMAPIURL, config.LLMAPIKey, config.LLMAPIModel, prompt⟩
  let w1 : World := { w with now := w.now + env.elapsed w, out := w.out ++ [.chat req] }
  (chatResult (env.chat w (wireRequest req)), w1)

/-- The function `SummarizeWithAI`. -/
def SummarizeWithAI (env : Env) (config : Config) (htmlContent url : GoString) (w : World) :
    Except Err GoString × World :=
  postChat env config (summaryPrompt config htmlContent url) w

/-- The function `ExtractFocusedContent`. -/
def ExtractFocusedContent (env : Env) (config : Config) (summary : GoString) (w : World) :
    Except Err GoString × World :=
  if config.FocusTopics = [] then (.ok [], w)
  else postChat env config (focusPrompt config summary) w

/-! ## The summary store (`storage.go`) -/

/-- The function `getSummaryFilePath`. -/
def getSummaryFilePath (env : Env) (w : World) (url : GoString) : Except Err Path :=
  hashedPath env w .summaries (lit ".md") url

/-- The function `getFocusFilePath`. -/
def getFocusFilePath (env : Env) (w : World) (url : GoString) : Except Err Path :=
  hashedPath env w .focus (lit ".md") url

/-- The document written by `StoreSummarization`. -/
def summaryDocument (env : Env) (w : World) (url summary : GoString) : GoString :=
  lit "# Summary for: " ++ url ++ lit "\n\nGenerated: " ++ env.fmtTime w.now ++ lit "\n\n---\n\n" ++
    summary ++ lit "\n"

/-- The function `StoreSummarization`. -/
def StoreSummarization (env : Env) (url summary : GoString) (w : World) : Except Err Unit × World :=
  match getSummaryFilePath env w url with
  | .error e => (.error e, w)
  | .ok summaryPath => writeFile env summaryPath (summaryDocument env w url summary) w

/-- The function `StoreFocusedContent`. -/
def StoreFocusedContent (env : Env) (url focused : GoString) (w : World) : Except Err Unit × World :=
  match getFocusFilePath env w url with
  | .error e => (.error e, w)
  | .ok focusPath => writeFile env focusPath focused w

/-- The path of the combined focus document. -/
def combinedPath : Path := ⟨.focus, lit "combined.md"⟩

/-- The document written by `StoreCombinedFocusedContent`. -/
def combinedDocument (env : Env) (w : World) (focused : GoString) : GoString :=
  lit "# Combined Focus Summary\n\nGenerated: " ++ env.fmtTime w.now ++ lit "\n\n---\n\n" ++
    focused ++ lit "\n"

/-- The function `StoreCombinedFocusedContent`. -/
def StoreCombinedFocusedContent (env : Env) (focused : GoString) (w : World) :
    Except Err Unit × World :=
  match GetDataDir env w with
  | .error e => (.error e, w)
  | .ok _ =>
    match env.mkdirErr w .focus with
    | some e => (.error e, w)
    | none => writeFile env combinedPath (combinedDocument env w focused) w

/-- The function `GetFocusedContent`: a missing document reads as empty. -/
def GetFocusedContent (env : Env) (w : World) (url : GoString) : Except Err GoString :=
  match getFocusFilePath env w url with
  | .error e => .error e
  | .ok focusPath =>
    match readFile env w focusPath with
    | .error .notExist => .ok []
    | .error e => .error e
    | .ok data => .ok data

/-- The function `ClearAllData`: the data directory goes with everything in
it, the PID file and the log included.  The stat of the directory, which makes
the function return early when there is no data directory and hence no file,
is not modelled. -/
def ClearAllData (env : Env) (w : World) : Except Err Unit × World :=
  match GetDataDir env w with
  | .error e => (.error e, w)
  | .ok dataDir =>
    match env.removeAllErr w dataDir with
    | some e => (.error (.removeDataDir e), w)
    | none => (.ok (), { w with files := [] })

/-! ## The pipeline (`main.go`) -/

/-- The function `validateConfig`, `none` standing for `nil`. -/
def validateConfig (config : Config) : Option Err :=
  if config.Sources.length = 0 then some .noSources
  else if config.LLMAPIKey = [] then some .apiKeyNotSet
  else if config.LLMAPIURL = [] then some .apiURLNotSet
  else if config.LLMAPIModel = [] then some .apiModelNotSet
  else none

/-- The block that `processSource` and `processSourceLogged` share (lines
320 to 341 of `main.go`, 193 to 214 of `daemon.go`): the cache is asked; on a
hit the entry is read, on a miss the source is fetched and the result cached. -/
def loadContent (env : Env) (source : GoString) (w : World) : Except Err GoString × World :=
  match IsCached env w source with
  | .error e => (.error e, w)
  | .ok true => (GetCachedContent env w source, w)
  | .ok false =>
    match CrawlWebsite env source w with
    | (.error e, w1) => (.error e, w1)
    | (.ok content, w1) =>
      match CacheContent env source content w1 with
      | (.error e, w2) => (.error e, w2)
      | (.ok _, w2) => (.ok content, w2)

/-- The function `processSource` of `main.go`. -/
def processSource (env : Env) (config : Config) (source : GoString) (w : World) :
    Except Err GoString × World :=
  match loadContent env source (w.log (.processing source)) with
  | (.error e, w1) => (.error e, w1)
  | (.ok content, w1) =>
    match SummarizeWithAI env config content source w1 with
    | (.error e, w2) => (.error e, w2)
    | (.ok summary, w2) =>
      match StoreSummarization env source summary w2 with
      | (.error e, w3) => (.error e, w3)
      | (.ok _, w3) => (.ok summary, w3.log (.completed source))

/-- The separator of the combined summaries. -/
def summarySeparator : GoString := lit "\n\n---\n\n"

/-- The loop of `runOnce` over the sources: a failed source is reported and
skipped; a summary is collected when focus topics are set and it is not
empty. -/
def runOnceLoop (env : Env) (config : Config) :
    List GoString → List GoString → World → List GoString × World
  | [], allSummaries, w => (allSummaries, w)
  | source :: rest, allSummaries, w =>
    match processSource env config source w with
    | (.error e, w1) => runOnceLoop env config rest allSummaries (w1.log (.errorProcessing source e))
    | (.ok summary, w1) =>
      if config.FocusTopics ≠ [] ∧ summary ≠ [] then
        runOnceLoop env config rest (allSummaries ++ [summary]) w1
      else runOnceLoop env config rest allSummaries w1

/-- The end of `runOnce`: the focus extraction over the combined summaries. -/
def combineFocus (env : Env) (config : Config) (allSummaries : List GoString) (w : World) : World :=
  if config.FocusTopics ≠ [] ∧ allSummaries.length > 0 then
    match ExtractFocusedContent env config (join summarySeparator allSummaries) w with
    | (.error e, w1) => w1.log (.warnExtract e)
    | (.ok focused, w1) =>
      if focused ≠ [] ∧ focused ≠ noRelevantContent then
        match StoreCombinedFocusedContent env focused w1 with
        | (.error e, w2) => w2.log (.warnStore e)
        | (.ok _, w2) => w2
      else w1
  else w

/-- The function `runOnce` of `main.go`. -/
def runOnce (env : Env) (config : Config) (w : World) : Except Err Unit × World :=
  match validateConfig config with
  | some e => (.error e, w)
  | none =>
    match runOnceLoop env config config.Sources [] w with
    | (allSummaries, w1) => (.ok (), combineFocus env config allSummaries w1)

/-! ## The daemon's run (`daemon.go`) -/

/-- The focus step of `processSourceLogged` (lines 226 to 235 of `daemon.go`):
with focus topics set, the focused content of the summary is asked for; a
failure is a warning; a result that is neither empty nor the sentinel is
stored as the focus document of the source, a failure to store being a warning
as well. -/
def focusStep (env : Env) (config : Config) (source summary : GoString) (w : World) : World :=
  if config.FocusTopics ≠ [] then
    match ExtractFocusedContent env config summary w with
    | (.error e, w1) => w1.log (.warnExtract e)
    | (.ok focused, w1) =>
      if focused ≠ [] ∧ focused ≠ noRelevantContent then
        match StoreFocusedContent env source focused w1 with
        | (.error e, w2) => w2.log (.warnStore e)
        | (.ok _, w2) => w2
      else w1
  else w

/-- The function `processSourceLogged` of `daemon.go`. -/
def processSourceLogged (env : Env) (config : Config) (source : GoString) (w : World) :
    Except Err Unit × World :=
  match loadContent env source (w.log (.processing source)) with
  | (.error e, w1) => (.error e, w1)
  | (.ok content, w1) =>
    match SummarizeWithAI env config content source w1 with
    | (.error e, w2) => (.error e, w2)
    | (.ok summary, w2) =>
      match StoreSummarization env source summary w2 with
      | (.error e, w3) => (.error e, w3)
      | (.ok _, w3) => (.ok (), (focusStep env config source summary w3).log (.completed source))

/-- The loop of `runOnceLogged` over the sources. -/
def runOnceLoggedLoop (env : Env) (config : Config) : List GoString → World → World
  | [], w => w
  | source :: rest, w =>
    match processSourceLogged env config source w with
    | (.error e, w1) => runOnceLoggedLoop env config rest (w1.log (.errorProcessing source e))
    | (.ok _, w1) => runOnceLoggedLoop env config rest w1

/-- The function `runOnceLogged` of `daemon.go`. -/
def runOnceLogged (env : Env) (config : Config) (w : World) : Except Err Unit × World :=
  match validateConfig config with
  | some e => (.error e, w)
  | none => (.ok (), runOnceLoggedLoop env config config.Sources w)

/-! ## The daemon (`daemon.go`) -/

/-- The PID file `nub.pid` of the data directory (`GetPidPath`). -/
def pidPath : Path := ⟨.data, lit "nub.pid"⟩

/-- The log file `nub.log` of the data directory (`GetLogPath`). -/
def logPath : Path := ⟨.data, lit "nub.log"⟩

/-- The leading white space that `fmt.Sscanf` skips before a `%d`; a line feed
is an error, `none`. -/
def skipSpaceFuel : Nat → GoString → Option GoString
  | 0, s => some s
  | n + 1, s =>
    if hasPrefix s [10] ∧ s ≠ [] then none
    else
      match leadingSpace spaceEncodings s with
      | some k => skipSpaceFuel n (s.drop k)
      | none => some s

/-- The value of a sequence of decimal digits. -/
def decimalValue (digits : List Nat) : Nat := digits.foldl (fun v d => 10 * v + (d - 48)) 0

/-- The integer that `fmt.Sscanf(data, "%d", &pid)` leaves in `pid`, which
starts as 0: white space is skipped, one sign is accepted, and the decimal
digits that follow, up to the first byte that is not a digit, are handed to
`strconv.ParseInt(tok, 10, 64)`; what stands after the digits is not looked
at.  On any error, a line feed in the white space, no digit, or a value out of
the range of 64 bits, `pid` stays 0. -/
def scanInt (data : GoString) : Int :=
  match skipSpaceFuel data.length data with
  | none => 0
  | some s =>
    let neg := hasPrefix s [45] && s != []
    let s1 := if (hasPrefix s [45] || hasPrefix s [43]) && s != [] then s.drop 1 else s
    let tok := s1.takeWhile (fun b => 48 ≤ b && b ≤ 57)
    if tok = [] then 0
    else if neg then (if decimalValue tok ≤ 9223372036854775808 then -(decimalValue tok : Int) else 0)
    else (if decimalValue tok < 9223372036854775808 then (decimalValue tok : Int) else 0)

/-- The decimal digits of a number, most significant first; the fuel bounds
the number of digits. -/
def decimalDigits : Nat → Nat → GoString
  | 0, _ => []
  | f + 1, n => if n < 10 then [48 + n] else decimalDigits f (n / 10) ++ [48 + n % 10]

/-- The string `fmt.Sprintf("%d", pid)` for a process id. -/
def formatPid (pid : Nat) : GoString := decimalDigits (pid + 1) pid

/-- Whether the process table has a live process with the id `pid`. -/
def processAlive (w : World) (pid : Nat) : Bool := w.procs.any (fun p => p.pid == pid && p.alive)

/-- The process id that the kernel reads from the 64-bit `int` that Go hands to
`kill`: the low 32 bits, as a signed number (`pid_t`). -/
def pidT (pid : Int) : Int := (pid + 2147483648) % 4294967296 - 2147483648

/-- The processes that a signal sent with `process.Signal` on
`os.FindProcess(pid)` reaches: the live process whose id is the positive
`pidT pid`, if there is one, and for a `pidT pid` that is not positive the
processes that the kernel resolves it to. -/
def reached (env : Env) (w : World) (pid : Int) : List Nat :=
  if 0 < pidT pid then (if processAlive w (pidT pid).toNat then [(pidT pid).toNat] else [])
  else env.group w (pidT pid)

/-- Whether `process.Signal(syscall.Signal(0))` on `os.FindProcess(pid)`
returns no error: the signal reaches a process. -/
def probe (env : Env) (w : World) (pid : Int) : Bool := !(reached env w pid).isEmpty

/-- The call `os.Remove`, whose error the callers ignore. -/
def removeFile (env : Env) (p : Path) (w : World) : World :=
  match env.removeErr w p with
  | some _ => w
  | none => { w with files := w.files.filter (fun pf => pf.1 != p) }

/-- The function `IsDaemonRunning`: the PID file is read and scanned; a
positive process id is probed with signal 0; when the probe fails the PID file
is removed. -/
def IsDaemonRunning (env : Env) (w : World) : (Bool × Int) × World :=
  match GetDataDir env w with
  | .error _ => ((false, 0), w)
  | .ok _ =>
    match readFile env w pidPath with
    | .error _ => ((false, 0), w)
    | .ok data =>
      let pid := scanInt data
      if pid ≤ 0 then ((false, 0), w)
      else if probe env w pid then ((true, pid), w)
      else ((false, 0), removeFile env pidPath w)

/-- The call `os.OpenFile(logPath, O_CREATE|O_WRONLY|O_APPEND, 0644)`: the
log file is created, empty, when it is missing. -/
def openLog (env : Env) (w : World) : Option Err × World :=
  match env.openLogErr w with
  | some e => (some e, w)
  | none =>
    match getFile w.files logPath with
    | some _ => (none, w)
    | none => (none, { w with files := putFile w.files logPath ⟨[], w.now⟩ })

/-- The function `StartDaemon`.  Its argument `config` only feeds the message
printed after a successful start and is left out. -/
def StartDaemon (env : Env) (w : World) : Except Err Unit × World :=
  match GetDataDir env w with
  | .error e => (.error e, w)
  | .ok _ =>
    match IsDaemonRunning env w with
    | ((true, pid), w1) => (.error (.alreadyRunning pid), w1)
    | ((false, _), w1) =>
      match env.mkdirErr w1 .data with
      | some e => (.error (.createDataDir e), w1)
      | none =>
        match openLog env w1 with
        | (some e, w2) => (.error (.openLogFile e), w2)
        | (none, w2) =>
          match env.executableErr w2 with
          | some e => (.error e, w2)
          | none =>
            match env.spawn w2 with
            | .error e => (.error (.startDaemon e), w2)
            | .ok pid =>
              let w3 : World :=
                { w2 with procs := w2.procs ++ [⟨pid, true, false, true⟩],
                          out := w2.out ++ [.spawned pid] }
              match writeFile env pidPath (formatPid pid) w3 with
              | (.error e, w4) => (.error (.writePidFile e), w4)
              | (.ok _, w4) => (.ok (), w4)

/-- The call `process.Signal(syscall.SIGTERM)` with the process id `pid`: the
live processes among those that the signal reaches are marked, and the call
is recorded with the process id as the program passes it. -/
def sendTerm (targets : List Nat) (pid : Nat) (w : World) : World :=
  { w with procs := w.procs.map (fun p =>
             if p.pid ∈ targets ∧ p.alive then { p with termSent := true } else p),
           out := w.out ++ [.sigterm pid] }

/-- The function `StopDaemon`; `os.FindProcess` does not fail on Unix. -/
def StopDaemon (env : Env) (w : World) : Except Err Unit × World :=
  match IsDaemonRunning env w with
  | ((false, _), w1) => (.error .notRunning, w1)
  | ((true, pid), w1) =>
    if probe env w1 pid then
      (.ok (), removeFile env pidPath (sendTerm (reached env w1 pid) pid.toNat w1))
    else (.error (.stopDaemon (.sys 3)), w1)

/-- The exit of the process with a process id. -/
def processExit (pid : Nat) (w : World) : World :=
  { w with procs := w.procs.map (fun p => if p.pid = pid then { p with alive := false } else p) }

/-- The commands of the operator, and the exit of a process. -/
inductive Command
  | startBackground
  | stopBackground
  | runOnce
  | clearCache
  | clearAllData
  | exit (pid : Nat)
  deriving DecidableEq, Repr

/-- The world after a command, whatever the command reports. -/
def perform (env : Env) (config : Config) (w : World) : Command → World
  | .startBackground => (StartDaemon env w).2
  | .stopBackground => (StopDaemon env w).2
  | .runOnce => (runOnce env config w).2
  | .clearCache => (ClearCache env w).2
  | .clearAllData => (ClearAllData env w).2
  | .exit pid => processExit pid w

/-- The world after a sequence of commands. -/
def performAll (env : Env) (config : Config) (w : World) (cs : List Command) : World :=
  cs.foldl (perform env config) w

/-- The daemon children that have neither exited nor been sent SIGTERM. -/
def liveDaemons (w : World) : List Proc :=
  w.procs.filter (fun p => p.daemon && p.alive && !p.termSent)

/-! ## Reading the record of actions -/

/-- The source of a `Processing:` line. -/
def Event.attempt? : Event → Option GoString
  | .processing s => some s
  | _ => none

/-- The source and the outcome of a line that closes an attempt: `true` for
`Completed`, `false` for `Error processing`. -/
def Event.outcome? : Event → Option (GoString × Bool)
  | .completed s => some (s, true)
  | .errorProcessing s _ => some (s, false)
  | _ => none

/-- The path and content of a file written in a given directory. -/
def Event.wrote? (d : Dir) : Event → Option (Path × GoString)
  | .wrote p c => if p.dir = d then some (p, c) else none
  | _ => none

/-- The URL of an HTTP GET. -/
def Event.fetch? : Event → Option GoString
  | .httpGet u => some u
  | _ => none

/-- The prompt of a chat request. -/
def Event.prompt? : Event → Option GoString
  | .chat r => some r.prompt
  | _ => none

/-- The sources attempted, in order. -/
def attempts (out : List Event) : List GoString := out.filterMap Event.attempt?

/-- The attempts closed, in order, each with its outcome. -/
def outcomes (out : List Event) : List (GoString × Bool) := out.filterMap Event.outcome?

/-- The files written in a directory, in order. -/
def writesIn (d : Dir) (out : List Event) : List (Path × GoString) := out.filterMap (Event.wrote? d)

/-- The URLs fetched, in order. -/
def fetches (out : List Event) : List GoString := out.filterMap Event.fetch?

/-- The prompts sent to the chat endpoint, in order. -/
def prompts (out : List Event) : List GoString := out.filterMap Event.prompt?

/-- The file that holds the summary document of a source. -/
def summaryFile (source : GoString) : Path := ⟨.summaries, hexEncode (md5Sum source) ++ lit ".md"⟩

/-- The file that holds the focus document of a source. -/
def focusFile (source : GoString) : Path := ⟨.focus, hexEncode (md5Sum source) ++ lit ".md"⟩

/-- The file that holds the cache entry of a source. -/
def cacheFile (source : GoString) : Path := ⟨.cache, hexEncode (md5Sum source) ++ lit ".html"⟩

/-- Step 1 of the specified pipeline succeeds with `content`: the cache is
queried and either hits and is read, or misses, the source is fetched and the
result is written to the cache. -/
def LoadOk (env : Env) (source content : GoString) (w w1 : World) : Prop :=
  (IsCached env w source = .ok true ∧ GetCachedContent env w source = .ok content ∧ w1 = w) ∨
  (IsCached env w source = .ok false ∧ ∃ wf, CrawlWebsite env source w = (.ok content, wf) ∧
     CacheContent env source content wf = (.ok (), w1))

/-- Steps 1 to 3 of the specified pipeline all succeed for a source: the
content is obtained, it is summarized, and the summary is persisted. -/
def Steps123 (env : Env) (config : Config) (source summary : GoString) (w w' : World) : Prop :=
  ∃ content w1 w2, LoadOk env source content w w1 ∧
    SummarizeWithAI env config content source w1 = (.ok summary, w2) ∧
    StoreSummarization env source summary w2 = (.ok (), w')

/-- What the failure isolation asks of one attempt that ends in `w'` with
success `ok`: the source is announced once; the attempt is marked completed
exactly when it succeeds; the summary document of the source, and no other, is
written exactly when it succeeds; and it succeeds exactly when steps 1 to 3
all succeed. -/
def AttemptSpec (env : Env) (config : Config) (source : GoString) (w : World) (ok : Bool)
    (w' : World) : Prop :=
  ∃ δ, w'.out = w.out ++ δ ∧ attempts δ = [source] ∧
    outcomes δ = (if ok then [(source, true)] else []) ∧
    (writesIn .summaries δ).map Prod.fst = (if ok then [summaryFile source] else []) ∧
    (ok = true ↔ ∃ summary w3, Steps123 env config source summary (w.log (.processing source)) w3)

/-- The relation between the summary documents written and the attempts
completed, which is kept by concatenation. -/
def SummariesMatch (Δ : List Event) : Prop :=
  (writesIn .summaries Δ).map Prod.fst =
    ((outcomes Δ).filter (fun o => o.2)).map (fun o => summaryFile o.1)

/-- What the failure isolation asks of a run from `w` to `w'`: every
configured source is announced exactly once, in the configured order; every
attempt is closed, in the same order, as completed or as failed; and the
summary documents written are those of the completed attempts, in order. -/
def RunSpec (config : Config) (w w' : World) : Prop :=
  ∃ Δ, w'.out = w.out ++ Δ ∧ attempts Δ = config.Sources ∧
    (outcomes Δ).map Prod.fst = config.Sources ∧ SummariesMatch Δ

/-- The request that `ExtractFocusedContent` builds for a text. -/
def focusRequest (config : Config) (text : GoString) : ChatRequest :=
  ⟨config.LLMAPIURL, config.LLMAPIKey, config.LLMAPIModel, focusPrompt config text⟩

/-- The actions that a focus extraction over `text` in the world `w` may
leave, the result going to the file `target` with the content `doc`: none at
all; the request alone; the request and a warning; or the request and the
write of `target`, which needs a result that is neither empty nor the
sentinel. -/
def FocusActions (env : Env) (config : Config) (target : Path) (doc : GoString → World → GoString)
    (text : GoString) (w : World) (δ : List Event) : Prop :=
  δ = [] ∨ δ = [.chat (focusRequest config text)] ∨
  (∃ x, δ = [.chat (focusRequest config text), .warnExtract x]) ∨
  (∃ x, δ = [.chat (focusRequest config text), .warnStore x]) ∨
  (∃ focused w1, δ = [.chat (focusRequest config text), .wrote target (doc focused w1)] ∧
    config.FocusTopics ≠ [] ∧ focused ≠ [] ∧ focused ≠ noRelevantContent ∧
    ExtractFocusedContent env config text w = (.ok focused, w1))

/-- The run of the specification as a fold over the source list: every source
is attempted in turn, whatever the results before it, a failure is reported,
and the results are listed in the order of the sources. -/
def attemptAll (env : Env) (config : Config) : List GoString → World →
    List (Except Err GoString) × World
  | [], w => ([], w)
  | source :: rest, w =>
    match processSource env config source w with
    | (.error e, w1) =>
      ((Except.error e) :: (attemptAll env config rest (w1.log (.errorProcessing source e))).1,
       (attemptAll env config rest (w1.log (.errorProcessing source e))).2)
    | (.ok summary, w1) =>
      ((Except.ok summary) :: (attemptAll env config rest w1).1, (attemptAll env config rest w1).2)

/-- The summary bodies that go into the aggregation: with focus topics set,
those of the successful attempts that are not empty, in order. -/
def collected (config : Config) : List (Except Err GoString) → List GoString
  | [] => []
  | .error _ :: rest => collected config rest
  | .ok summary :: rest =>
    if config.FocusTopics ≠ [] ∧ summary ≠ [] then summary :: collected config rest
    else collected config rest

/-! ## Concrete scenarios -/

/-- A process id above 99 and above every process id of the process table. -/
def freshPid (w : World) : Nat := (w.procs.map Proc.pid).foldr max 99 + 1

/-- An environment in which no system call fails, every request takes one
second, fetching succeeds with a small page except for the URLs in `down`,
the chat endpoint answers with status 200 and the single choice `answer req`,
and a spawned child gets the process id `freshPid`.  The caller is the process
99, alone in its process group; every daemon child leads a process group of
its own, as `Setsid` makes it, and no other process group can be signalled. -/
def scenarioEnv (down : List GoString) (answer : ChatRequest → GoString) : Env where
  homeErr _ := none
  mkdirErr _ _ := none
  statErr _ _ := none
  readErr _ _ := none
  writeErr _ _ := none
  removeAllErr _ _ := none
  fetch _ url := if url ∈ down then .error (.sys 1) else .ok (lit "<p>news of the day</p>")
  chat _ req := .answered 200 [] (.ok [answer req])
  elapsed _ := 1000000000
  fmtTime _ := lit "2026-01-01T00:00:00Z"
  removeErr _ _ := none
  openLogErr _ := none
  executableErr _ := none
  spawn w := if freshPid w < 2147483648 then .ok (freshPid w) else .error (.sys 11)
  group w t :=
    if t = 0 then [99]
    else if t = -1 then (w.procs.filter (fun p => p.alive && p.pid != 1)).map Proc.pid
    else (w.procs.filter (fun p => p.alive && p.daemon && p.pid == (-t).toNat)).map Proc.pid

/-- A world with no files, no processes and no actions yet. -/
def emptyWorld : World := ⟨0, [], [], []⟩

/-- A configuration with the three sources `a`, `b`, `c` and no focus topics. -/
def threeSources : Config :=
  ⟨[lit "a", lit "b", lit "c"], lit "key", lit "https://llm.example", lit "model", 15, [], []⟩

/-- The environment in which the fetch of `b` fails and every chat request is
answered with `S`. -/
def secondDown : Env := scenarioEnv [lit "b"] (fun _ => lit "S")

/-- A configuration with the two sources of the end-to-end scenarios and the
focus topics `security`. -/
def twoSources : Config :=
  ⟨[lit "https://a.example", lit "https://b.example"], lit "key", lit "https://llm.example",
   lit "model", 15, [], lit "security"⟩

/-- The environment of the second end-to-end scenario: nothing fails, every
summary request is answered with `Summary` and every focus request with a
bullet that is not the sentinel. -/
def focusEnv : Env :=
  scenarioEnv [] (fun req =>
    if hasPrefix req.prompt (lit "Extract only") then lit "- a security item" else lit "Summary")

/-- A result of the focus extraction that is not to be stored: a failure, the
empty string, or exactly the sentinel. -/
def Unusable (r : Except Err GoString) : Prop :=
  (∃ e, r = .error e) ∨ r = .ok [] ∨ r = .ok noRelevantContent

/-- Each focus document written by the actions `δ` belongs to one of the
sources, was asked for with focus topics set, and is neither empty nor the
sentinel. -/
def FocusWritesUsable (config : Config) (sources : List GoString) (δ : List Event) : Prop :=
  ∀ pc ∈ writesIn .focus δ, config.FocusTopics ≠ [] ∧ (∃ s ∈ sources, pc.1 = focusFile s) ∧
    pc.2 ≠ [] ∧ pc.2 ≠ noRelevantContent

/-- The focus documents written by a run of the on-demand path: none, or the
combined document alone, made from a usable result of the extraction over
summaries joined by the separator. -/
def CombinedWriteUsable (env : Env) (config : Config) (δ : List Event) : Prop :=
  writesIn .focus δ = [] ∨
  ∃ all v focused v1, config.FocusTopics ≠ [] ∧ all ≠ [] ∧
    ExtractFocusedContent env config (join summarySeparator all) v = (.ok focused, v1) ∧
    focused ≠ [] ∧ focused ≠ noRelevantContent ∧
    writesIn .focus δ = [(combinedPath, combinedDocument env v1 focused)]

/-- The first end-to-end scenario: two sources, no focus topics. -/
def twoSourcesNoFocus : Config := { twoSources with FocusTopics := [] }

/-- The environment in which nothing fails and every focus request is
answered with the sentinel. -/
def sentinelEnv : Env :=
  scenarioEnv [] (fun req =>
    if hasPrefix req.prompt (lit "Extract only") then noRelevantContent else lit "Summary")

/-- An environment in which `os.Stat` fails with a permission error and
nothing else fails. -/
def statFails : Env := { scenarioEnv [] (fun _ => lit "S") with statErr := fun _ _ => some (.sys 13) }

/-- An environment in which `os.ReadFile` fails with an input/output error and
nothing else fails. -/
def readFails : Env := { scenarioEnv [] (fun _ => lit "S") with readErr := fun _ _ => some (.sys 5) }

/-- A world at time 0 whose cache holds a fresh entry for the source `a`. -/
def cachedWorld : World :=
  { emptyWorld with files := [(cacheFile (lit "a"), ⟨lit "<p>cached page</p>", 0⟩)] }

/-- The world `cachedWorld` twenty-five hours later. -/
def staleWorld : World := { cachedWorld with now := 25 * 3600 * 1000000000 }

/-- The world `cachedWorld` twenty-four hours later, to the nanosecond. -/
def dayLaterWorld : World := { cachedWorld with now := 24 * 3600 * 1000000000 }

/-- The world after the store of `one` for the source `a` in the empty world. -/
def storedOnce : World := (CacheContent focusEnv (lit "a") (lit "one") emptyWorld).2

/-- The world after the store of `two` for the source `a` that follows. -/
def storedTwice : World := (CacheContent focusEnv (lit "a") (lit "two") storedOnce).2

/-- The world `storedTwice` one hour later. -/
def hourLater : World := { storedTwice with now := 3600 * 1000000000 }

/-- The request that `SummarizeWithAI` builds for a content and a source. -/
def summaryRequest (config : Config) (content source : GoString) : ChatRequest :=
  ⟨config.LLMAPIURL, config.LLMAPIKey, config.LLMAPIModel, summaryPrompt config content source⟩

/-- Cache-aside with write-through on a miss, for one attempt on `source` that
starts in `w` and ends in `w'` with success `ok`.  On a hit the first action
after the announcement is the summary request for exactly the cached content,
nothing is fetched, and every file of the cache is as before.  On a miss with
a fetch of `c` and a successful store, the fetch, the write of the entry and
the summary request for `c` follow each other in this order, and the entry
holds `c` at the end of the attempt, whatever the outcome.  On a miss with a
fetch of `c` and a failed store, and on a miss with a failed fetch, the attempt
fails and no summary request is sent; after a failed fetch all files are as
before. -/
def CacheAside (env : Env) (config : Config) (source : GoString) (w : World) (ok : Bool)
    (w' : World) : Prop :=
  (∀ content, IsCached env (w.log (.processing source)) source = .ok true →
    GetCachedContent env (w.log (.processing source)) source = .ok content →
    (∃ δ, w'.out = w.out ++ .processing source :: .chat (summaryRequest config content source) :: δ ∧
      fetches δ = []) ∧
    (∀ p, p.dir = .cache → getFile w'.files p = getFile w.files p)) ∧
  (∀ c wf w2, IsCached env (w.log (.processing source)) source = .ok false →
    CrawlWebsite env source (w.log (.processing source)) = (.ok c, wf) →
    CacheContent env source c wf = (.ok (), w2) →
    (∃ δ, w'.out = w.out ++ .processing source :: .httpGet source :: .wrote (cacheFile source) c ::
      .chat (summaryRequest config c source) :: δ) ∧
    getFile w2.files (cacheFile source) = some ⟨c, wf.now⟩ ∧
    getFile w'.files (cacheFile source) = some ⟨c, wf.now⟩) ∧
  (∀ c wf e w2, IsCached env (w.log (.processing source)) source = .ok false →
    CrawlWebsite env source (w.log (.processing source)) = (.ok c, wf) →
    CacheContent env source c wf = (.error e, w2) →
    ok = false ∧ w'.out = w.out ++ [.processing source, .httpGet source]) ∧
  (∀ e wf, IsCached env (w.log (.processing source)) source = .ok false →
    CrawlWebsite env source (w.log (.processing source)) = (.error e, wf) →
    ok = false ∧ w'.files = w.files ∧ w'.out = w.out ++ [.processing source, .httpGet source])

/-- A page of `n` copies of the two-byte character `ä` (U+00E4, bytes
`C3 A4`): `2 * n` bytes, `n` characters, no markup and no white space. -/
def umlauts (n : Nat) : GoString := (List.replicate n [195, 164]).flatten

/-- The environment in which nothing fails, the summary request for the source
`https://a.example` is answered with blanks only, every other summary request
with `Summary`, and every focus request with a bullet. -/
def blankFirstEnv : Env :=
  scenarioEnv [] (fun req =>
    if hasPrefix req.prompt (lit "Extract only") then lit "- a security item"
    else if contains req.prompt (lit "https://a.example") then lit "  "
    else lit "Summary")

/-- An environment in which the PID file can be read and written and in which
a spawned child gets a positive process id, within the range of `pid_t`, that
no live process has. -/
def Reliable (env : Env) : Prop :=
  (∀ w, env.readErr w pidPath = none) ∧ (∀ w, env.writeErr w pidPath = none) ∧
  (∀ w pid, env.spawn w = .ok pid →
    0 < pid ∧ pid < 2147483648 ∧ processAlive w pid = false)

/-- The invariant of single-instance execution: at most one daemon child is
alive without a termination signal, and the PID file holds its process id. -/
def PidRecorded (w : World) : Prop :=
  (liveDaemons w).length ≤ 1 ∧
  ∀ p ∈ liveDaemons w, (∃ f, getFile w.files pidPath = some f ∧ f.content = formatPid p.pid) ∧
    0 < p.pid ∧ p.pid < 2147483648

/-- The process table and the PID file are the same in two worlds. -/
def Untouched (w w' : World) : Prop :=
  w'.procs = w.procs ∧ getFile w'.files pidPath = getFile w.files pidPath

/-! ## Source management (`config.go`) -/

/-- The configuration in memory, which `AddSource` and `RemoveSource` change
in place, and the configuration that `config.json` holds, if the file
exists. -/
structure ConfigState where
  config : Config
  file : Option Config
  deriving DecidableEq, Repr

/-- The function `SaveConfig`: `saveErr` answers for the file system, the
failure to resolve the path, to create the directory or to write the file. -/
def SaveConfig (saveErr : Config → Option Err) (st : ConfigState) : Except Err Unit × ConfigState :=
  match saveErr st.config with
  | some e => (.error e, st)
  | none => (.ok (), { st with file := some st.config })

/-- The function `AddSource`. -/
def AddSource (saveErr : Config → Option Err) (url : GoString) (st : ConfigState) :
    Except Err Unit × ConfigState :=
  if url ∈ st.config.Sources then (.error (.sourceExists url), st)
  else SaveConfig saveErr { st with config := { st.config with Sources := st.config.Sources ++ [url] } }

/-- A signed 64-bit integer from a mathematical integer, with wrap-around. -/
def wrap64 (x : Int) : Int :=
  (x + 9223372036854775808) % 18446744073709551616 - 9223372036854775808

/-- The first loop of `RemoveSource`, over at most 10 bytes: it assigns `-1`
to `idx` at the first byte that is not a digit, and nothing else. -/
def firstLoop (idx : Int) : Nat → GoString → Int
  | 0, _ => idx
  | _ + 1, [] => idx
  | n + 1, b :: rest => if b < 48 ∨ b > 57 then -1 else firstLoop idx n rest

/-- The second loop of `RemoveSource`: `num = num*10 + digit` in 64-bit
arithmetic while the bytes are digits, and `-1` at the first byte that is
not. -/
def parseNum (num : Int) : GoString → Int
  | [] => num
  | b :: rest =>
    if 48 ≤ b ∧ b ≤ 57 then parseNum (wrap64 (num * 10 + ((b : Int) - 48))) rest else -1

/-- The third loop of `RemoveSource`: the index of the first source equal to
the argument, counted from `i`, or `-1`. -/
def findSource (idOrURL : GoString) : List GoString → Int → Int
  | [], _ => -1
  | source :: rest, i => if source = idOrURL then i else findSource idOrURL rest (i + 1)

/-- The index that `RemoveSource` settles on, `-1` for none. -/
def removeIndex (sources : List GoString) (idOrURL : GoString) : Int :=
  let idx := firstLoop (-1) 10 idOrURL
  let idx :=
    if idx = -1 then
      if parseNum 0 idOrURL ≥ 1 ∧ parseNum 0 idOrURL ≤ (sources.length : Int)
      then parseNum 0 idOrURL - 1 else idx
    else idx
  if idx = -1 then findSource idOrURL sources 0 else idx

/-- The function `RemoveSource`. -/
def RemoveSource (saveErr : Config → Option Err) (idOrURL : GoString) (st : ConfigState) :
    Except Err Unit × ConfigState :=
  if removeIndex st.config.Sources idOrURL = -1 then (.error (.sourceNotFound idOrURL), st)
  else
    SaveConfig saveErr
      { st with config := { st.config with
          Sources := st.config.Sources.eraseIdx (removeIndex st.config.Sources idOrURL).toNat } }

/-- The string `fmt.Sprintf("%d", n)` for a number that is not negative. -/
def formatInt (n : Nat) : GoString := decimalDigits (n + 1) n

/-- The lines that `ListSources` prints: the 1-based ID of every source, as
printed, with the source. -/
def ListSources (config : Config) : List (GoString × GoString) :=
  config.Sources.enum.map (fun p => (formatInt (p.1 + 1), p.2))

/-! ## The daemon child (`main.go`, `daemon.go`) -/

/-- The duration `time.Minute` in nanoseconds. -/
def minute : Int := 60000000000

/-- The interval `time.Duration(config.ScheduleMinutes) * time.Minute` that
`runDaemonLoop` passes to `time.NewTicker`, in 64-bit arithmetic. -/
def tickerInterval (config : Config) : Int := wrap64 (wrap64 config.ScheduleMinutes * minute)

/-- The runs of `runDaemonLoop` after the ticker is made: the initial run
and one run for each of the `ticks` that the ticker delivers; the error that
a run returns is logged. -/
def daemonRuns (env : Env) (config : Config) : Nat → World → World
  | 0, w => (runOnceLogged env config w).2
  | ticks + 1, w => (runOnceLogged env config (daemonRuns env config ticks w)).2

/-- The function `runDaemonLoop`, followed up to the tick number `ticks`:
`time.NewTicker` panics on an interval that is not positive, before any run. -/
def runDaemonLoop (env : Env) (config : Config) (ticks : Nat) (w : World) :
    Except Err Unit × World :=
  if tickerInterval config ≤ 0 then (.error .nonPositiveInterval, w)
  else (.ok (), daemonRuns env config ticks w)

/-- The function `RunDaemonChild`: a log file that cannot be opened is
fatal. -/
def RunDaemonChild (env : Env) (config : Config) (ticks : Nat) (w : World) :
    Except Err Unit × World :=
  match GetDataDir env w with
  | .error e => (.error e, w)
  | .ok _ =>
    match openLog env w with
    | (some e, w1) => (.error e, w1)
    | (none, w1) => runDaemonLoop env config ticks w1

/-- The branch of `main` for `--daemon-child` on the loaded configuration: a
schedule of 0 minutes becomes 15 minutes. -/
def daemonChildMain (env : Env) (loaded : Config) (ticks : Nat) (w : World) :
    Except Err Unit × World :=
  RunDaemonChild env
    (if loaded.ScheduleMinutes = 0 then { loaded with ScheduleMinutes := 15 } else loaded) ticks w

/-- The world after a first `StartDaemon` in the empty world: the child 100
lives and the PID file holds `100`. -/
def startedWorld : World := (StartDaemon focusEnv emptyWorld).2


/-- A change of the source list that the operator asks for. -/
inductive SourceCommand
  | add (url : GoString)
  | remove (idOrURL : GoString)
  deriving DecidableEq, Repr

/-- The configuration after one change of the source list, whatever the call
reports. -/
def editSources (saveErr : Config → Option Err) (st : ConfigState) : SourceCommand → ConfigState
  | .add url => (AddSource saveErr url st).2
  | .remove idOrURL => (RemoveSource saveErr idOrURL st).2

/-- The configuration after a sequence of changes of the source list. -/
def editSourcesAll (saveErr : Config → Option Err) (st : ConfigState) (cs : List SourceCommand) :
    ConfigState :=
  cs.foldl (editSources saveErr) st

/-- The source list in memory and the one in the file, when there is a file,
have no duplicates. -/
def DuplicateFree (st : ConfigState) : Prop :=
  st.config.Sources.Nodup ∧ ∀ c, st.file = some c → c.Sources.Nodup

/-- A file system on which every write of the configuration succeeds. -/
def alwaysSaved : Config → Option Err := fun _ => none

/-- A configuration with three sources, in memory and in the file. -/
def threeSourcesState : ConfigState := ⟨threeSources, some threeSources⟩

/-- A configuration whose first source is literally the numeral `2`. -/
def numeralSources : ConfigState :=
  ⟨{ threeSources with Sources := [lit "2", lit "x", lit "y"] },
   some { threeSources with Sources := [lit "2", lit "x", lit "y"] }⟩

/-- The configuration whose file was edited to a schedule of `-5` minutes. -/
def negativeSchedule : Config := { threeSources with ScheduleMinutes := -5 }

/-- The configuration whose file was edited to a schedule of 307445735
minutes. -/
def hugeSchedule : Config := { threeSources with ScheduleMinutes := 307445735 }

/-- One round of the tag-stripping loop of `extractTextFromHTML`: the text
after the round, or `none` when the loop is left, because the text has no `<`
or no `>`, or no `>` follows the first `<`. -/
def stripStep (text : GoString) : Option GoString :=
  if contains text [60] && contains text [62] then
    match indexByte text 60 with
    | none => none
    | some start =>
      match indexByte (text.drop start) 62 with
      | none => none
      | some e => some (text.take start ++ [32] ++ text.drop (start + e + 1))
  else none

/-- A world whose PID file holds `6520_0` while the daemon child 6520 is
alive: `%d` reads 6520 and stops at the underscore. -/
def underscoreWorld : World :=
  { emptyWorld with files := [(pidPath, ⟨lit "6520_0", 0⟩)], procs := [⟨6520, true, false, true⟩] }

/-- A world whose PID file holds `4294973826`, which is `2^32 + 6530`, while
the daemon child 6530 is alive: the kernel reads the process id 6530. -/
def wrappedWorld : World :=
  { emptyWorld with files := [(pidPath, ⟨lit "4294973826", 0⟩)],
                    procs := [⟨6530, true, false, true⟩] }

/-- A world whose PID file names the process 4242, which does not exist. -/
def stalePidWorld : World := { emptyWorld with files := [(pidPath, ⟨lit "4242", 0⟩)] }

/-- A page of the letter `a` followed by 4000 copies of `ä`: 8001 bytes, so that
the byte offset 8000 falls between the two bytes of the last character. -/
def splitPage : GoString := 97 :: umlauts 4000

/-- The summary documents are the same files in two worlds. -/
def SummariesKept (w v : World) : Prop :=
  ∀ p, p.dir = .summaries → getFile v.files p = getFile w.files p

/-- Actions that announce no source, close no attempt and write no summary
document. -/
def Quiet (δ : List Event) : Prop :=
  attempts δ = [] ∧ outcomes δ = [] ∧ writesIn .summaries δ = []

/-- What the failure isolation asks of the attempt that a run makes on one
source, from the world `w` that the sources before it have left to the world
`v`, with the outcome `ok`.  The source is announced once and the attempt is
closed once, as completed or as failed.  It is completed exactly when steps
1 to 3 all succeed from `w`.  When it is completed, the content was obtained
by step 1, `summary` is what the summarizer returned for this content, and
the summary document of the source, with its heading, the time stamp and this
summary, was written once and is what the file of the source holds in `v`.
When it fails no summary document is written.  In both cases the summary
documents of the other sources are as in `w`. -/
def IsolatedAttempt (env : Env) (config : Config) (source : GoString) (w : World) (ok : Bool)
    (v : World) : Prop :=
  ∃ δ, v.out = w.out ++ δ ∧ attempts δ = [source] ∧ outcomes δ = [(source, ok)] ∧
    (ok = true ↔
      ∃ summary w3, Steps123 env config source summary (w.log (.processing source)) w3) ∧
    (ok = true → ∃ content w1 summary w2 w3,
      LoadOk env source content (w.log (.processing source)) w1 ∧
      SummarizeWithAI env config content source w1 = (.ok summary, w2) ∧
      StoreSummarization env source summary w2 = (.ok (), w3) ∧
      writesIn .summaries δ =
        [(summaryFile source,
          lit "# Summary for: " ++ source ++ lit "\n\nGenerated: " ++ env.fmtTime w2.now ++
            lit "\n\n---\n\n" ++ summary ++ lit "\n")] ∧
      getFile v.files (summaryFile source) =
        some ⟨lit "# Summary for: " ++ source ++ lit "\n\nGenerated: " ++ env.fmtTime w2.now ++
          lit "\n\n---\n\n" ++ summary ++ lit "\n", w2.now⟩) ∧
    (ok = false → writesIn .summaries δ = [] ∧ SummariesKept w v) ∧
    (∀ p, p.dir = .summaries → p ≠ summaryFile source → getFile v.files p = getFile w.files p)

/-- A run as the failure isolation asks for it: one attempt for each source,
in the order of the list, each starting in the world that the attempt before
it has left, whatever its outcome. -/
def AttemptsInOrder (env : Env) (config : Config) : List GoString → World → World → Prop
  | [], w, v => v = w
  | source :: rest, w, v =>
    ∃ ok u, IsolatedAttempt env config source w ok u ∧ AttemptsInOrder env config rest u v
/-! ## Lemmas on the actions of the single steps -/

theorem attempts_append (a b : List Event) : attempts (a ++ b) = attempts a ++ attempts b := by
  simp [attempts]

theorem outcomes_append (a b : List Event) : outcomes (a ++ b) = outcomes a ++ outcomes b := by
  simp [outcomes]

theorem writesIn_append (d : Dir) (a b : List Event) :
    writesIn d (a ++ b) = writesIn d a ++ writesIn d b := by
  simp [writesIn]

theorem loadContent_ok_iff (env : Env) (source content : GoString) (w w1 : World) :
    loadContent env source w = (.ok content, w1) ↔ LoadOk env source content w w1 := by
  unfold loadContent LoadOk
  rcases hc : IsCached env w source with e | b
  · simp
  · cases b
    · rcases hf : CrawlWebsite env source w with ⟨r, wf⟩
      cases r with
      | error e => simp
      | ok c =>
        dsimp only
        rcases hw : CacheContent env source c wf with ⟨r2, w2⟩
        cases r2 with
        | error e =>
          simp only [Prod.mk.injEq, Except.ok.injEq, false_and, false_iff, Bool.false_eq_true,
            false_or, not_exists, not_and, and_imp, reduceCtorEq, true_and]
          intro wf' h1 h2 h3
          subst h1 h2
          rw [hw] at h3
          simp at h3
        | ok u =>
          simp only [Prod.mk.injEq, Except.ok.injEq, Bool.false_eq_true, false_and, false_or,
            true_and, reduceCtorEq]
          constructor
          · rintro ⟨rfl, rfl⟩
            exact ⟨wf, ⟨rfl, rfl⟩, hw⟩
          · rintro ⟨wf', ⟨h1, h2⟩, h3⟩
            subst h1 h2
            rw [hw] at h3
            simpa using h3
    · simp [Prod.ext_iff, eq_comm]

theorem writeFile_spec (env : Env) (p : Path) (c : GoString) (w : World) :
    (∃ e, writeFile env p c w = (.error e, w)) ∨
    writeFile env p c w =
      (.ok (), { w with files := putFile w.files p ⟨c, w.now⟩, out := w.out ++ [.wrote p c] }) := by
  unfold writeFile
  cases env.writeErr w p <;> simp

theorem hashedPath_spec (env : Env) (w : World) (d : Dir) (ext url : GoString) :
    (∃ e, hashedPath env w d ext url = .error e) ∨
    hashedPath env w d ext url = .ok ⟨d, hexEncode (md5Sum url) ++ ext⟩ := by
  unfold hashedPath GetDataDir
  cases env.homeErr w <;> cases env.mkdirErr w d <;> simp

theorem CacheContent_spec (env : Env) (url c : GoString) (w : World) :
    (∃ e, CacheContent env url c w = (.error e, w)) ∨
    CacheContent env url c w =
      (.ok (), { w with files := putFile w.files (cacheFile url) ⟨c, w.now⟩,
                        out := w.out ++ [.wrote (cacheFile url) c] }) := by
  unfold CacheContent getCacheFilePath
  rcases hashedPath_spec env w .cache (lit ".html") url with ⟨e, h⟩ | h
  · rw [h]; exact Or.inl ⟨e, rfl⟩
  · rw [h]; exact writeFile_spec env _ c w

theorem StoreSummarization_spec (env : Env) (url s : GoString) (w : World) :
    (∃ e, StoreSummarization env url s w = (.error e, w)) ∨
    StoreSummarization env url s w =
      (.ok (), { w with files := putFile w.files (summaryFile url) ⟨summaryDocument env w url s, w.now⟩,
                        out := w.out ++ [.wrote (summaryFile url) (summaryDocument env w url s)] }) := by
  unfold StoreSummarization getSummaryFilePath
  rcases hashedPath_spec env w .summaries (lit ".md") url with ⟨e, h⟩ | h
  · rw [h]; exact Or.inl ⟨e, rfl⟩
  · rw [h]; exact writeFile_spec env _ _ w

theorem StoreFocusedContent_spec (env : Env) (url s : GoString) (w : World) :
    (∃ e, StoreFocusedContent env url s w = (.error e, w)) ∨
    StoreFocusedContent env url s w =
      (.ok (), { w with files := putFile w.files (focusFile url) ⟨s, w.now⟩,
                        out := w.out ++ [.wrote (focusFile url) s] }) := by
  unfold StoreFocusedContent getFocusFilePath
  rcases hashedPath_spec env w .focus (lit ".md") url with ⟨e, h⟩ | h
  · rw [h]; exact Or.inl ⟨e, rfl⟩
  · rw [h]; exact writeFile_spec env _ _ w

theorem StoreCombinedFocusedContent_spec (env : Env) (s : GoString) (w : World) :
    (∃ e, StoreCombinedFocusedContent env s w = (.error e, w)) ∨
    StoreCombinedFocusedContent env s w =
      (.ok (), { w with files := putFile w.files combinedPath ⟨combinedDocument env w s, w.now⟩,
                        out := w.out ++ [.wrote combinedPath (combinedDocument env w s)] }) := by
  unfold StoreCombinedFocusedContent GetDataDir
  cases env.homeErr w with
  | some e => exact Or.inl ⟨e, rfl⟩
  | none =>
    cases env.mkdirErr w .focus with
    | some e => exact Or.inl ⟨e, rfl⟩
    | none => exact writeFile_spec env _ _ w

theorem postChat_snd (env : Env) (config : Config) (p : GoString) (w : World) :
    (postChat env config p w).2 =
      { w with now := w.now + env.elapsed w,
               out := w.out ++ [.chat ⟨config.LLMAPIURL, config.LLMAPIKey, config.LLMAPIModel, p⟩] } := by
  rfl

/-- The actions of the first step: nothing, a fetch, or a fetch and the write
of the cache entry. -/
theorem loadContent_out (env : Env) (source : GoString) (w : World) :
    ∃ δ, (loadContent env source w).2.out = w.out ++ δ ∧
      (δ = [] ∨ δ = [.httpGet source] ∨ ∃ c, δ = [.httpGet source, .wrote (cacheFile source) c]) := by
  unfold loadContent
  rcases IsCached env w source with e | b
  · exact ⟨[], by simp, Or.inl rfl⟩
  · cases b
    · simp only [CrawlWebsite]
      cases hf : env.fetch w source with
      | error e => exact ⟨[.httpGet source], rfl, Or.inr (Or.inl rfl)⟩
      | ok c =>
        dsimp only
        rcases CacheContent_spec env source c
          { w with now := w.now + env.elapsed w, out := w.out ++ [.httpGet source] } with ⟨e, h⟩ | h
        · rw [h]; exact ⟨[.httpGet source], rfl, Or.inr (Or.inl rfl)⟩
        · rw [h]; exact ⟨[.httpGet source, .wrote (cacheFile source) c], by simp, Or.inr (Or.inr ⟨c, rfl⟩)⟩
    · exact ⟨[], by simp, Or.inl rfl⟩

theorem steps123_of_load_ok {env : Env} {config : Config} {source content : GoString} {w w1 : World}
    (hl : loadContent env source w = (.ok content, w1)) (summary : GoString) (w3 : World) :
    Steps123 env config source summary w w3 ↔
      ∃ w2, SummarizeWithAI env config content source w1 = (.ok summary, w2) ∧
        StoreSummarization env source summary w2 = (.ok (), w3) := by
  constructor
  · rintro ⟨c, v1, v2, h1, h2, h3⟩
    have := (loadContent_ok_iff env source c w v1).2 h1
    rw [hl] at this
    simp only [Prod.mk.injEq, Except.ok.injEq] at this
    obtain ⟨rfl, rfl⟩ := this
    exact ⟨v2, h2, h3⟩
  · rintro ⟨w2, h2, h3⟩
    exact ⟨content, w1, w2, (loadContent_ok_iff env source content w w1).1 hl, h2, h3⟩

theorem not_steps123_of_load_error {env : Env} {config : Config} {source : GoString} {w w1 : World}
    {e : Err} (hl : loadContent env source w = (.error e, w1)) (summary : GoString) (w3 : World) :
    ¬ Steps123 env config source summary w w3 := by
  rintro ⟨c, v1, v2, h1, -, -⟩
  have := (loadContent_ok_iff env source c w v1).2 h1
  rw [hl] at this
  simp at this

/-- The actions of the first step concern neither the attempts, nor their
outcomes, nor the summary and focus documents, nor the chat endpoint. -/
theorem load_shape_quiet {source : GoString} {δ : List Event}
    (h : δ = [] ∨ δ = [.httpGet source] ∨ ∃ c, δ = [.httpGet source, .wrote (cacheFile source) c]) :
    attempts δ = [] ∧ outcomes δ = [] ∧ writesIn .summaries δ = [] ∧ writesIn .focus δ = [] ∧
      prompts δ = [] := by
  rcases h with rfl | rfl | ⟨c, rfl⟩ <;>
    simp [attempts, outcomes, writesIn, prompts, Event.attempt?, Event.outcome?, Event.wrote?,
      Event.prompt?, cacheFile]

theorem processSource_attempt (env : Env) (config : Config) (source : GoString) (w : World) :
    AttemptSpec env config source w (processSource env config source w).1.isOk
      (processSource env config source w).2 := by
  unfold processSource AttemptSpec
  obtain ⟨δ1, hδ1, hshape⟩ := loadContent_out env source (w.log (.processing source))
  obtain ⟨q1, q2, q3, -, -⟩ := load_shape_quiet hshape
  rcases hl : loadContent env source (w.log (.processing source)) with ⟨r, w1⟩
  rw [hl] at hδ1
  simp only [World.log] at hδ1
  cases r with
  | error e =>
    refine ⟨.processing source :: δ1, by simp [hδ1], ?_, ?_, ?_, ?_⟩
    · simpa [attempts, Event.attempt?] using q1
    · simpa [outcomes, Event.outcome?, Except.isOk, Except.toBool] using q2
    · simpa [writesIn, Event.wrote?, Except.isOk, Except.toBool] using q3
    · simp only [Except.isOk, Except.toBool, Bool.false_eq_true, false_iff, not_exists]
      intro summary w3
      exact not_steps123_of_load_error hl summary w3
  | ok content =>
    dsimp only
    rcases hs : SummarizeWithAI env config content source w1 with ⟨r2, w2⟩
    have hw2 := postChat_snd env config (summaryPrompt config content source) w1
    unfold SummarizeWithAI at hs
    rw [hs] at hw2
    simp only at hw2
    cases r2 with
    | error e =>
      refine ⟨.processing source :: δ1 ++ [.chat ⟨config.LLMAPIURL, config.LLMAPIKey,
        config.LLMAPIModel, summaryPrompt config content source⟩], by simp [hw2, hδ1], ?_, ?_, ?_, ?_⟩
      · simpa [attempts, Event.attempt?] using q1
      · simpa [outcomes, Event.outcome?, Except.isOk, Except.toBool] using q2
      · simpa [writesIn, Event.wrote?, Except.isOk, Except.toBool] using q3
      · simp only [Except.isOk, Except.toBool, Bool.false_eq_true, false_iff, not_exists]
        intro summary w3 h
        obtain ⟨v2, h2, -⟩ := (steps123_of_load_ok hl summary w3).1 h
        unfold SummarizeWithAI at h2
        rw [hs] at h2
        simp at h2
    | ok summary =>
      dsimp only
      rcases StoreSummarization_spec env source summary w2 with ⟨e, h⟩ | h
      · rw [h]
        refine ⟨.processing source :: δ1 ++ [.chat ⟨config.LLMAPIURL, config.LLMAPIKey,
          config.LLMAPIModel, summaryPrompt config content source⟩], by simp [hw2, hδ1], ?_, ?_, ?_, ?_⟩
        · simpa [attempts, Event.attempt?] using q1
        · simpa [outcomes, Event.outcome?, Except.isOk, Except.toBool] using q2
        · simpa [writesIn, Event.wrote?, Except.isOk, Except.toBool] using q3
        · simp only [Except.isOk, Except.toBool, Bool.false_eq_true, false_iff, not_exists]
          intro summary' w3 h'
          obtain ⟨v2, h2, h3⟩ := (steps123_of_load_ok hl summary' w3).1 h'
          unfold SummarizeWithAI at h2
          rw [hs] at h2
          simp only [Prod.mk.injEq, Except.ok.injEq] at h2
          obtain ⟨rfl, rfl⟩ := h2
          rw [h] at h3
          simp at h3
      · rw [h]
        refine ⟨.processing source :: δ1 ++ [.chat ⟨config.LLMAPIURL, config.LLMAPIKey,
          config.LLMAPIModel, summaryPrompt config content source⟩,
          .wrote (summaryFile source) (summaryDocument env w2 source summary), .completed source],
          by simp [World.log, hw2, hδ1], ?_, ?_, ?_, ?_⟩
        · simpa [attempts, Event.attempt?] using q1
        · simpa [outcomes, Event.outcome?, Except.isOk, Except.toBool] using q2
        · simpa [writesIn, Event.wrote?, Except.isOk, Except.toBool, summaryFile] using q3
        · simp only [Except.isOk, Except.toBool, true_iff]
          exact ⟨summary, _, (steps123_of_load_ok hl summary _).2 ⟨w2, hs, h⟩⟩

theorem focusStep_out (env : Env) (config : Config) (source summary : GoString) (w : World) :
    ∃ δ, (focusStep env config source summary w).out = w.out ++ δ ∧
      FocusActions env config (focusFile source) (fun focused _ => focused) summary w δ := by
  unfold focusStep FocusActions focusRequest
  by_cases hf : config.FocusTopics = []
  · exact ⟨[], by simp [hf], Or.inl rfl⟩
  · simp only [ne_eq, hf, not_false_eq_true, ↓reduceIte]
    have hE : ExtractFocusedContent env config summary w =
        postChat env config (focusPrompt config summary) w := by
      simp [ExtractFocusedContent, hf]
    have hw := postChat_snd env config (focusPrompt config summary) w
    rw [hE]
    rcases hp : postChat env config (focusPrompt config summary) w with ⟨r, w1⟩
    rw [hp] at hw
    simp only at hw
    subst hw
    cases r with
    | error e =>
      exact ⟨_, by simp [World.log], Or.inr (Or.inr (Or.inl ⟨e, rfl⟩))⟩
    | ok focused =>
      dsimp only
      split
      · rename_i hu
        rcases StoreFocusedContent_spec env source focused
          { w with now := w.now + env.elapsed w, out := w.out ++ [.chat ⟨config.LLMAPIURL,
            config.LLMAPIKey, config.LLMAPIModel, focusPrompt config summary⟩] } with ⟨e, h⟩ | h
        · rw [h]
          exact ⟨_, by simp [World.log], Or.inr (Or.inr (Or.inr (Or.inl ⟨e, rfl⟩)))⟩
        · rw [h]
          exact ⟨_, by simp, Or.inr (Or.inr (Or.inr (Or.inr ⟨focused, _, rfl, trivial, hu.1, hu.2, rfl⟩)))⟩
      · exact ⟨_, rfl, Or.inr (Or.inl rfl)⟩

theorem focus_actions_quiet {env : Env} {config : Config} {target : Path}
    {doc : GoString → World → GoString} {text : GoString} {w : World} {δ : List Event}
    (ht : target.dir = .focus) (h : FocusActions env config target doc text w δ) :
    attempts δ = [] ∧ outcomes δ = [] ∧ writesIn .summaries δ = [] ∧ fetches δ = [] := by
  rcases h with rfl | rfl | ⟨x, rfl⟩ | ⟨x, rfl⟩ | ⟨f, w1, rfl, -⟩ <;>
    simp [attempts, outcomes, writesIn, fetches, Event.attempt?, Event.outcome?, Event.wrote?,
      Event.fetch?, ht]

theorem processSourceLogged_attempt (env : Env) (config : Config) (source : GoString) (w : World) :
    AttemptSpec env config source w (processSourceLogged env config source w).1.isOk
      (processSourceLogged env config source w).2 := by
  unfold processSourceLogged AttemptSpec
  obtain ⟨δ1, hδ1, hshape⟩ := loadContent_out env source (w.log (.processing source))
  obtain ⟨q1, q2, q3, -, -⟩ := load_shape_quiet hshape
  rcases hl : loadContent env source (w.log (.processing source)) with ⟨r, w1⟩
  rw [hl] at hδ1
  simp only [World.log] at hδ1
  cases r with
  | error e =>
    refine ⟨.processing source :: δ1, by simp [hδ1], ?_, ?_, ?_, ?_⟩
    · simpa [attempts, Event.attempt?] using q1
    · simpa [outcomes, Event.outcome?, Except.isOk, Except.toBool] using q2
    · simpa [writesIn, Event.wrote?, Except.isOk, Except.toBool] using q3
    · simp only [Except.isOk, Except.toBool, Bool.false_eq_true, false_iff, not_exists]
      intro summary w3
      exact not_steps123_of_load_error hl summary w3
  | ok content =>
    dsimp only
    rcases hs : SummarizeWithAI env config content source w1 with ⟨r2, w2⟩
    have hw2 := postChat_snd env config (summaryPrompt config content source) w1
    unfold SummarizeWithAI at hs
    rw [hs] at hw2
    simp only at hw2
    cases r2 with
    | error e =>
      refine ⟨.processing source :: δ1 ++ [.chat ⟨config.LLMAPIURL, config.LLMAPIKey,
        config.LLMAPIModel, summaryPrompt config content source⟩], by simp [hw2, hδ1], ?_, ?_, ?_, ?_⟩
      · simpa [attempts, Event.attempt?] using q1
      · simpa [outcomes, Event.outcome?, Except.isOk, Except.toBool] using q2
      · simpa [writesIn, Event.wrote?, Except.isOk, Except.toBool] using q3
      · simp only [Except.isOk, Except.toBool, Bool.false_eq_true, false_iff, not_exists]
        intro summary w3 h
        obtain ⟨v2, h2, -⟩ := (steps123_of_load_ok hl summary w3).1 h
        unfold SummarizeWithAI at h2
        rw [hs] at h2
        simp at h2
    | ok summary =>
      dsimp only
      rcases StoreSummarization_spec env source summary w2 with ⟨e, h⟩ | h
      · rw [h]
        refine ⟨.processing source :: δ1 ++ [.chat ⟨config.LLMAPIURL, config.LLMAPIKey,
          config.LLMAPIModel, summaryPrompt config content source⟩], by simp [hw2, hδ1], ?_, ?_, ?_, ?_⟩
        · simpa [attempts, Event.attempt?] using q1
        · simpa [outcomes, Event.outcome?, Except.isOk, Except.toBool] using q2
        · simpa [writesIn, Event.wrote?, Except.isOk, Except.toBool] using q3
        · simp only [Except.isOk, Except.toBool, Bool.false_eq_true, false_iff, not_exists]
          intro summary' w3 h'
          obtain ⟨v2, h2, h3⟩ := (steps123_of_load_ok hl summary' w3).1 h'
          unfold SummarizeWithAI at h2
          rw [hs] at h2
          simp only [Prod.mk.injEq, Except.ok.injEq] at h2
          obtain ⟨rfl, rfl⟩ := h2
          rw [h] at h3
          simp at h3
      · rw [h]
        obtain ⟨δf, hδf, hfshape⟩ := focusStep_out env config source summary
          { w2 with files := putFile w2.files (summaryFile source)
                      ⟨summaryDocument env w2 source summary, w2.now⟩,
                    out := w2.out ++ [.wrote (summaryFile source) (summaryDocument env w2 source summary)] }
        obtain ⟨f1, f2, f3, -⟩ := focus_actions_quiet (by rfl) hfshape
        refine ⟨.processing source :: δ1 ++ [.chat ⟨config.LLMAPIURL, config.LLMAPIKey,
          config.LLMAPIModel, summaryPrompt config content source⟩,
          .wrote (summaryFile source) (summaryDocument env w2 source summary)] ++ δf ++
          [.completed source], ?_, ?_, ?_, ?_, ?_⟩
        · simp only [World.log, hδf]
          simp [hw2, hδ1]
        · simp only [attempts] at q1 f1
          simp [attempts, Event.attempt?, q1, f1]
        · simp only [outcomes] at q2 f2
          simp [outcomes, Event.outcome?, Except.isOk, Except.toBool, q2, f2]
        · simp only [writesIn] at q3 f3
          simp [writesIn, Event.wrote?, Except.isOk, Except.toBool, summaryFile, q3, f3]
        · simp only [Except.isOk, Except.toBool, true_iff]
          exact ⟨summary, _, (steps123_of_load_ok hl summary _).2 ⟨w2, hs, h⟩⟩
theorem combineFocus_out (env : Env) (config : Config) (allSummaries : List GoString) (w : World) :
    ∃ δ, (combineFocus env config allSummaries w).out = w.out ++ δ ∧
      (δ ≠ [] → config.FocusTopics ≠ [] ∧ allSummaries ≠ []) ∧
      FocusActions env config combinedPath (fun focused w1 => combinedDocument env w1 focused)
        (join summarySeparator allSummaries) w δ := by
  unfold combineFocus FocusActions focusRequest
  by_cases hc : config.FocusTopics ≠ [] ∧ allSummaries.length > 0
  · have hf : config.FocusTopics ≠ [] := hc.1
    have hne : allSummaries ≠ [] := by
      intro h
      rw [h] at hc
      simp at hc
    rw [if_pos hc]
    have hE : ExtractFocusedContent env config (join summarySeparator allSummaries) w =
        postChat env config (focusPrompt config (join summarySeparator allSummaries)) w := by
      simp [ExtractFocusedContent, hf]
    have hw := postChat_snd env config (focusPrompt config (join summarySeparator allSummaries)) w
    rw [hE]
    rcases hp : postChat env config (focusPrompt config (join summarySeparator allSummaries)) w
      with ⟨r, w1⟩
    rw [hp] at hw
    simp only at hw
    subst hw
    cases r with
    | error e =>
      exact ⟨_, by simp [World.log], fun _ => ⟨hf, hne⟩, Or.inr (Or.inr (Or.inl ⟨e, rfl⟩))⟩
    | ok focused =>
      dsimp only
      split
      · rename_i hu
        rcases StoreCombinedFocusedContent_spec env focused
          { w with now := w.now + env.elapsed w, out := w.out ++ [.chat ⟨config.LLMAPIURL,
            config.LLMAPIKey, config.LLMAPIModel,
            focusPrompt config (join summarySeparator allSummaries)⟩] } with ⟨e, h⟩ | h
        · rw [h]
          exact ⟨_, by simp [World.log], fun _ => ⟨hf, hne⟩,
            Or.inr (Or.inr (Or.inr (Or.inl ⟨e, rfl⟩)))⟩
        · rw [h]
          exact ⟨_, by simp, fun _ => ⟨hf, hne⟩,
            Or.inr (Or.inr (Or.inr (Or.inr ⟨focused, _, rfl, hf, hu.1, hu.2, rfl⟩)))⟩
      · exact ⟨_, rfl, fun _ => ⟨hf, hne⟩, Or.inr (Or.inl rfl)⟩
  · rw [if_neg hc]
    exact ⟨[], by simp, fun h => absurd rfl h, Or.inl rfl⟩

theorem attemptSpec_run {env : Env} {config : Config} {source : GoString} {w w' : World} {ok : Bool}
    (h : AttemptSpec env config source w ok w') :
    ∃ δ, w'.out = w.out ++ δ ∧ attempts δ = [source] ∧
      outcomes δ = (if ok then [(source, true)] else []) ∧ SummariesMatch δ := by
  obtain ⟨δ, h1, h2, h3, h4, -⟩ := h
  refine ⟨δ, h1, h2, h3, ?_⟩
  unfold SummariesMatch
  rw [h4, h3]
  cases ok <;> simp

theorem runOnceLoop_spec (env : Env) (config : Config) (sources : List GoString) :
    ∀ (acc : List GoString) (w : World),
      ∃ Δ, (runOnceLoop env config sources acc w).2.out = w.out ++ Δ ∧ attempts Δ = sources ∧
        (outcomes Δ).map Prod.fst = sources ∧ SummariesMatch Δ := by
  induction sources with
  | nil =>
    intro acc w
    exact ⟨[], by simp [runOnceLoop], rfl, rfl, rfl⟩
  | cons s rest ih =>
    intro acc w
    obtain ⟨δ, h1, h2, h3, h4⟩ := attemptSpec_run (processSource_attempt env config s w)
    unfold runOnceLoop
    rcases hp : processSource env config s w with ⟨r, w1⟩
    rw [hp] at h1 h3
    cases r with
    | error e =>
      obtain ⟨Δ, g1, g2, g3, g4⟩ := ih acc (w1.log (.errorProcessing s e))
      refine ⟨δ ++ [.errorProcessing s e] ++ Δ, ?_, ?_, ?_, ?_⟩
      · dsimp only
        rw [g1]
        simp only at h1
        simp [World.log, h1]
      · simp only [attempts] at h2 g2 ⊢
        simp [h2, g2, Event.attempt?]
      · simp only [Except.isOk, Except.toBool] at h3
        simp only [outcomes] at h3 g3 ⊢
        simp [h3, g3, Event.outcome?]
      · unfold SummariesMatch at h4 g4 ⊢
        simp only [Except.isOk, Except.toBool] at h3
        simp only [outcomes, writesIn] at h3 h4 g4 ⊢
        simp [h3, h4, g4, Event.outcome?, Event.wrote?]
    | ok summary =>
      dsimp only
      have key : ∀ acc', ∃ Δ, (runOnceLoop env config rest acc' w1).2.out = w.out ++ Δ ∧
          attempts Δ = s :: rest ∧ (outcomes Δ).map Prod.fst = s :: rest ∧ SummariesMatch Δ := by
        intro acc'
        obtain ⟨Δ, g1, g2, g3, g4⟩ := ih acc' w1
        refine ⟨δ ++ Δ, ?_, ?_, ?_, ?_⟩
        · rw [g1]
          simp only at h1
          simp [h1]
        · simp only [attempts] at h2 g2 ⊢
          simp [h2, g2]
        · simp only [Except.isOk, Except.toBool] at h3
          simp only [outcomes] at h3 g3 ⊢
          simp [h3, g3]
        · unfold SummariesMatch at h4 g4 ⊢
          simp only [outcomes, writesIn] at h4 g4 ⊢
          simp [h4, g4]
      split
      · exact key _
      · exact key _

theorem runOnceLoggedLoop_spec (env : Env) (config : Config) (sources : List GoString) :
    ∀ (w : World),
      ∃ Δ, (runOnceLoggedLoop env config sources w).out = w.out ++ Δ ∧ attempts Δ = sources ∧
        (outcomes Δ).map Prod.fst = sources ∧ SummariesMatch Δ := by
  induction sources with
  | nil =>
    intro w
    exact ⟨[], by simp [runOnceLoggedLoop], rfl, rfl, rfl⟩
  | cons s rest ih =>
    intro w
    obtain ⟨δ, h1, h2, h3, h4⟩ := attemptSpec_run (processSourceLogged_attempt env config s w)
    unfold runOnceLoggedLoop
    rcases hp : processSourceLogged env config s w with ⟨r, w1⟩
    rw [hp] at h1 h3
    cases r with
    | error e =>
      obtain ⟨Δ, g1, g2, g3, g4⟩ := ih (w1.log (.errorProcessing s e))
      refine ⟨δ ++ [.errorProcessing s e] ++ Δ, ?_, ?_, ?_, ?_⟩
      · dsimp only
        rw [g1]
        simp only at h1
        simp [World.log, h1]
      · simp only [attempts] at h2 g2 ⊢
        simp [h2, g2, Event.attempt?]
      · simp only [Except.isOk, Except.toBool] at h3
        simp only [outcomes] at h3 g3 ⊢
        simp [h3, g3, Event.outcome?]
      · unfold SummariesMatch at h4 g4 ⊢
        simp only [Except.isOk, Except.toBool] at h3
        simp only [outcomes, writesIn] at h3 h4 g4 ⊢
        simp [h3, h4, g4, Event.outcome?, Event.wrote?]
    | ok u =>
      dsimp only
      obtain ⟨Δ, g1, g2, g3, g4⟩ := ih w1
      refine ⟨δ ++ Δ, ?_, ?_, ?_, ?_⟩
      · rw [g1]
        simp only at h1
        simp [h1]
      · simp only [attempts] at h2 g2 ⊢
        simp [h2, g2]
      · simp only [Except.isOk, Except.toBool] at h3
        simp only [outcomes] at h3 g3 ⊢
        simp [h3, g3]
      · unfold SummariesMatch at h4 g4 ⊢
        simp only [outcomes, writesIn] at h4 g4 ⊢
        simp [h4, g4]

set_option maxRecDepth 1000000 in
/-- The isolation scenario of the specification, evaluated: with the fetch of
the second of three sources failing, both runs attempt `a`, `b`, `c` in this
order, report `b` as failed, and write the summary documents of `a` and `c`. -/
theorem isolation_three_sources :
    attempts (runOnce secondDown threeSources emptyWorld).2.out = [lit "a", lit "b", lit "c"] ∧
    outcomes (runOnce secondDown threeSources emptyWorld).2.out =
      [(lit "a", true), (lit "b", false), (lit "c", true)] ∧
    (writesIn .summaries (runOnce secondDown threeSources emptyWorld).2.out).map Prod.fst =
      [summaryFile (lit "a"), summaryFile (lit "c")] ∧
    attempts (runOnceLogged secondDown threeSources emptyWorld).2.out = [lit "a", lit "b", lit "c"] ∧
    outcomes (runOnceLogged secondDown threeSources emptyWorld).2.out =
      [(lit "a", true), (lit "b", false), (lit "c", true)] ∧
    (writesIn .summaries (runOnceLogged secondDown threeSources emptyWorld).2.out).map Prod.fst =
      [summaryFile (lit "a"), summaryFile (lit "c")] := by
  decide

set_option maxRecDepth 1000000 in
/-- C2 at its failing input: with the two sources of the end-to-end scenario,
focus topics `security` and extraction results that are not the sentinel, the
on-demand run sends no focus request for a single summary and writes no
per-source focus document, only the combined one, while the daemon's run
writes the two per-source focus documents. -/
theorem runOnce_skips_per_source_focus :
    prompts (runOnce focusEnv twoSources emptyWorld).2.out =
      [summaryPrompt twoSources (lit "<p>news of the day</p>") (lit "https://a.example"),
       summaryPrompt twoSources (lit "<p>news of the day</p>") (lit "https://b.example"),
       focusPrompt twoSources (lit "Summary" ++ summarySeparator ++ lit "Summary")] ∧
    (writesIn .focus (runOnce focusEnv twoSources emptyWorld).2.out).map Prod.fst = [combinedPath] ∧
    writesIn .focus (runOnceLogged focusEnv twoSources emptyWorld).2.out =
      [(focusFile (lit "https://a.example"), lit "- a security item"),
       (focusFile (lit "https://b.example"), lit "- a security item")] := by
  decide

set_option maxRecDepth 1000000 in
/-- The aggregation in the second end-to-end scenario, evaluated on both
paths: the daemon's run sends a focus request for each summary but none for
the combined summaries, and it writes no combined focus document, while the
on-demand run sends the request for the two summaries joined by the separator
and writes the document. -/
theorem runOnceLogged_skips_aggregation :
    prompts (runOnceLogged focusEnv twoSources emptyWorld).2.out =
      [summaryPrompt twoSources (lit "<p>news of the day</p>") (lit "https://a.example"),
       focusPrompt twoSources (lit "Summary"),
       summaryPrompt twoSources (lit "<p>news of the day</p>") (lit "https://b.example"),
       focusPrompt twoSources (lit "Summary")] ∧
    getFile (runOnceLogged focusEnv twoSources emptyWorld).2.files combinedPath = none ∧
    (getFile (runOnce focusEnv twoSources emptyWorld).2.files combinedPath).map File.content =
      some (lit "# Combined Focus Summary\n\nGenerated: 2026-01-01T00:00:00Z\n\n---\n\n- a security item\n") := by
  decide

/-! ## Focus documents -/

theorem ExtractFocusedContent_snd (env : Env) (config : Config) (text : GoString) (w : World) :
    (ExtractFocusedContent env config text w).2.files = w.files ∧
    ((ExtractFocusedContent env config text w).2.out = w.out ∨
     (ExtractFocusedContent env config text w).2.out = w.out ++ [.chat (focusRequest config text)]) := by
  unfold ExtractFocusedContent
  split
  · exact ⟨rfl, Or.inl rfl⟩
  · rw [postChat_snd]
    exact ⟨rfl, Or.inr rfl⟩

theorem focusStep_unusable (env : Env) (config : Config) (source summary : GoString) (w : World)
    (hu : config.FocusTopics = [] ∨ Unusable (ExtractFocusedContent env config summary w).1) :
    (focusStep env config source summary w).files = w.files ∧
    ∃ δ, (focusStep env config source summary w).out = w.out ++ δ ∧ writesIn .focus δ = [] := by
  obtain ⟨hfiles, hout⟩ := ExtractFocusedContent_snd env config summary w
  unfold focusStep
  by_cases hf : config.FocusTopics = []
  · rw [if_neg (not_not.mpr hf)]
    exact ⟨rfl, [], by simp, rfl⟩
  · rw [if_pos hf]
    have hu' : Unusable (ExtractFocusedContent env config summary w).1 := by
      rcases hu with h | h
      · exact absurd h hf
      · exact h
    rcases hE : ExtractFocusedContent env config summary w with ⟨r, w1⟩
    rw [hE] at hfiles hout hu'
    simp only at hfiles hout hu'
    have hδ : ∃ δ, w1.out = w.out ++ δ ∧ writesIn .focus δ = [] := by
      rcases hout with h | h
      · exact ⟨[], by simp [h], rfl⟩
      · exact ⟨_, h, by simp [writesIn, Event.wrote?]⟩
    obtain ⟨δ, hδ1, hδ2⟩ := hδ
    cases r with
    | error e =>
      refine ⟨hfiles, δ ++ [.warnExtract e], by simp [World.log, hδ1], ?_⟩
      simp only [writesIn] at hδ2 ⊢
      simp [hδ2, Event.wrote?]
    | ok focused =>
      dsimp only
      have : ¬ (focused ≠ [] ∧ focused ≠ noRelevantContent) := by
        rcases hu' with ⟨e, h⟩ | h | h
        · simp at h
        · simp only [Except.ok.injEq] at h
          simp [h]
        · simp only [Except.ok.injEq] at h
          simp [h]
      rw [if_neg this]
      exact ⟨hfiles, δ, hδ1, hδ2⟩

theorem combineFocus_unusable (env : Env) (config : Config) (all : List GoString) (w : World)
    (hu : config.FocusTopics = [] ∨
      Unusable (ExtractFocusedContent env config (join summarySeparator all) w).1) :
    (combineFocus env config all w).files = w.files ∧
    ∃ δ, (combineFocus env config all w).out = w.out ++ δ ∧ writesIn .focus δ = [] := by
  obtain ⟨hfiles, hout⟩ := ExtractFocusedContent_snd env config (join summarySeparator all) w
  unfold combineFocus
  by_cases hc : config.FocusTopics ≠ [] ∧ all.length > 0
  · rw [if_pos hc]
    have hu' : Unusable (ExtractFocusedContent env config (join summarySeparator all) w).1 := by
      rcases hu with h | h
      · exact absurd h hc.1
      · exact h
    rcases hE : ExtractFocusedContent env config (join summarySeparator all) w with ⟨r, w1⟩
    rw [hE] at hfiles hout hu'
    simp only at hfiles hout hu'
    have hδ : ∃ δ, w1.out = w.out ++ δ ∧ writesIn .focus δ = [] := by
      rcases hout with h | h
      · exact ⟨[], by simp [h], rfl⟩
      · exact ⟨_, h, by simp [writesIn, Event.wrote?]⟩
    obtain ⟨δ, hδ1, hδ2⟩ := hδ
    cases r with
    | error e =>
      refine ⟨hfiles, δ ++ [.warnExtract e], by simp [World.log, hδ1], ?_⟩
      simp only [writesIn] at hδ2 ⊢
      simp [hδ2, Event.wrote?]
    | ok focused =>
      dsimp only
      have : ¬ (focused ≠ [] ∧ focused ≠ noRelevantContent) := by
        rcases hu' with ⟨e, h⟩ | h | h
        · simp at h
        · simp only [Except.ok.injEq] at h
          simp [h]
        · simp only [Except.ok.injEq] at h
          simp [h]
      rw [if_neg this]
      exact ⟨hfiles, δ, hδ1, hδ2⟩
  · rw [if_neg hc]
    exact ⟨rfl, [], by simp, rfl⟩

theorem processSourceLogged_of_steps {env : Env} {config : Config} {source summary : GoString}
    {w w3 : World} (h : Steps123 env config source summary (w.log (.processing source)) w3) :
    processSourceLogged env config source w =
      (.ok (), (focusStep env config source summary w3).log (.completed source)) := by
  obtain ⟨content, w1, w2, h1, h2, h3⟩ := h
  have hl := (loadContent_ok_iff env source content _ w1).2 h1
  unfold processSourceLogged
  rw [hl]
  dsimp only
  rw [h2]
  dsimp only
  rw [h3]

theorem processSource_of_steps {env : Env} {config : Config} {source summary : GoString}
    {w w3 : World} (h : Steps123 env config source summary (w.log (.processing source)) w3) :
    processSource env config source w = (.ok summary, w3.log (.completed source)) := by
  obtain ⟨content, w1, w2, h1, h2, h3⟩ := h
  have hl := (loadContent_ok_iff env source content _ w1).2 h1
  unfold processSource
  rw [hl]
  dsimp only
  rw [h2]
  dsimp only
  rw [h3]

theorem processSource_no_focus (env : Env) (config : Config) (source : GoString) (w : World) :
    ∃ δ, (processSource env config source w).2.out = w.out ++ δ ∧ writesIn .focus δ = [] := by
  unfold processSource
  obtain ⟨δ1, hδ1, hshape⟩ := loadContent_out env source (w.log (.processing source))
  obtain ⟨-, -, -, q4, -⟩ := load_shape_quiet hshape
  simp only [writesIn] at q4
  rcases hl : loadContent env source (w.log (.processing source)) with ⟨r, w1⟩
  rw [hl] at hδ1
  simp only [World.log] at hδ1
  cases r with
  | error e =>
    exact ⟨.processing source :: δ1, by simp [hδ1], by simp [writesIn, Event.wrote?, q4]⟩
  | ok content =>
    dsimp only
    rcases hs : SummarizeWithAI env config content source w1 with ⟨r2, w2⟩
    have hw2 := postChat_snd env config (summaryPrompt config content source) w1
    unfold SummarizeWithAI at hs
    rw [hs] at hw2
    simp only at hw2
    cases r2 with
    | error e =>
      exact ⟨.processing source :: δ1 ++ [.chat ⟨config.LLMAPIURL, config.LLMAPIKey,
        config.LLMAPIModel, summaryPrompt config content source⟩], by simp [hw2, hδ1],
        by simp [writesIn, Event.wrote?, q4]⟩
    | ok summary =>
      dsimp only
      rcases StoreSummarization_spec env source summary w2 with ⟨e, h⟩ | h
      · rw [h]
        exact ⟨.processing source :: δ1 ++ [.chat ⟨config.LLMAPIURL, config.LLMAPIKey,
          config.LLMAPIModel, summaryPrompt config content source⟩], by simp [hw2, hδ1],
          by simp [writesIn, Event.wrote?, q4]⟩
      · rw [h]
        exact ⟨.processing source :: δ1 ++ [.chat ⟨config.LLMAPIURL, config.LLMAPIKey,
          config.LLMAPIModel, summaryPrompt config content source⟩,
          .wrote (summaryFile source) (summaryDocument env w2 source summary), .completed source],
          by simp [World.log, hw2, hδ1], by simp [writesIn, Event.wrote?, q4, summaryFile]⟩

theorem focus_actions_usable {env : Env} {config : Config} {source text : GoString} {w : World}
    {δ : List Event}
    (h : FocusActions env config (focusFile source) (fun focused _ => focused) text w δ) :
    FocusWritesUsable config [source] δ := by
  unfold FocusWritesUsable
  rcases h with rfl | rfl | ⟨x, rfl⟩ | ⟨x, rfl⟩ | ⟨f, w1, rfl, h1, h2, h3, -⟩ <;>
    simp [writesIn, Event.wrote?, focusFile]
  exact ⟨h1, h2, h3⟩

theorem processSourceLogged_focus (env : Env) (config : Config) (source : GoString) (w : World) :
    ∃ δ, (processSourceLogged env config source w).2.out = w.out ++ δ ∧
      FocusWritesUsable config [source] δ := by
  unfold processSourceLogged
  obtain ⟨δ1, hδ1, hshape⟩ := loadContent_out env source (w.log (.processing source))
  obtain ⟨-, -, -, q4, -⟩ := load_shape_quiet hshape
  simp only [writesIn] at q4
  rcases hl : loadContent env source (w.log (.processing source)) with ⟨r, w1⟩
  rw [hl] at hδ1
  simp only [World.log] at hδ1
  cases r with
  | error e =>
    exact ⟨.processing source :: δ1, by simp [hδ1],
      by simp [FocusWritesUsable, writesIn, Event.wrote?, q4]⟩
  | ok content =>
    dsimp only
    rcases hs : SummarizeWithAI env config content source w1 with ⟨r2, w2⟩
    have hw2 := postChat_snd env config (summaryPrompt config content source) w1
    unfold SummarizeWithAI at hs
    rw [hs] at hw2
    simp only at hw2
    cases r2 with
    | error e =>
      exact ⟨.processing source :: δ1 ++ [.chat ⟨config.LLMAPIURL, config.LLMAPIKey,
        config.LLMAPIModel, summaryPrompt config content source⟩], by simp [hw2, hδ1],
        by simp [FocusWritesUsable, writesIn, Event.wrote?, q4]⟩
    | ok summary =>
      dsimp only
      rcases StoreSummarization_spec env source summary w2 with ⟨e, h⟩ | h
      · rw [h]
        exact ⟨.processing source :: δ1 ++ [.chat ⟨config.LLMAPIURL, config.LLMAPIKey,
          config.LLMAPIModel, summaryPrompt config content source⟩], by simp [hw2, hδ1],
          by simp [FocusWritesUsable, writesIn, Event.wrote?, q4]⟩
      · rw [h]
        obtain ⟨δf, hδf, hfshape⟩ := focusStep_out env config source summary
          { w2 with files := putFile w2.files (summaryFile source)
                      ⟨summaryDocument env w2 source summary, w2.now⟩,
                    out := w2.out ++ [.wrote (summaryFile source) (summaryDocument env w2 source summary)] }
        have hfu := focus_actions_usable hfshape
        refine ⟨.processing source :: δ1 ++ [.chat ⟨config.LLMAPIURL, config.LLMAPIKey,
          config.LLMAPIModel, summaryPrompt config content source⟩,
          .wrote (summaryFile source) (summaryDocument env w2 source summary)] ++ δf ++
          [.completed source], ?_, ?_⟩
        · simp only [World.log, hδf]
          simp [hw2, hδ1]
        · unfold FocusWritesUsable at hfu ⊢
          simp only [writesIn] at hfu ⊢
          simpa [Event.wrote?, q4, summaryFile] using hfu

theorem runOnceLoop_no_focus (env : Env) (config : Config) (sources : List GoString) :
    ∀ (acc : List GoString) (w : World),
      ∃ Δ, (runOnceLoop env config sources acc w).2.out = w.out ++ Δ ∧ writesIn .focus Δ = [] := by
  induction sources with
  | nil =>
    intro acc w
    exact ⟨[], by simp [runOnceLoop], rfl⟩
  | cons s rest ih =>
    intro acc w
    obtain ⟨δ, h1, h2⟩ := processSource_no_focus env config s w
    unfold runOnceLoop
    rcases hp : processSource env config s w with ⟨r, w1⟩
    rw [hp] at h1
    simp only at h1
    simp only [writesIn] at h2
    cases r with
    | error e =>
      obtain ⟨Δ, g1, g2⟩ := ih acc (w1.log (.errorProcessing s e))
      simp only [writesIn] at g2
      exact ⟨δ ++ [.errorProcessing s e] ++ Δ, by dsimp only; rw [g1]; simp [World.log, h1],
        by simp [writesIn, h2, g2, Event.wrote?]⟩
    | ok summary =>
      dsimp only
      have key : ∀ acc', ∃ Δ, (runOnceLoop env config rest acc' w1).2.out = w.out ++ Δ ∧
          writesIn .focus Δ = [] := by
        intro acc'
        obtain ⟨Δ, g1, g2⟩ := ih acc' w1
        simp only [writesIn] at g2
        exact ⟨δ ++ Δ, by rw [g1]; simp [h1], by simp [writesIn, h2, g2]⟩
      split
      · exact key _
      · exact key _

theorem runOnceLoggedLoop_focus (env : Env) (config : Config) (sources : List GoString) :
    ∀ (w : World),
      ∃ Δ, (runOnceLoggedLoop env config sources w).out = w.out ++ Δ ∧
        FocusWritesUsable config sources Δ := by
  induction sources with
  | nil =>
    intro w
    exact ⟨[], by simp [runOnceLoggedLoop], by simp [FocusWritesUsable, writesIn]⟩
  | cons s rest ih =>
    intro w
    obtain ⟨δ, h1, h2⟩ := processSourceLogged_focus env config s w
    unfold runOnceLoggedLoop
    rcases hp : processSourceLogged env config s w with ⟨r, w1⟩
    rw [hp] at h1
    simp only at h1
    have glue : ∀ (mid Δ : List Event), writesIn .focus mid = [] →
        FocusWritesUsable config rest Δ → FocusWritesUsable config (s :: rest) (δ ++ mid ++ Δ) := by
      intro mid Δ hmid hΔ pc hpc
      simp only [writesIn_append, hmid, List.append_nil, List.mem_append] at hpc
      rcases hpc with hpc | hpc
      · obtain ⟨a, ⟨t, ht, b⟩, c, d⟩ := h2 pc hpc
        simp only [List.mem_singleton] at ht
        subst ht
        exact ⟨a, ⟨t, by simp, b⟩, c, d⟩
      · obtain ⟨a, ⟨t, ht, b⟩, c, d⟩ := hΔ pc hpc
        exact ⟨a, ⟨t, by simp [ht], b⟩, c, d⟩
    cases r with
    | error e =>
      obtain ⟨Δ, g1, g2⟩ := ih (w1.log (.errorProcessing s e))
      exact ⟨δ ++ [.errorProcessing s e] ++ Δ, by dsimp only; rw [g1]; simp [World.log, h1],
        glue _ _ (by simp [writesIn, Event.wrote?]) g2⟩
    | ok u =>
      obtain ⟨Δ, g1, g2⟩ := ih w1
      refine ⟨δ ++ [] ++ Δ, by dsimp only; rw [g1]; simp [h1], glue _ _ (by simp [writesIn]) g2⟩

theorem runOnce_focus (env : Env) (config : Config) (w : World) :
    ∃ Δ, (runOnce env config w).2.out = w.out ++ Δ ∧ CombinedWriteUsable env config Δ := by
  unfold runOnce
  cases validateConfig config with
  | some e => exact ⟨[], by simp, Or.inl rfl⟩
  | none =>
    dsimp only
    obtain ⟨Δ, g1, g2⟩ := runOnceLoop_no_focus env config config.Sources [] w
    rcases hr : runOnceLoop env config config.Sources [] w with ⟨all, w1⟩
    rw [hr] at g1
    simp only at g1
    obtain ⟨δ, c1, c2, c3⟩ := combineFocus_out env config all w1
    refine ⟨Δ ++ δ, by simp [c1, g1], ?_⟩
    unfold CombinedWriteUsable
    rw [writesIn_append, g2, List.nil_append]
    rcases c3 with rfl | rfl | ⟨x, rfl⟩ | ⟨x, rfl⟩ | ⟨f, v1, rfl, h1, h2, h3, h4⟩
    · exact Or.inl rfl
    · exact Or.inl (by simp [writesIn, Event.wrote?])
    · exact Or.inl (by simp [writesIn, Event.wrote?])
    · exact Or.inl (by simp [writesIn, Event.wrote?])
    · exact Or.inr ⟨all, w1, f, v1, h1, (c2 (by simp)).2, h4, h2, h3,
        by simp [writesIn, Event.wrote?, combinedPath]⟩

theorem runOnce_focus_empty_topics (env : Env) (config : Config) (w : World)
    (h : config.FocusTopics = []) :
    ∃ Δ, (runOnce env config w).2.out = w.out ++ Δ ∧ writesIn .focus Δ = [] := by
  obtain ⟨Δ, h1, h2⟩ := runOnce_focus env config w
  refine ⟨Δ, h1, ?_⟩
  rcases h2 with h2 | ⟨_, _, _, _, h3, _⟩
  · exact h2
  · exact absurd h h3

theorem runOnceLogged_focus (env : Env) (config : Config) (w : World) :
    ∃ Δ, (runOnceLogged env config w).2.out = w.out ++ Δ ∧
      FocusWritesUsable config config.Sources Δ := by
  unfold runOnceLogged
  cases validateConfig config with
  | some e => exact ⟨[], by simp, by simp [FocusWritesUsable, writesIn]⟩
  | none => exact runOnceLoggedLoop_focus env config config.Sources w

theorem focusWrites_empty_topics {config : Config} {sources : List GoString} {Δ : List Event}
    (h : config.FocusTopics = []) (hu : FocusWritesUsable config sources Δ) :
    writesIn .focus Δ = [] := by
  cases hw : writesIn .focus Δ with
  | nil => rfl
  | cons pc rest =>
    have := (hu pc (by simp [hw])).1
    exact absurd h this

/-- C4 (no focus output without a usable result).  With empty focus topics
`ExtractFocusedContent` returns the empty string and leaves the world alone (no
request is sent), and neither run writes into the focus directory.  A focus
extraction that fails, returns the empty string or returns exactly the
sentinel leads to no write of a focus document, of the source or combined, and
leaves all files as they are.  A source whose steps 1 to 3 succeed is
reported successful by both paths whatever its focus extraction does.  Over a
whole run every focus document written by the daemon's path is the usable
result for one of the sources, and the on-demand path writes at most the
combined document, from a usable result. -/
theorem no_focus_output_without_usable_result (env : Env) (config : Config) (w : World) :
    (config.FocusTopics = [] → ∀ text v, ExtractFocusedContent env config text v = (.ok [], v)) ∧
    (config.FocusTopics = [] →
      (∃ Δ, (runOnce env config w).2.out = w.out ++ Δ ∧ writesIn .focus Δ = []) ∧
      (∃ Δ, (runOnceLogged env config w).2.out = w.out ++ Δ ∧ writesIn .focus Δ = [])) ∧
    (∀ source summary v, Unusable (ExtractFocusedContent env config summary v).1 →
      (focusStep env config source summary v).files = v.files ∧
      ∃ δ, (focusStep env config source summary v).out = v.out ++ δ ∧ writesIn .focus δ = []) ∧
    (∀ all v, Unusable (ExtractFocusedContent env config (join summarySeparator all) v).1 →
      (combineFocus env config all v).files = v.files ∧
      ∃ δ, (combineFocus env config all v).out = v.out ++ δ ∧ writesIn .focus δ = []) ∧
    (∀ source summary v v3, Steps123 env config source summary (v.log (.processing source)) v3 →
      processSourceLogged env config source v =
        (.ok (), (focusStep env config source summary v3).log (.completed source)) ∧
      processSource env config source v = (.ok summary, v3.log (.completed source))) ∧
    (∃ Δ, (runOnceLogged env config w).2.out = w.out ++ Δ ∧
      FocusWritesUsable config config.Sources Δ) ∧
    (∃ Δ, (runOnce env config w).2.out = w.out ++ Δ ∧ CombinedWriteUsable env config Δ) := by
  refine ⟨?_, ?_, ?_, ?_, ?_, runOnceLogged_focus env config w, runOnce_focus env config w⟩
  · intro h text v
    simp [ExtractFocusedContent, h]
  · intro h
    refine ⟨runOnce_focus_empty_topics env config w h, ?_⟩
    obtain ⟨Δ, h1, h2⟩ := runOnceLogged_focus env config w
    exact ⟨Δ, h1, focusWrites_empty_topics h h2⟩
  · intro source summary v hu
    exact focusStep_unusable env config source summary v (Or.inr hu)
  · intro all v hu
    exact combineFocus_unusable env config all v (Or.inr hu)
  · intro source summary v v3 h
    exact ⟨processSourceLogged_of_steps h, processSource_of_steps h⟩

/-- Witness of C4: the focus extraction answers with the sentinel. -/
theorem no_focus_output_without_usable_result_witness :
    Unusable (ExtractFocusedContent sentinelEnv twoSources (lit "Summary") emptyWorld).1 ∧
    (focusStep sentinelEnv twoSources (lit "https://a.example") (lit "Summary") emptyWorld).files =
      emptyWorld.files ∧
    (twoSourcesNoFocus.FocusTopics = [] ∧
      ∃ Δ, (runOnce sentinelEnv twoSourcesNoFocus emptyWorld).2.out = emptyWorld.out ++ Δ ∧
        writesIn .focus Δ = []) :=
  have hu : Unusable (ExtractFocusedContent sentinelEnv twoSources (lit "Summary") emptyWorld).1 :=
    Or.inr (Or.inr rfl)
  ⟨hu,
   ((no_focus_output_without_usable_result sentinelEnv twoSources emptyWorld).2.2.1
      (lit "https://a.example") (lit "Summary") emptyWorld hu).1,
   rfl,
   ((no_focus_output_without_usable_result sentinelEnv twoSourcesNoFocus emptyWorld).2.1 rfl).1⟩

set_option maxRecDepth 1000000 in
/-- The two end-to-end scenarios around the sentinel, evaluated.  Without
focus topics both runs write the two summary documents and nothing into the
focus directory; with focus topics and the sentinel as every extraction
result both runs still write the two summary documents, complete both
sources, and write nothing into the focus directory. -/
theorem focus_scenarios :
    (writesIn .summaries (runOnce focusEnv twoSourcesNoFocus emptyWorld).2.out).map Prod.fst =
      [summaryFile (lit "https://a.example"), summaryFile (lit "https://b.example")] ∧
    writesIn .focus (runOnce focusEnv twoSourcesNoFocus emptyWorld).2.out = [] ∧
    (writesIn .summaries (runOnceLogged focusEnv twoSourcesNoFocus emptyWorld).2.out).map Prod.fst =
      [summaryFile (lit "https://a.example"), summaryFile (lit "https://b.example")] ∧
    writesIn .focus (runOnceLogged focusEnv twoSourcesNoFocus emptyWorld).2.out = [] ∧
    outcomes (runOnce sentinelEnv twoSources emptyWorld).2.out =
      [(lit "https://a.example", true), (lit "https://b.example", true)] ∧
    writesIn .focus (runOnce sentinelEnv twoSources emptyWorld).2.out = [] ∧
    outcomes (runOnceLogged sentinelEnv twoSources emptyWorld).2.out =
      [(lit "https://a.example", true), (lit "https://b.example", true)] ∧
    writesIn .focus (runOnceLogged sentinelEnv twoSources emptyWorld).2.out = [] := by
  decide

/-! ## The cache lookup -/

set_option maxRecDepth 1000000 in
/-- C5 refuted as stated: when the stat of the entry fails, and when the read
of a fresh entry fails, the lookup does not report not-found; the error
comes back from `processSource` and from `processSourceLogged`, and nothing is
fetched. -/
theorem lookup_error_aborts_source :
    IsCached statFails (cachedWorld.log (.processing (lit "a"))) (lit "a") = .error (.sys 13) ∧
    (processSource statFails threeSources (lit "a") cachedWorld).1 = .error (.sys 13) ∧
    fetches (processSource statFails threeSources (lit "a") cachedWorld).2.out = [] ∧
    (processSourceLogged statFails threeSources (lit "a") cachedWorld).1 = .error (.sys 13) ∧
    fetches (processSourceLogged statFails threeSources (lit "a") cachedWorld).2.out = [] ∧
    IsCached readFails (cachedWorld.log (.processing (lit "a"))) (lit "a") = .ok true ∧
    (processSource readFails threeSources (lit "a") cachedWorld).1 = .error (.sys 5) ∧
    fetches (processSource readFails threeSources (lit "a") cachedWorld).2.out = [] ∧
    (processSourceLogged readFails threeSources (lit "a") cachedWorld).1 = .error (.sys 5) ∧
    fetches (processSourceLogged readFails threeSources (lit "a") cachedWorld).2.out = [] := by
  refine ⟨?_, ?_, ?_, ?_, ?_, ?_, ?_, ?_, ?_, ?_⟩ <;> rfl

theorem getCacheFilePath_ok {env : Env} {w : World} {source : GoString} {p : Path}
    (h : getCacheFilePath env w source = .ok p) : p = cacheFile source := by
  unfold getCacheFilePath at h
  rcases hashedPath_spec env w .cache (lit ".html") source with ⟨e, h'⟩ | h'
  · rw [h'] at h
    simp at h
  · rw [h'] at h
    simp only [Except.ok.injEq] at h
    exact h.symm

/-- C5 as amended.  An entry that is absent or older than the freshness
window is a miss without error, and the pipeline goes on to fetch the source.
A stat of the entry that fails otherwise makes `IsCached` return the error;
a read that fails makes `GetCachedContent` return the error; either error ends
the first step with the world as it was, so nothing is fetched, and the error
of the first step is what `processSource` and `processSourceLogged` return for
the source. -/
theorem cache_lookup_propagates_errors (env : Env) (config : Config) (source : GoString)
    (w : World) :
    (getCacheFilePath env w source = .ok (cacheFile source) →
      env.statErr w (cacheFile source) = none →
      (∀ f, getFile w.files (cacheFile source) = some f → w.now - f.mtime > freshness) →
      IsCached env w source = .ok false ∧
      ∃ δ, (loadContent env source w).2.out = w.out ++ .httpGet source :: δ) ∧
    (∀ e, getCacheFilePath env w source = .ok (cacheFile source) →
      env.statErr w (cacheFile source) = some e → IsCached env w source = .error e) ∧
    (∀ e, getCacheFilePath env w source = .ok (cacheFile source) →
      env.readErr w (cacheFile source) = some e → GetCachedContent env w source = .error e) ∧
    (∀ e, IsCached env w source = .error e → loadContent env source w = (.error e, w)) ∧
    (∀ e, IsCached env w source = .ok true → GetCachedContent env w source = .error e →
      loadContent env source w = (.error e, w)) ∧
    (∀ e v, loadContent env source (w.log (.processing source)) = (.error e, v) →
      processSource env config source w = (.error e, v) ∧
      processSourceLogged env config source w = (.error e, v)) := by
  refine ⟨?_, ?_, ?_, ?_, ?_, ?_⟩
  · intro hp hs hold
    have hc : IsCached env w source = .ok false := by
      unfold IsCached
      rw [hp]
      dsimp only
      rw [hs]
      dsimp only
      cases hg : getFile w.files (cacheFile source) with
      | none => rfl
      | some f =>
        dsimp only
        rw [if_pos (hold f hg)]
    refine ⟨hc, ?_⟩
    unfold loadContent
    rw [hc]
    simp only [CrawlWebsite]
    cases env.fetch w source with
    | error e => exact ⟨[], rfl⟩
    | ok c =>
      dsimp only
      rcases CacheContent_spec env source c
        { w with now := w.now + env.elapsed w, out := w.out ++ [.httpGet source] } with ⟨e, h⟩ | h
      · rw [h]
        exact ⟨[], rfl⟩
      · rw [h]
        exact ⟨[.wrote (cacheFile source) c], by simp⟩
  · intro e hp hs
    unfold IsCached
    rw [hp]
    dsimp only
    rw [hs]
  · intro e hp hr
    unfold GetCachedContent readFile
    rw [hp]
    dsimp only
    rw [hr]
  · intro e h
    unfold loadContent
    rw [h]
  · intro e h1 h2
    unfold loadContent
    rw [h1, h2]
  · intro e v h
    unfold processSource processSourceLogged
    rw [h]
    exact ⟨rfl, rfl⟩

/-- Witness of C5 as amended: the stat of the entry fails. -/
theorem cache_lookup_propagates_errors_witness :
    getCacheFilePath statFails cachedWorld (lit "a") = .ok (cacheFile (lit "a")) ∧
    statFails.statErr cachedWorld (cacheFile (lit "a")) = some (.sys 13) ∧
    IsCached statFails cachedWorld (lit "a") = .error (.sys 13) :=
  ⟨rfl, rfl,
   (cache_lookup_propagates_errors statFails threeSources (lit "a") cachedWorld).2.1 (.sys 13)
     rfl rfl⟩

theorem getFile_putFile_same (fs : List (Path × File)) (p : Path) (f : File) :
    getFile (putFile fs p f) p = some f := by
  induction fs with
  | nil => simp [putFile, getFile]
  | cons a r ih =>
    obtain ⟨q, g⟩ := a
    unfold putFile
    by_cases h : q = p
    · simp [h, getFile]
    · simp [h, getFile, ih]

theorem getFile_putFile_other (fs : List (Path × File)) (p q : Path) (f : File) (h : q ≠ p) :
    getFile (putFile fs p f) q = getFile fs q := by
  induction fs with
  | nil => simp [putFile, getFile, h.symm]
  | cons a r ih =>
    obtain ⟨x, g⟩ := a
    unfold putFile
    by_cases hx : x = p
    · subst hx
      simp [getFile, h.symm]
    · by_cases hq : x = q
      · subst hq
        simp [hx, getFile]
      · simp [hx, getFile, hq, ih]

theorem getFile_filter_dir (fs : List (Path × File)) (p : Path) (d : Dir) :
    getFile (fs.filter (fun pf => pf.1.dir != d)) p = if p.dir = d then none else getFile fs p := by
  induction fs with
  | nil => simp [getFile]
  | cons a r ih =>
    obtain ⟨x, g⟩ := a
    by_cases hx : x.dir = d
    · have : (x.dir != d) = false := by simp [hx]
      rw [List.filter_cons_of_neg (by simpa using hx), ih]
      by_cases hp : p.dir = d
      · simp [hp]
      · have : x ≠ p := by
          intro h
          rw [h] at hx
          exact hp hx
        simp [hp, getFile, this]
    · rw [List.filter_cons_of_pos (by simpa using hx)]
      by_cases hp : p.dir = d
      · have : x ≠ p := by
          intro h
          rw [h] at hx
          exact hx hp
        simp [hp, getFile, this, ih]
      · by_cases hxp : x = p
        · simp [getFile, hxp, hp]
        · simp [getFile, hxp, hp, ih]

theorem isCached_true_iff (env : Env) (w : World) (source : GoString)
    (hpath : getCacheFilePath env w source = .ok (cacheFile source))
    (hstat : env.statErr w (cacheFile source) = none) :
    IsCached env w source = .ok true ↔
      ∃ f, getFile w.files (cacheFile source) = some f ∧ w.now - f.mtime ≤ 24 * 3600 * 1000000000 := by
  have hfresh : freshness = 24 * 3600 * 1000000000 := rfl
  unfold IsCached
  rw [hpath]
  dsimp only
  rw [hstat]
  dsimp only
  cases hg : getFile w.files (cacheFile source) with
  | none => simp
  | some f =>
    dsimp only
    rw [hfresh]
    by_cases ha : w.now - f.mtime > 24 * 3600 * 1000000000
    · rw [if_pos ha]
      simp only [Except.ok.injEq, Bool.false_eq_true, Option.some.injEq, exists_eq_left', false_iff,
        not_le]
      exact ha
    · rw [if_neg ha]
      simp only [Option.some.injEq, exists_eq_left', true_iff]
      exact not_lt.mp ha

/-- C6 (freshness).  When neither the resolution of the cache path nor the
stat of the entry fails, `IsCached` reports found exactly when an entry for
the source exists and the current time minus its modification time is at most
24 hours.  For an entry that is older it reports not-found, while the entry is
still in the world, with its old content, which `GetCachedContent` returns;
only a store replaces it, with the new content and the time of the store, and
only a clear removes it.  `IsCached` is a function of the world that returns
no new world: of the calls it makes, `MkdirAll` and `Stat`, none writes a
file. -/
theorem freshness_window (env : Env) (w : World) (source : GoString)
    (hpath : getCacheFilePath env w source = .ok (cacheFile source))
    (hstat : env.statErr w (cacheFile source) = none) :
    (IsCached env w source = .ok true ↔
      ∃ f, getFile w.files (cacheFile source) = some f ∧ w.now - f.mtime ≤ 24 * 3600 * 1000000000) ∧
    (∀ f, getFile w.files (cacheFile source) = some f → w.now - f.mtime > 24 * 3600 * 1000000000 →
      IsCached env w source = .ok false ∧
      (env.readErr w (cacheFile source) = none → GetCachedContent env w source = .ok f.content)) ∧
    (∀ c v, CacheContent env source c w = (.ok (), v) →
      getFile v.files (cacheFile source) = some ⟨c, w.now⟩) ∧
    (∀ v, ClearCache env w = (.ok (), v) → getFile v.files (cacheFile source) = none) := by
  have hfresh : freshness = 24 * 3600 * 1000000000 := rfl
  refine ⟨isCached_true_iff env w source hpath hstat, ?_, ?_, ?_⟩
  · intro f hg ha
    constructor
    · unfold IsCached
      rw [hpath]
      dsimp only
      rw [hstat]
      dsimp only
      rw [hg]
      dsimp only
      rw [hfresh, if_pos ha]
    · intro hr
      unfold GetCachedContent readFile
      rw [hpath]
      dsimp only
      rw [hr]
      dsimp only
      rw [hg]
  · intro c v h
    rcases CacheContent_spec env source c w with ⟨e, h'⟩ | h'
    · rw [h'] at h
      simp at h
    · rw [h'] at h
      simp only [Prod.mk.injEq, true_and] at h
      subst h
      exact getFile_putFile_same _ _ _
  · intro v h
    unfold ClearCache at h
    split at h
    · simp at h
    · split at h
      · simp at h
      · dsimp only at h
        split at h
        · simp at h
        · simp only [Prod.mk.injEq, true_and] at h
          subst h
          simp only
          rw [getFile_filter_dir]
          simp [cacheFile]

set_option maxRecDepth 1000000 in
/-- Witness of C6: an entry written at time 0 is found after exactly 24 hours
and not found after 25 hours. -/
theorem freshness_window_witness :
    getCacheFilePath focusEnv staleWorld (lit "a") = .ok (cacheFile (lit "a")) ∧
    focusEnv.statErr staleWorld (cacheFile (lit "a")) = none ∧
    IsCached focusEnv staleWorld (lit "a") = .ok false ∧
    GetCachedContent focusEnv staleWorld (lit "a") = .ok (lit "<p>cached page</p>") ∧
    IsCached focusEnv dayLaterWorld (lit "a") = .ok true :=
  ⟨rfl, rfl,
   ((freshness_window focusEnv staleWorld (lit "a") rfl rfl).2.1
      ⟨lit "<p>cached page</p>", 0⟩ rfl (by decide)).1,
   ((freshness_window focusEnv staleWorld (lit "a") rfl rfl).2.1
      ⟨lit "<p>cached page</p>", 0⟩ rfl (by decide)).2 rfl,
   (freshness_window focusEnv dayLaterWorld (lit "a") rfl rfl).1.2
      ⟨⟨lit "<p>cached page</p>", 0⟩, rfl, by decide⟩⟩

/-! ## The cache key and the round trip -/

theorem md5Sum_length (msg : GoString) : (md5Sum msg).length = 16 := by
  have h : ∀ x, (bytes32 x).length = 4 := fun _ => rfl
  unfold md5Sum
  simp only [List.length_append, h]

theorem hexEncode_length (l : List Nat) : (hexEncode l).length = 2 * l.length := by
  induction l with
  | nil => rfl
  | cons b r ih => simp [hexEncode, ih]; omega

theorem hexDigit_mem (n : Nat) (h : n < 16) : hexDigit n ∈ lit "0123456789abcdef" := by
  interval_cases n <;> decide

theorem hexEncode_digits (l : List Nat) : ∀ b ∈ hexEncode l, b ∈ lit "0123456789abcdef" := by
  induction l with
  | nil => simp [hexEncode]
  | cons x r ih =>
    intro b hb
    simp only [hexEncode, List.mem_cons] at hb
    rcases hb with rfl | rfl | hb
    · exact hexDigit_mem _ (Nat.mod_lt _ (by decide))
    · exact hexDigit_mem _ (Nat.mod_lt _ (by decide))
    · exact ih b hb

/-- C7 (cache key and round trip).  The file of the cache entry of a source is
the same for every environment and every world in which the path resolves: its
name is the hexadecimal encoding of the MD5 digest of the source, 32 digits
out of `0123456789abcdef`, followed by `.html`.  After two successful stores
for the same source, of `c1` and then of `c2`, a lookup no later than 24 hours
after the second store, in a world with the same files and without a failure
of the path resolution, the stat or the read, reports found and returns
exactly `c2`; the entry holds `c2` and the time of the second store, nothing
of `c1`; and the file of every source with another key is as before the
stores. -/
theorem cache_round_trip (env : Env) (source c1 c2 : GoString) (w w1 w2 w' : World)
    (h1 : CacheContent env source c1 w = (.ok (), w1))
    (h2 : CacheContent env source c2 w1 = (.ok (), w2))
    (hfiles : w'.files = w2.files)
    (hage : w'.now - w1.now ≤ 24 * 3600 * 1000000000)
    (hpath : getCacheFilePath env w' source = .ok (cacheFile source))
    (hstat : env.statErr w' (cacheFile source) = none)
    (hread : env.readErr w' (cacheFile source) = none) :
    (∀ (env' : Env) (v : World) (p : Path), getCacheFilePath env' v source = .ok p →
      p = cacheFile source) ∧
    (cacheFile source).name = hexEncode (md5Sum source) ++ lit ".html" ∧
    (hexEncode (md5Sum source)).length = 32 ∧
    (∀ b ∈ hexEncode (md5Sum source), b ∈ lit "0123456789abcdef") ∧
    IsCached env w' source = .ok true ∧
    GetCachedContent env w' source = .ok c2 ∧
    getFile w2.files (cacheFile source) = some ⟨c2, w1.now⟩ ∧
    (∀ other, cacheFile other ≠ cacheFile source →
      getFile w2.files (cacheFile other) = getFile w.files (cacheFile other)) := by
  have e1 : w1 =
      { w with
        files := putFile w.files (cacheFile source) ⟨c1, w.now⟩
        out := w.out ++ [.wrote (cacheFile source) c1] } := by
    rcases CacheContent_spec env source c1 w with ⟨e, h⟩ | h
    · rw [h] at h1
      simp at h1
    · rw [h] at h1
      simp only [Prod.mk.injEq, true_and] at h1
      exact h1.symm
  have e2 : w2 =
      { w1 with
        files := putFile w1.files (cacheFile source) ⟨c2, w1.now⟩
        out := w1.out ++ [.wrote (cacheFile source) c2] } := by
    rcases CacheContent_spec env source c2 w1 with ⟨e, h⟩ | h
    · rw [h] at h2
      simp at h2
    · rw [h] at h2
      simp only [Prod.mk.injEq, true_and] at h2
      exact h2.symm
  have hentry : getFile w2.files (cacheFile source) = some ⟨c2, w1.now⟩ := by
    rw [e2]
    exact getFile_putFile_same _ _ _
  have hentry' : getFile w'.files (cacheFile source) = some ⟨c2, w1.now⟩ := by
    rw [hfiles]
    exact hentry
  refine ⟨fun env' v p hp => getCacheFilePath_ok hp, rfl, ?_, hexEncode_digits _, ?_, ?_, hentry, ?_⟩
  · rw [hexEncode_length, md5Sum_length]
  · exact (isCached_true_iff env w' source hpath hstat).2 ⟨_, hentry', hage⟩
  · unfold GetCachedContent readFile
    rw [hpath]
    dsimp only
    rw [hread]
    dsimp only
    rw [hentry']
  · intro other hne
    rw [e2]
    simp only
    rw [getFile_putFile_other _ _ _ _ hne, e1]
    simp only
    rw [getFile_putFile_other _ _ _ _ hne]

set_option maxRecDepth 1000000 in
/-- Witness of C7: `one` and then `two` are stored for the source `a`, and the
entry is looked up an hour later. -/
theorem cache_round_trip_witness :
    CacheContent focusEnv (lit "a") (lit "one") emptyWorld = (.ok (), storedOnce) ∧
    CacheContent focusEnv (lit "a") (lit "two") storedOnce = (.ok (), storedTwice) ∧
    hourLater.now - storedOnce.now ≤ 24 * 3600 * 1000000000 ∧
    IsCached focusEnv hourLater (lit "a") = .ok true ∧
    GetCachedContent focusEnv hourLater (lit "a") = .ok (lit "two") :=
  ⟨rfl, rfl, by decide,
   (cache_round_trip focusEnv (lit "a") (lit "one") (lit "two") emptyWorld storedOnce storedTwice
      hourLater rfl rfl rfl (by decide) rfl rfl rfl).2.2.2.2.1,
   (cache_round_trip focusEnv (lit "a") (lit "one") (lit "two") emptyWorld storedOnce storedTwice
      hourLater rfl rfl rfl (by decide) rfl rfl rfl).2.2.2.2.2.1⟩

set_option maxRecDepth 1000000 in
/-- The cache key of a concrete source, evaluated. -/
theorem cacheFile_example :
    (cacheFile (lit "a")).name = lit "0cc175b9c0f1b6a831c399e269772661.html" := by
  decide

/-! ## Cache-aside -/

theorem focusStep_cache (env : Env) (config : Config) (source summary : GoString) (w : World) :
    (∀ p, p.dir = .cache → getFile (focusStep env config source summary w).files p = getFile w.files p) ∧
    ∃ δ, (focusStep env config source summary w).out = w.out ++ δ ∧ fetches δ = [] := by
  obtain ⟨hfiles, hout⟩ := ExtractFocusedContent_snd env config summary w
  have hδ0 : ∃ δ, (ExtractFocusedContent env config summary w).2.out = w.out ++ δ ∧ fetches δ = [] := by
    rcases hout with h | h
    · exact ⟨[], by simp [h], rfl⟩
    · exact ⟨_, h, by simp [fetches, Event.fetch?]⟩
  obtain ⟨δ, hδ1, hδ2⟩ := hδ0
  simp only [fetches] at hδ2
  unfold focusStep
  split
  · rcases hE : ExtractFocusedContent env config summary w with ⟨r, w1⟩
    rw [hE] at hfiles hδ1
    simp only at hfiles hδ1
    cases r with
    | error e =>
      exact ⟨fun p _ => by simp [World.log, hfiles],
        δ ++ [.warnExtract e], by simp [World.log, hδ1], by simp [fetches, hδ2, Event.fetch?]⟩
    | ok focused =>
      dsimp only
      split
      · rcases StoreFocusedContent_spec env source focused w1 with ⟨e, h⟩ | h
        · rw [h]
          exact ⟨fun p _ => by simp [World.log, hfiles],
            δ ++ [.warnStore e], by simp [World.log, hδ1], by simp [fetches, hδ2, Event.fetch?]⟩
        · rw [h]
          refine ⟨fun p hp => ?_, δ ++ [.wrote (focusFile source) focused], by simp [hδ1],
            by simp [fetches, hδ2, Event.fetch?]⟩
          simp only
          rw [getFile_putFile_other, hfiles]
          intro hpe
          rw [hpe] at hp
          simp [focusFile] at hp
      · exact ⟨fun p _ => by rw [hfiles], δ, hδ1, by simp [fetches, hδ2]⟩
  · exact ⟨fun p _ => rfl, [], by simp, rfl⟩

/-- What follows the first step in `processSource`: the summary request for
the content, and then nothing that fetches or that touches a cache file. -/
theorem processSource_tail {env : Env} {config : Config} {source content : GoString} {w w1 : World}
    (hl : loadContent env source (w.log (.processing source)) = (.ok content, w1)) :
    (∃ δ, (processSource env config source w).2.out =
      w1.out ++ .chat (summaryRequest config content source) :: δ ∧ fetches δ = []) ∧
    (∀ p, p.dir = .cache → getFile (processSource env config source w).2.files p = getFile w1.files p) := by
  unfold processSource
  rw [hl]
  dsimp only
  rcases hs : SummarizeWithAI env config content source w1 with ⟨r2, w2⟩
  have hw2 := postChat_snd env config (summaryPrompt config content source) w1
  unfold SummarizeWithAI at hs
  rw [hs] at hw2
  simp only at hw2
  subst hw2
  cases r2 with
  | error e => exact ⟨⟨[], rfl, rfl⟩, fun p _ => rfl⟩
  | ok summary =>
    dsimp only
    rcases StoreSummarization_spec env source summary
      { w1 with now := w1.now + env.elapsed w1,
                out := w1.out ++ [.chat ⟨config.LLMAPIURL, config.LLMAPIKey, config.LLMAPIModel,
                  summaryPrompt config content source⟩] } with ⟨e, h⟩ | h
    · rw [h]
      exact ⟨⟨[], rfl, rfl⟩, fun p _ => rfl⟩
    · rw [h]
      refine ⟨⟨_, by simp [World.log, summaryRequest]; rfl, by simp [fetches, Event.fetch?]⟩,
        fun p hp => ?_⟩
      simp only [World.log]
      rw [getFile_putFile_other]
      intro hpe
      rw [hpe] at hp
      simp [summaryFile] at hp

theorem processSourceLogged_tail {env : Env} {config : Config} {source content : GoString}
    {w w1 : World}
    (hl : loadContent env source (w.log (.processing source)) = (.ok content, w1)) :
    (∃ δ, (processSourceLogged env config source w).2.out =
      w1.out ++ .chat (summaryRequest config content source) :: δ ∧ fetches δ = []) ∧
    (∀ p, p.dir = .cache →
      getFile (processSourceLogged env config source w).2.files p = getFile w1.files p) := by
  unfold processSourceLogged
  rw [hl]
  dsimp only
  rcases hs : SummarizeWithAI env config content source w1 with ⟨r2, w2⟩
  have hw2 := postChat_snd env config (summaryPrompt config content source) w1
  unfold SummarizeWithAI at hs
  rw [hs] at hw2
  simp only at hw2
  have hout : w2.out = w1.out ++ [.chat (summaryRequest config content source)] := by
    rw [hw2]; rfl
  have hfiles : w2.files = w1.files := by rw [hw2]
  cases r2 with
  | error e => exact ⟨⟨[], by simp [hout], rfl⟩, fun p _ => by rw [hfiles]⟩
  | ok summary =>
    dsimp only
    rcases StoreSummarization_spec env source summary w2 with ⟨e, h⟩ | h
    · rw [h]
      exact ⟨⟨[], by simp [hout], rfl⟩, fun p _ => by rw [hfiles]⟩
    · rw [h]
      dsimp only
      obtain ⟨hf, δf, hδf, hfetch⟩ := focusStep_cache env config source summary
        { w2 with
          files := putFile w2.files (summaryFile source) ⟨summaryDocument env w2 source summary, w2.now⟩
          out := w2.out ++ [.wrote (summaryFile source) (summaryDocument env w2 source summary)] }
      refine ⟨⟨.wrote (summaryFile source) (summaryDocument env w2 source summary) ::
        (δf ++ [.completed source]), ?_, ?_⟩, fun p hp => ?_⟩
      · simp only [World.log, hδf]
        simp [hout]
      · simp only [fetches] at hfetch ⊢
        simp [hfetch, Event.fetch?]
      · simp only [World.log]
        rw [hf p hp]
        simp only
        rw [getFile_putFile_other, hfiles]
        intro hpe
        rw [hpe] at hp
        simp [summaryFile] at hp

theorem cacheAside_of {env : Env} {config : Config} {source : GoString} {w w' : World} {ok : Bool}
    (htail : ∀ content w1, loadContent env source (w.log (.processing source)) = (.ok content, w1) →
      (∃ δ, w'.out = w1.out ++ .chat (summaryRequest config content source) :: δ ∧ fetches δ = []) ∧
      (∀ p, p.dir = .cache → getFile w'.files p = getFile w1.files p))
    (herr : ∀ e w1, loadContent env source (w.log (.processing source)) = (.error e, w1) →
      ok = false ∧ w' = w1) :
    CacheAside env config source w ok w' := by
  refine ⟨?_, ?_, ?_, ?_⟩
  · intro content h1 h2
    have hl : loadContent env source (w.log (.processing source)) =
        (.ok content, w.log (.processing source)) := by
      unfold loadContent
      rw [h1, h2]
    obtain ⟨⟨δ, hδ, hf⟩, hfiles⟩ := htail content _ hl
    exact ⟨⟨δ, by simp [hδ, World.log], hf⟩, fun p hp => by rw [hfiles p hp]; rfl⟩
  · intro c wf w2 h1 h2 h3
    have hl : loadContent env source (w.log (.processing source)) = (.ok c, w2) := by
      unfold loadContent
      rw [h1]
      dsimp only
      rw [h2]
      dsimp only
      rw [h3]
    have hwf : wf.out = w.out ++ [.processing source, .httpGet source] := by
      simp only [CrawlWebsite, Prod.mk.injEq] at h2
      rw [← h2.2]
      simp [World.log]
    have hw2 : w2 = { wf with files := putFile wf.files (cacheFile source) ⟨c, wf.now⟩
                              out := wf.out ++ [.wrote (cacheFile source) c] } := by
      rcases CacheContent_spec env source c wf with ⟨e, h⟩ | h
      · rw [h] at h3
        simp at h3
      · rw [h] at h3
        simp only [Prod.mk.injEq, true_and] at h3
        exact h3.symm
    have hentry : getFile w2.files (cacheFile source) = some ⟨c, wf.now⟩ := by
      rw [hw2]
      exact getFile_putFile_same _ _ _
    obtain ⟨⟨δ, hδ, -⟩, hfiles⟩ := htail c w2 hl
    refine ⟨⟨δ, ?_⟩, hentry, ?_⟩
    · rw [hδ, hw2]
      simp [hwf]
    · rw [hfiles _ (by rfl), hentry]
  · intro c wf e w2 h1 h2 h3
    have hl : loadContent env source (w.log (.processing source)) = (.error e, w2) := by
      unfold loadContent
      rw [h1]
      dsimp only
      rw [h2]
      dsimp only
      rw [h3]
    have hwf : wf.out = w.out ++ [.processing source, .httpGet source] := by
      simp only [CrawlWebsite, Prod.mk.injEq] at h2
      rw [← h2.2]
      simp [World.log]
    have hw2 : w2 = wf := by
      rcases CacheContent_spec env source c wf with ⟨e', h⟩ | h
      · rw [h] at h3
        simp only [Prod.mk.injEq] at h3
        exact h3.2.symm
      · rw [h] at h3
        simp at h3
    obtain ⟨hok, hw'⟩ := herr e w2 hl
    exact ⟨hok, by rw [hw', hw2, hwf]⟩
  · intro e wf h1 h2
    have hl : loadContent env source (w.log (.processing source)) = (.error e, wf) := by
      unfold loadContent
      rw [h1]
      dsimp only
      rw [h2]
    simp only [CrawlWebsite, Prod.mk.injEq] at h2
    obtain ⟨hok, hw'⟩ := herr e wf hl
    refine ⟨hok, ?_, ?_⟩
    · rw [hw', ← h2.2]
      rfl
    · rw [hw', ← h2.2]
      simp [World.log]

/-- C8 (cache-aside with write-through on a miss).  Every attempt of
`processSource` and of `processSourceLogged`, in every environment and from
every world, meets `CacheAside`: on a hit nothing is fetched, no cache file
changes in content or time stamp, and the summarizer is asked about exactly
the cached content; on a miss with a successful fetch of `c` the entry holds
`c` before the summary request is sent and still holds it when the attempt
ends, whether it succeeds or not; on a miss with a failed fetch no file
changes and no summary request is sent. -/
theorem cache_aside (env : Env) (config : Config) (source : GoString) (w : World) :
    CacheAside env config source w (processSource env config source w).1.isOk
      (processSource env config source w).2 ∧
    CacheAside env config source w (processSourceLogged env config source w).1.isOk
      (processSourceLogged env config source w).2 := by
  constructor
  · apply cacheAside_of
    · intro content w1 hl
      exact processSource_tail hl
    · intro e w1 hl
      unfold processSource
      rw [hl]
      exact ⟨rfl, rfl⟩
  · apply cacheAside_of
    · intro content w1 hl
      exact processSourceLogged_tail hl
    · intro e w1 hl
      unfold processSourceLogged
      rw [hl]
      exact ⟨rfl, rfl⟩

set_option maxRecDepth 1000000 in
/-- Witness of C8: on the hit in `cachedWorld` the attempt sends the summary
request for the cached page and leaves the entry as it was; on the miss in
the empty world the entry holds the fetched page at the end of the attempt. -/
theorem cache_aside_witness :
    IsCached focusEnv (cachedWorld.log (.processing (lit "a"))) (lit "a") = .ok true ∧
    GetCachedContent focusEnv (cachedWorld.log (.processing (lit "a"))) (lit "a") =
      .ok (lit "<p>cached page</p>") ∧
    getFile (processSource focusEnv threeSources (lit "a") cachedWorld).2.files (cacheFile (lit "a")) =
      getFile cachedWorld.files (cacheFile (lit "a")) ∧
    IsCached focusEnv (emptyWorld.log (.processing (lit "a"))) (lit "a") = .ok false ∧
    getFile (processSource focusEnv threeSources (lit "a") emptyWorld).2.files (cacheFile (lit "a")) =
      some ⟨lit "<p>news of the day</p>", 1000000000⟩ :=
  ⟨rfl, rfl,
   ((cache_aside focusEnv threeSources (lit "a") cachedWorld).1.1 (lit "<p>cached page</p>")
      rfl rfl).2 (cacheFile (lit "a")) rfl,
   rfl,
   ((cache_aside focusEnv threeSources (lit "a") emptyWorld).1.2.1 (lit "<p>news of the day</p>")
      _ _ rfl rfl rfl).2.2⟩

/-! ## Truncation before summarization -/

theorem hasPrefix_lt_of_not_mem (s p : GoString) (h : 60 ∉ s) : hasPrefix s (60 :: p) = false := by
  cases s with
  | nil => rfl
  | cons a t =>
    have : a ≠ 60 := fun e => h (by simp [e])
    simp [hasPrefix, this]

theorem contains_lt_of_not_mem (s p : GoString) (h : 60 ∉ s) : contains s (60 :: p) = false := by
  induction s with
  | nil => rfl
  | cons a t ih =>
    have ht : 60 ∉ t := fun m => h (List.mem_cons_of_mem _ m)
    unfold contains
    rw [hasPrefix_lt_of_not_mem _ _ h, ih ht]
    rfl

theorem replaceAllFuel_of_not_mem (n : Nat) (s p new : GoString) (h : 60 ∉ s) :
    replaceAllFuel n s (60 :: p) new = s := by
  induction n generalizing s with
  | zero => rfl
  | succ n ih =>
    cases s with
    | nil => rfl
    | cons a t =>
      have ht : 60 ∉ t := fun m => h (List.mem_cons_of_mem _ m)
      unfold replaceAllFuel
      rw [hasPrefix_lt_of_not_mem _ _ h]
      simp [ih t ht]

theorem splitOn_of_not_mem (sep : Nat) (s : GoString) (h : sep ∉ s) : splitOn sep s = [s] := by
  induction s with
  | nil => rfl
  | cons a t ih =>
    have ht : sep ∉ t := fun m => h (List.mem_cons_of_mem _ m)
    have ha : a ≠ sep := fun e => h (by simp [e])
    unfold splitOn
    rw [if_neg ha, ih ht]

theorem splitOn_append_sep (sep : Nat) (s : GoString) (h : sep ∉ s) :
    splitOn sep (s ++ [sep]) = [s, []] := by
  induction s with
  | nil => simp [splitOn]
  | cons a t ih =>
    have ht : sep ∉ t := fun m => h (List.mem_cons_of_mem _ m)
    have ha : a ≠ sep := fun e => h (by simp [e])
    simp only [List.cons_append]
    unfold splitOn
    rw [if_neg ha, ih ht]

/-- A single line without markup that is already trimmed and longer than 3
bytes comes out of `extractTextFromHTML` as it went in. -/
theorem extractTextFromHTML_plain (s : GoString) (hlt : 60 ∉ s) (hnl : 10 ∉ s)
    (hlen : s.length > 3) (htrim : trimSpace s = s) : extractTextFromHTML s = s := by
  have l1 : lit "<script" = 60 :: lit "script" := by decide
  have l2 : lit "</script>" = 60 :: lit "/script>" := by decide
  have l3 : lit "<style" = 60 :: lit "style" := by decide
  have l4 : lit "</style>" = 60 :: lit "/style>" := by decide
  have hne : s ≠ [] := by
    intro e
    rw [e] at hlen
    simp at hlen
  have hlt' : 60 ∉ s ++ [10] := by simp [hlt]
  unfold extractTextFromHTML
  simp only [replaceAll, l1, l2, l3, l4, replaceAllFuel_of_not_mem _ _ _ _ hlt]
  rw [splitOn_of_not_mem 10 s hnl]
  have hscan : scanLines false false [s] = s ++ [10] := by
    simp [scanLines, l1, l2, l3, l4, contains_lt_of_not_mem _ _ hlt]
  rw [hscan]
  have hstrip : ∀ n, stripTagsFuel n (s ++ [10]) = s ++ [10] := by
    intro n
    cases n with
    | zero => rfl
    | succ n =>
      unfold stripTagsFuel
      rw [contains_lt_of_not_mem _ _ hlt']
      rfl
  rw [hstrip, splitOn_append_sep 10 s hnl]
  have hempty : trimSpace [] = [] := by decide
  simp [cleanLines, htrim, hempty, hne, hlen, join]

theorem trimLeftFuel_of_none (encs : List GoString) (n : Nat) (s : GoString)
    (h : leadingSpace encs s = none) : trimLeftFuel encs n s = s := by
  cases n with
  | zero => rfl
  | succ n => simp [trimLeftFuel, h]

theorem umlauts_succ (n : Nat) : umlauts (n + 1) = 195 :: 164 :: umlauts n := by
  simp [umlauts, List.replicate_succ]

theorem umlauts_succ_end (n : Nat) : umlauts (n + 1) = umlauts n ++ [195, 164] := by
  simp [umlauts, List.replicate_succ']

theorem umlauts_length (n : Nat) : (umlauts n).length = 2 * n := by
  induction n with
  | zero => rfl
  | succ n ih => rw [umlauts_succ]; simp [ih]; omega

theorem umlauts_mem (n b : Nat) (h : b ∈ umlauts n) : b = 195 ∨ b = 164 := by
  induction n with
  | zero => simp [umlauts] at h
  | succ n ih =>
    rw [umlauts_succ] at h
    simp only [List.mem_cons] at h
    rcases h with h | h | h
    · exact Or.inl h
    · exact Or.inr h
    · exact ih h

theorem umlauts_runeCount (n : Nat) : runeCount (umlauts n) = n := by
  induction n with
  | zero => rfl
  | succ n ih =>
    rw [umlauts_succ]
    simp only [runeCount] at ih ⊢
    simp [List.filter_cons, ih]

theorem umlauts_take (n k : Nat) : (umlauts (n + k)).take (2 * n) = umlauts n := by
  induction n with
  | zero => simp [umlauts]
  | succ n ih =>
    have e : n + 1 + k = (n + k) + 1 := by omega
    rw [e, umlauts_succ, umlauts_succ]
    have e2 : 2 * (n + 1) = (2 * n + 1) + 1 := by omega
    rw [e2, List.take_succ_cons, List.take_succ_cons, ih]

theorem umlauts_trimSpace (n : Nat) : trimSpace (umlauts (n + 1)) = umlauts (n + 1) := by
  have hl : leadingSpace spaceEncodings (umlauts (n + 1)) = none := by
    rw [umlauts_succ]
    simp [leadingSpace, spaceEncodings, hasPrefix]
  have hr : leadingSpace (spaceEncodings.map List.reverse) (umlauts (n + 1)).reverse = none := by
    rw [umlauts_succ_end]
    simp [leadingSpace, spaceEncodings, hasPrefix]
  unfold trimSpace
  simp only [trimLeftFuel_of_none _ _ _ hl, trimLeftFuel_of_none _ _ _ hr, List.reverse_reverse]

theorem umlauts_extract (n : Nat) (h : 2 ≤ n) : extractTextFromHTML (umlauts n) = umlauts n := by
  obtain ⟨m, rfl⟩ : ∃ m, n = m + 1 := ⟨n - 1, by omega⟩
  apply extractTextFromHTML_plain
  · intro hm
    rcases umlauts_mem _ _ hm with e | e <;> simp at e
  · intro hm
    rcases umlauts_mem _ _ hm with e | e <;> simp at e
  · rw [umlauts_length]
    omega
  · exact umlauts_trimSpace m

/-- C9 refuted as stated: the page of 4001 two-byte characters is extracted
unchanged; it is 4001 characters long, at most 8000, yet the text submitted is
not the extracted text but its first 8000 bytes, which are 4000 characters:
the cut is at byte 8000, not at character 8000. -/
theorem truncation_counts_bytes :
    extractTextFromHTML (umlauts 4001) = umlauts 4001 ∧
    runeCount (extractTextFromHTML (umlauts 4001)) = 4001 ∧
    submittedText (umlauts 4001) ≠ extractTextFromHTML (umlauts 4001) ∧
    submittedText (umlauts 4001) = umlauts 4000 ∧
    runeCount (submittedText (umlauts 4001)) = 4000 := by
  have he := umlauts_extract 4001 (by decide)
  have hs : submittedText (umlauts 4001) = umlauts 4000 := by
    unfold submittedText
    simp only [he, umlauts_length]
    rw [if_pos (by decide)]
    exact umlauts_take 4000 1
  refine ⟨he, ?_, ?_, hs, ?_⟩
  · rw [he, umlauts_runeCount]
  · rw [hs, he]
    intro e
    have := congrArg List.length e
    rw [umlauts_length, umlauts_length] at this
    omega
  · rw [hs, umlauts_runeCount]

/-! ## The request body as JSON -/

theorem decodeRuneSize_cons (s0 : Nat) (r : GoString) :
    decodeRuneSize (s0 :: r) =
      if s0 < 128 then some 1
      else if 194 ≤ s0 ∧ s0 ≤ 223 then
        (if byteIn r[0]? 128 191 then some 2 else none)
      else if 224 ≤ s0 ∧ s0 ≤ 239 then
        (if byteIn r[0]? (if s0 = 224 then 160 else 128) (if s0 = 237 then 159 else 191) &&
            byteIn r[1]? 128 191 then some 3 else none)
      else if 240 ≤ s0 ∧ s0 ≤ 244 then
        (if byteIn r[0]? (if s0 = 240 then 144 else 128) (if s0 = 244 then 143 else 191) &&
            byteIn r[1]? 128 191 && byteIn r[2]? 128 191 then some 4 else none)
      else none := rfl

theorem byteIn_none_of_short (r : GoString) (i lo hi : Nat) (h : r.length ≤ i) :
    byteIn r[i]? lo hi = false := by
  rw [List.getElem?_eq_none h]
  rfl

theorem lt_of_byteIn (r : GoString) (i lo hi : Nat) (h : byteIn r[i]? lo hi = true) :
    i < r.length := by
  by_contra hc
  rw [byteIn_none_of_short r i lo hi (by omega)] at h
  simp at h

theorem decodeRuneSize_le (s : GoString) (n : Nat) (h : decodeRuneSize s = some n) :
    1 ≤ n ∧ n ≤ s.length := by
  cases s with
  | nil => simp [decodeRuneSize] at h
  | cons s0 r =>
    rw [decodeRuneSize_cons] at h
    simp only [List.length_cons]
    by_cases c1 : s0 < 128
    · rw [if_pos c1] at h
      simp only [Option.some.injEq] at h
      omega
    · rw [if_neg c1] at h
      by_cases c2 : 194 ≤ s0 ∧ s0 ≤ 223
      · rw [if_pos c2] at h
        by_cases hb : byteIn r[0]? 128 191 = true
        · rw [if_pos hb] at h
          simp only [Option.some.injEq] at h
          have := lt_of_byteIn _ _ _ _ hb
          omega
        · rw [if_neg hb] at h
          simp at h
      · rw [if_neg c2] at h
        by_cases c3 : 224 ≤ s0 ∧ s0 ≤ 239
        · rw [if_pos c3] at h
          generalize (if s0 = 224 then 160 else 128) = lo at h
          generalize (if s0 = 237 then 159 else 191) = hi at h
          by_cases hb : (byteIn r[0]? lo hi && byteIn r[1]? 128 191) = true
          · rw [if_pos hb] at h
            simp only [Option.some.injEq] at h
            rw [Bool.and_eq_true] at hb
            have := lt_of_byteIn _ _ _ _ hb.2
            omega
          · rw [if_neg hb] at h
            simp at h
        · rw [if_neg c3] at h
          by_cases c4 : 240 ≤ s0 ∧ s0 ≤ 244
          · rw [if_pos c4] at h
            generalize (if s0 = 240 then 144 else 128) = lo at h
            generalize (if s0 = 244 then 143 else 191) = hi at h
            by_cases hb : (byteIn r[0]? lo hi && byteIn r[1]? 128 191 && byteIn r[2]? 128 191) = true
            · rw [if_pos hb] at h
              simp only [Option.some.injEq] at h
              rw [Bool.and_eq_true] at hb
              have := lt_of_byteIn _ _ _ _ hb.2
              omega
            · rw [if_neg hb] at h
              simp at h
          · rw [if_neg c4] at h
            simp at h

/-- Bytes that are still to be copied are copied, whatever follows. -/
theorem jsonStringFrom_copy (k : Nat) (a b : GoString) (h : k ≤ a.length) :
    jsonStringFrom k (a ++ b) = a.take k ++ jsonStringFrom 0 (a.drop k ++ b) := by
  induction k generalizing a with
  | zero => simp
  | succ k ih =>
    cases a with
    | nil => simp at h
    | cons x r =>
      rw [List.cons_append, jsonStringFrom, List.take_succ_cons, List.drop_succ_cons,
        ih r (by simpa using h)]
      rfl

theorem byteIn_append (r b : GoString) (i lo hi : Nat) (hlo : 128 ≤ lo) (hhi : hi ≤ 191)
    (hb : ∀ c, b.head? = some c → c < 128 ∨ 191 < c) (hi2 : i ≤ r.length) :
    byteIn (r ++ b)[i]? lo hi = byteIn r[i]? lo hi := by
  by_cases hlt : i < r.length
  · rw [List.getElem?_append_left hlt]
  · have he : i = r.length := by omega
    subst he
    rw [List.getElem?_append_right (Nat.le_refl _)]
    simp only [Nat.sub_self, List.getElem?_eq_none (Nat.le_refl _)]
    cases b with
    | nil => rfl
    | cons c t =>
      have := hb c rfl
      simp only [List.getElem?_cons_zero, byteIn, Bool.and_eq_false_imp, decide_eq_true_eq,
        decide_eq_false_iff_not, Bool.false_eq, Bool.and_eq_false_iff]
      omega

/-- What follows a string does not change the decoding at its start when it
is empty or starts with a byte that is not a continuation byte. -/
theorem decodeRuneSize_append (x : Nat) (r b : GoString)
    (hb : ∀ c, b.head? = some c → c < 128 ∨ 191 < c) :
    decodeRuneSize (x :: (r ++ b)) = decodeRuneSize (x :: r) := by
  have key : ∀ (lo1 hi1 : Nat), 128 ≤ lo1 → hi1 ≤ 191 →
      (byteIn (r ++ b)[0]? lo1 hi1 = byteIn r[0]? lo1 hi1) ∧
      ((byteIn (r ++ b)[0]? lo1 hi1 && byteIn (r ++ b)[1]? 128 191) =
        (byteIn r[0]? lo1 hi1 && byteIn r[1]? 128 191)) ∧
      ((byteIn (r ++ b)[0]? lo1 hi1 && byteIn (r ++ b)[1]? 128 191 && byteIn (r ++ b)[2]? 128 191) =
        (byteIn r[0]? lo1 hi1 && byteIn r[1]? 128 191 && byteIn r[2]? 128 191)) := by
    intro lo1 hi1 hlo hhi
    have e0 := byteIn_append r b 0 lo1 hi1 hlo hhi hb (Nat.zero_le _)
    refine ⟨e0, ?_, ?_⟩
    · rw [e0]
      by_cases h1 : 1 ≤ r.length
      · rw [byteIn_append r b 1 128 191 (Nat.le_refl _) (Nat.le_refl _) hb h1]
      · rw [byteIn_none_of_short r 0 lo1 hi1 (by omega)]
        simp
    · rw [e0]
      by_cases h1 : 1 ≤ r.length
      · rw [byteIn_append r b 1 128 191 (Nat.le_refl _) (Nat.le_refl _) hb h1]
        by_cases h2 : 2 ≤ r.length
        · rw [byteIn_append r b 2 128 191 (Nat.le_refl _) (Nat.le_refl _) hb h2]
        · rw [byteIn_none_of_short r 1 128 191 (by omega)]
          simp
      · rw [byteIn_none_of_short r 0 lo1 hi1 (by omega)]
        simp
  rw [decodeRuneSize_cons, decodeRuneSize_cons]
  by_cases c1 : x < 128
  · rw [if_pos c1, if_pos c1]
  · rw [if_neg c1, if_neg c1]
    by_cases c2 : 194 ≤ x ∧ x ≤ 223
    · rw [if_pos c2, if_pos c2, (key 128 191 (Nat.le_refl _) (Nat.le_refl _)).1]
    · rw [if_neg c2, if_neg c2]
      by_cases c3 : 224 ≤ x ∧ x ≤ 239
      · rw [if_pos c3, if_pos c3]
        rw [(key (if x = 224 then 160 else 128) (if x = 237 then 159 else 191)
          (by split <;> omega) (by split <;> omega)).2.1]
      · rw [if_neg c3, if_neg c3]
        by_cases c4 : 240 ≤ x ∧ x ≤ 244
        · rw [if_pos c4, if_pos c4]
          rw [(key (if x = 240 then 144 else 128) (if x = 244 then 143 else 191)
            (by split <;> omega) (by split <;> omega)).2.2]
        · rw [if_neg c4, if_neg c4]

/-- The JSON form of a string followed by a string that is empty or starts
with a byte that is not a continuation byte is the JSON form of the first
followed by that of the second. -/
theorem jsonString_append (a b : GoString) (hb : ∀ c, b.head? = some c → c < 128 ∨ 191 < c) :
    jsonString (a ++ b) = jsonString a ++ jsonString b := by
  unfold jsonString
  have key : ∀ n (a : GoString), a.length ≤ n →
      jsonStringFrom 0 (a ++ b) = jsonStringFrom 0 a ++ jsonStringFrom 0 b := by
    intro n
    induction n with
    | zero =>
      intro a h
      have : a = [] := List.length_eq_zero.1 (by omega)
      subst this
      simp [jsonStringFrom]
    | succ n ih =>
      intro a h
      cases a with
      | nil => simp [jsonStringFrom]
      | cons x r =>
        simp only [List.length_cons] at h
        rw [List.cons_append, jsonStringFrom, jsonStringFrom, decodeRuneSize_append x r b hb]
        cases hd : decodeRuneSize (x :: r) with
        | none =>
          simp only [List.cons_append]
          rw [ih r (by omega)]
        | some m =>
          obtain ⟨m1, m2⟩ := decodeRuneSize_le _ _ hd
          simp only [List.length_cons] at m2
          simp only [List.cons_append]
          rw [jsonStringFrom_copy (m - 1) r b (by omega)]
          have := jsonStringFrom_copy (m - 1) r [] (by omega)
          simp only [List.append_nil] at this
          rw [this, ih (r.drop (m - 1)) (by rw [List.length_drop]; omega)]
          simp
  exact key a.length a (Nat.le_refl _)

/-- ASCII text is its own JSON form, whatever follows it. -/
theorem jsonString_ascii_append (a b : GoString) (ha : ∀ x ∈ a, x < 128) :
    jsonString (a ++ b) = a ++ jsonString b := by
  unfold jsonString
  induction a with
  | nil => rfl
  | cons x r ih =>
    have hx : x < 128 := ha x (by simp)
    rw [List.cons_append, jsonStringFrom, decodeRuneSize_cons, if_pos hx]
    simp only [Nat.sub_self]
    rw [ih (fun y hy => ha y (by simp [hy]))]
    rfl

theorem jsonString_ascii (a : GoString) (ha : ∀ x ∈ a, x < 128) : jsonString a = a := by
  have := jsonString_ascii_append a [] ha
  simpa [jsonString, jsonStringFrom] using this

/-- Valid UTF-8 is its own JSON form. -/
theorem jsonStringFrom_valid (k : Nat) (s : GoString) (h : validUTF8From k s = true) :
    jsonStringFrom k s = s := by
  induction s generalizing k with
  | nil => cases k <;> rfl
  | cons b r ih =>
    cases k with
    | succ k =>
      simp only [validUTF8From] at h
      simp only [jsonStringFrom, ih k h]
    | zero =>
      simp only [validUTF8From] at h
      simp only [jsonStringFrom]
      cases hd : decodeRuneSize (b :: r) with
      | none => rw [hd] at h; simp at h
      | some n =>
        rw [hd] at h
        simp only at h ⊢
        rw [ih (n - 1) h]

/-- The JSON form has at most one character for each byte of the string, and
at least as many bytes, at most three times as many. -/
theorem jsonStringFrom_bounds (k : Nat) (s : GoString) :
    runeCount (jsonStringFrom k s) ≤ s.length ∧ s.length ≤ (jsonStringFrom k s).length ∧
    (jsonStringFrom k s).length ≤ 3 * s.length := by
  induction s generalizing k with
  | nil => cases k <;> simp [jsonStringFrom, runeCount]
  | cons b r ih =>
    have step : ∀ j, runeCount (b :: jsonStringFrom j r) ≤ (b :: r).length ∧
        (b :: r).length ≤ (b :: jsonStringFrom j r).length ∧
        (b :: jsonStringFrom j r).length ≤ 3 * (b :: r).length := by
      intro j
      obtain ⟨i1, i2, i3⟩ := ih j
      refine ⟨?_, by simp only [List.length_cons]; omega, by simp only [List.length_cons]; omega⟩
      simp only [runeCount, List.length_cons] at i1 ⊢
      rw [List.filter_cons]
      split
      · simp only [List.length_cons]
        omega
      · omega
    cases k with
    | succ k =>
      simp only [jsonStringFrom]
      exact step k
    | zero =>
      simp only [jsonStringFrom]
      cases decodeRuneSize (b :: r) with
      | some n => exact step (n - 1)
      | none =>
        obtain ⟨i1, i2, i3⟩ := ih 0
        refine ⟨?_, by simp only [List.length_cons]; omega, by simp only [List.length_cons]; omega⟩
        simp only [runeCount, List.length_cons] at i1 ⊢
        have e : List.filter (fun b => b / 64 != 2) (239 :: 191 :: 189 :: jsonStringFrom 0 r) =
            239 :: List.filter (fun b => b / 64 != 2) (jsonStringFrom 0 r) := by
          simp [List.filter_cons]
        rw [e]
        simp only [List.length_cons]
        omega

theorem jsonStringFrom_zero_cons (b : Nat) (r : GoString) :
    jsonStringFrom 0 (b :: r) =
      match decodeRuneSize (b :: r) with
      | some n => b :: jsonStringFrom (n - 1) r
      | none => 239 :: 191 :: 189 :: jsonStringFrom 0 r := rfl

theorem validUTF8From_zero_cons (b : Nat) (r : GoString) :
    validUTF8From 0 (b :: r) =
      match decodeRuneSize (b :: r) with
      | some n => validUTF8From (n - 1) r
      | none => false := rfl

theorem jsonStringFrom_umlauts (n : Nat) (rest : GoString) :
    jsonStringFrom 0 (umlauts n ++ rest) = umlauts n ++ jsonStringFrom 0 rest := by
  induction n with
  | zero => simp [umlauts]
  | succ n ih =>
    rw [umlauts_succ]
    have hd : decodeRuneSize (195 :: 164 :: (umlauts n ++ rest)) = some 2 := by
      rw [decodeRuneSize_cons]
      simp [byteIn]
    have e1 : jsonStringFrom 0 (195 :: 164 :: (umlauts n ++ rest)) =
        195 :: jsonStringFrom 1 (164 :: (umlauts n ++ rest)) := by
      rw [jsonStringFrom_zero_cons, hd]
    have e2 : jsonStringFrom 1 (164 :: (umlauts n ++ rest)) =
        164 :: jsonStringFrom 0 (umlauts n ++ rest) := rfl
    rw [List.cons_append, List.cons_append, e1, e2, ih]
    rfl

theorem runeCount_le_length (s : GoString) : runeCount s ≤ s.length := by
  unfold runeCount
  exact List.length_filter_le _ _

/-- The content that the endpoint receives for the prompt of `SummarizeWithAI`:
the JSON forms of the instruction, of the URL and of the submitted text
between the fixed lines of the prompt. -/
theorem summaryPrompt_json (config : Config) (htmlContent url : GoString) :
    jsonString (summaryPrompt config htmlContent url) =
      jsonString (if config.SummaryPrompt = [] then defaultPrompt else config.SummaryPrompt) ++
      lit "\n\nWebsite URL: " ++ jsonString url ++ lit "\n\nContent:\n" ++
      jsonString (submittedText htmlContent) ++
      lit "\n\nFormat your response in clean markdown with headings, bullet points, and clear structure." := by
  have a1 : ∀ x ∈ lit "\n\nWebsite URL: ", x < 128 := by decide
  have a2 : ∀ x ∈ lit "\n\nContent:\n", x < 128 := by decide
  have a3 : ∀ x ∈ lit "\n\nFormat your response in clean markdown with headings, bullet points, and clear structure.", x < 128 := by
    decide
  have h1 : ∀ t : GoString, ∀ c, (lit "\n\nWebsite URL: " ++ t).head? = some c → c < 128 ∨ 191 < c := by
    intro t c hc
    have e : lit "\n\nWebsite URL: " = 10 :: lit "\nWebsite URL: " := by decide
    rw [e] at hc
    simp only [List.cons_append, List.head?_cons, Option.some.injEq] at hc
    omega
  have h2 : ∀ t : GoString, ∀ c, (lit "\n\nContent:\n" ++ t).head? = some c → c < 128 ∨ 191 < c := by
    intro t c hc
    have e : lit "\n\nContent:\n" = 10 :: lit "\nContent:\n" := by decide
    rw [e] at hc
    simp only [List.cons_append, List.head?_cons, Option.some.injEq] at hc
    omega
  have h3 : ∀ c, (lit "\n\nFormat your response in clean markdown with headings, bullet points, and clear structure.").head? = some c →
      c < 128 ∨ 191 < c := by
    intro c hc
    have e : (lit "\n\nFormat your response in clean markdown with headings, bullet points, and clear structure.").head? = some 10 := by
      decide
    rw [e] at hc
    simp only [Option.some.injEq] at hc
    omega
  unfold summaryPrompt
  dsimp only
  simp only [List.append_assoc]
  rw [jsonString_append _ _ (h1 _), jsonString_ascii_append _ _ a1, jsonString_append _ _ (h2 _),
    jsonString_ascii_append _ _ a2, jsonString_append _ _ h3, jsonString_ascii _ a3]

/-- C9 as amended, in bytes.  The text that `SummarizeWithAI` embeds in the
prompt it builds, between the line `Content:` and the closing instruction,
is the extracted text itself when that is at most 8000 bytes long, and
otherwise exactly its first 8000 bytes; it is never longer than 8000 bytes,
hence never longer than 8000 characters, and always a prefix of the extracted
text.  The request is recorded with this prompt, and the reply that
`SummarizeWithAI` evaluates is the reply to the request as the endpoint
receives it, with the prompt as a JSON string: there the text stands in its
JSON form, in which every byte at which no valid UTF-8 encoding starts, such
as the bytes of a character that the cut has split, is U+FFFD.  The JSON form
is the text itself when the text is valid UTF-8; it has at most 8000
characters, and at least as many bytes as the text. -/
theorem truncation_at_8000_bytes (env : Env) (config : Config) (htmlContent url : GoString)
    (w : World) :
    ((extractTextFromHTML htmlContent).length ≤ 8000 →
      submittedText htmlContent = extractTextFromHTML htmlContent) ∧
    ((extractTextFromHTML htmlContent).length > 8000 →
      submittedText htmlContent = (extractTextFromHTML htmlContent).take 8000 ∧
      (submittedText htmlContent).length = 8000) ∧
    (submittedText htmlContent).length ≤ 8000 ∧
    runeCount (submittedText htmlContent) ≤ 8000 ∧
    submittedText htmlContent <+: extractTextFromHTML htmlContent ∧
    (SummarizeWithAI env config htmlContent url w).2.out =
      w.out ++ [.chat (summaryRequest config htmlContent url)] ∧
    (summaryRequest config htmlContent url).prompt =
      (if config.SummaryPrompt = [] then defaultPrompt else config.SummaryPrompt) ++
      lit "\n\nWebsite URL: " ++ url ++ lit "\n\nContent:\n" ++ submittedText htmlContent ++
      lit "\n\nFormat your response in clean markdown with headings, bullet points, and clear structure." ∧
    (SummarizeWithAI env config htmlContent url w).1 =
      chatResult (env.chat w (wireRequest (summaryRequest config htmlContent url))) ∧
    (wireRequest (summaryRequest config htmlContent url)).prompt =
      jsonString (if config.SummaryPrompt = [] then defaultPrompt else config.SummaryPrompt) ++
      lit "\n\nWebsite URL: " ++ jsonString url ++ lit "\n\nContent:\n" ++
      jsonString (submittedText htmlContent) ++
      lit "\n\nFormat your response in clean markdown with headings, bullet points, and clear structure." ∧
    (validUTF8 (submittedText htmlContent) = true →
      jsonString (submittedText htmlContent) = submittedText htmlContent) ∧
    runeCount (jsonString (submittedText htmlContent)) ≤ 8000 ∧
    (submittedText htmlContent).length ≤ (jsonString (submittedText htmlContent)).length := by
  have hlen : (submittedText htmlContent).length ≤ 8000 := by
    unfold submittedText
    dsimp only
    split
    · simp
    · omega
  have hb := jsonStringFrom_bounds 0 (submittedText htmlContent)
  refine ⟨?_, ?_, hlen, le_trans (runeCount_le_length _) hlen, ?_, ?_, rfl, rfl,
    summaryPrompt_json config htmlContent url,
    fun hv => jsonStringFrom_valid 0 _ hv, le_trans hb.1 hlen, hb.2.1⟩
  · intro h
    unfold submittedText
    dsimp only
    rw [if_neg (by omega)]
  · intro h
    unfold submittedText
    dsimp only
    rw [if_pos h]
    exact ⟨rfl, by simp; omega⟩
  · unfold submittedText
    dsimp only
    split
    · exact List.take_prefix _ _
    · exact List.prefix_refl _
  · unfold SummarizeWithAI
    rw [postChat_snd]
    rfl

set_option maxRecDepth 1000000 in
/-- Witness of C9 as amended: a short page is submitted whole and arrives as it
is, and the page of 8002 bytes is cut to 8000 bytes. -/
theorem truncation_at_8000_bytes_witness :
    (extractTextFromHTML (lit "<p>news of the day</p>")).length ≤ 8000 ∧
    submittedText (lit "<p>news of the day</p>") = extractTextFromHTML (lit "<p>news of the day</p>") ∧
    (extractTextFromHTML (umlauts 4001)).length > 8000 ∧
    (submittedText (umlauts 4001)).length = 8000 ∧
    validUTF8 (submittedText (lit "<p>news of the day</p>")) = true ∧
    jsonString (submittedText (lit "<p>news of the day</p>")) =
      submittedText (lit "<p>news of the day</p>") :=
  have h1 : (extractTextFromHTML (lit "<p>news of the day</p>")).length ≤ 8000 := by decide
  have h2 : (extractTextFromHTML (umlauts 4001)).length > 8000 := by
    rw [umlauts_extract 4001 (by decide), umlauts_length]
    decide
  have h3 : validUTF8 (submittedText (lit "<p>news of the day</p>")) = true := by decide
  ⟨h1,
   (truncation_at_8000_bytes focusEnv threeSources (lit "<p>news of the day</p>") (lit "a")
      emptyWorld).1 h1,
   h2,
   ((truncation_at_8000_bytes focusEnv threeSources (umlauts 4001) (lit "a") emptyWorld).2.1 h2).2,
   h3,
   (truncation_at_8000_bytes focusEnv threeSources (lit "<p>news of the day</p>") (lit "a")
      emptyWorld).2.2.2.2.2.2.2.2.2.1 h3⟩

theorem splitPage_trimSpace (n : Nat) : trimSpace (97 :: umlauts (n + 1)) = 97 :: umlauts (n + 1) := by
  have hl : leadingSpace spaceEncodings (97 :: umlauts (n + 1)) = none := by
    simp [leadingSpace, spaceEncodings, hasPrefix]
  have hr : leadingSpace (spaceEncodings.map List.reverse) (97 :: umlauts (n + 1)).reverse = none := by
    rw [umlauts_succ_end]
    simp [leadingSpace, spaceEncodings, hasPrefix]
  unfold trimSpace
  simp only [trimLeftFuel_of_none _ _ _ hl, trimLeftFuel_of_none _ _ _ hr, List.reverse_reverse]

/-- A cut inside a character.  The page of the letter `a` and 4000 copies of
`ä` is extracted unchanged, 8001 bytes; the prompt holds its first 8000 bytes,
which end with the first byte of the last `ä`; the endpoint receives `a`, 3999
copies of `ä` and U+FFFD, which are 8002 bytes, 4001 characters, and no prefix
of the extracted text. -/
theorem truncation_splits_character :
    extractTextFromHTML splitPage = splitPage ∧ splitPage.length = 8001 ∧
    submittedText splitPage = 97 :: umlauts 3999 ++ [195] ∧
    validUTF8 splitPage = true ∧
    jsonString (submittedText splitPage) = 97 :: umlauts 3999 ++ [239, 191, 189] ∧
    (jsonString (submittedText splitPage)).length = 8002 ∧
    runeCount (jsonString (submittedText splitPage)) = 4001 ∧
    ¬ jsonString (submittedText splitPage) <+: extractTextFromHTML splitPage := by
  have he : extractTextFromHTML splitPage = splitPage := by
    unfold splitPage
    apply extractTextFromHTML_plain
    · intro hm
      rcases List.mem_cons.1 hm with e | e
      · simp at e
      · rcases umlauts_mem _ _ e with e | e <;> simp at e
    · intro hm
      rcases List.mem_cons.1 hm with e | e
      · simp at e
      · rcases umlauts_mem _ _ e with e | e <;> simp at e
    · simp only [List.length_cons, umlauts_length]
      omega
    · exact splitPage_trimSpace 3999
  have hl : splitPage.length = 8001 := by
    unfold splitPage
    simp only [List.length_cons, umlauts_length]
  have hs : submittedText splitPage = 97 :: umlauts 3999 ++ [195] := by
    unfold submittedText
    simp only [he, hl]
    rw [if_pos (by decide)]
    unfold splitPage
    have e : umlauts 4000 = umlauts 3999 ++ [195, 164] := umlauts_succ_end 3999
    rw [e]
    have e2 : (8000 : Nat) = 7999 + 1 := rfl
    rw [e2, List.take_succ_cons, List.take_append_eq_append_take, umlauts_length]
    simp [List.take_of_length_le, umlauts_length]
  have hj : jsonString (submittedText splitPage) = 97 :: umlauts 3999 ++ [239, 191, 189] := by
    rw [hs]
    have a : ∀ x ∈ [97], x < 128 := by decide
    have := jsonString_ascii_append [97] (umlauts 3999 ++ [195]) a
    simp only [List.singleton_append] at this
    rw [List.cons_append, this]
    unfold jsonString
    rw [jsonStringFrom_umlauts]
    rfl
  have hv : validUTF8 splitPage = true := by
    have key : ∀ n, validUTF8From 0 (umlauts n) = true := by
      intro n
      induction n with
      | zero => rfl
      | succ n ih =>
        rw [umlauts_succ]
        have hd : decodeRuneSize (195 :: 164 :: umlauts n) = some 2 := by
          rw [decodeRuneSize_cons]
          simp [byteIn]
        have e1 : validUTF8From 0 (195 :: 164 :: umlauts n) = validUTF8From 1 (164 :: umlauts n) := by
          rw [validUTF8From_zero_cons, hd]
        rw [e1]
        exact ih
    unfold validUTF8 splitPage
    rw [validUTF8From_zero_cons, decodeRuneSize_cons, if_pos (by decide)]
    exact key 4000
  refine ⟨he, hl, hs, hv, hj, ?_, ?_, ?_⟩
  · rw [hj]
    simp only [List.length_cons, List.length_append, umlauts_length, List.length_nil]
  · rw [hj]
    have : runeCount (97 :: umlauts 3999 ++ [239, 191, 189]) =
        1 + runeCount (umlauts 3999) + 1 := by
      simp only [runeCount]
      simp [List.filter_cons, List.filter_append]
      omega
    rw [this, umlauts_runeCount]
  · rw [hj, he]
    intro hp
    have := hp.length_le
    simp only [List.length_cons, List.length_append, umlauts_length] at this
    unfold splitPage at this
    simp only [List.length_cons, umlauts_length] at this
    omega

/-! ## Single-instance execution -/

set_option maxRecDepth 1000000 in
/-- C10 at its failing input: from the empty world, start, clear all data,
start.  The first start spawns the child 100 and writes the PID file; the
clearing removes the PID file while the child lives; the second start finds
no PID file and spawns the child 101.  Two daemon children are then alive that
were never sent SIGTERM.  Without the clearing the second start is refused. -/
theorem clear_data_allows_second_daemon :
    (StartDaemon focusEnv emptyWorld).1 = .ok () ∧
    getFile (performAll focusEnv twoSources emptyWorld [.startBackground]).files pidPath =
      some ⟨lit "100", 0⟩ ∧
    getFile (performAll focusEnv twoSources emptyWorld [.startBackground, .clearAllData]).files
      pidPath = none ∧
    (StartDaemon focusEnv
      (performAll focusEnv twoSources emptyWorld [.startBackground, .clearAllData])).1 = .ok () ∧
    liveDaemons (performAll focusEnv twoSources emptyWorld
      [.startBackground, .clearAllData, .startBackground]) =
      [⟨100, true, false, true⟩, ⟨101, true, false, true⟩] ∧
    (StartDaemon focusEnv (performAll focusEnv twoSources emptyWorld [.startBackground])).1 =
      .error (.alreadyRunning 100) ∧
    liveDaemons (performAll focusEnv twoSources emptyWorld [.startBackground, .startBackground]) =
      [⟨100, true, false, true⟩] := by
  refine ⟨?_, ?_, ?_, ?_, ?_, ?_, ?_⟩ <;> rfl

/-! ## The end-of-run aggregation -/

set_option maxRecDepth 1000000 in
/-- C3 refuted as stated.  In the on-demand run, when the summary of the first
of two sources is empty, both summary documents are written, yet the focus
request at the end of the run is made over the second summary alone, not over
the two bodies joined by the separator.  In the daemon's run of the second
end-to-end scenario no focus request over joined summaries is sent and no
combined focus document is written. -/
theorem aggregation_skips_empty_summaries :
    (writesIn .summaries (runOnce blankFirstEnv twoSources emptyWorld).2.out).map Prod.fst =
      [summaryFile (lit "https://a.example"), summaryFile (lit "https://b.example")] ∧
    (attemptAll blankFirstEnv twoSources twoSources.Sources emptyWorld).1 =
      [.ok [], .ok (lit "Summary")] ∧
    prompts (runOnce blankFirstEnv twoSources emptyWorld).2.out =
      [summaryPrompt twoSources (lit "<p>news of the day</p>") (lit "https://a.example"),
       summaryPrompt twoSources (lit "<p>news of the day</p>") (lit "https://b.example"),
       focusPrompt twoSources (lit "Summary")] ∧
    focusPrompt twoSources (lit "Summary") ≠
      focusPrompt twoSources (join summarySeparator [[], lit "Summary"]) ∧
    prompts (runOnceLogged focusEnv twoSources emptyWorld).2.out =
      [summaryPrompt twoSources (lit "<p>news of the day</p>") (lit "https://a.example"),
       focusPrompt twoSources (lit "Summary"),
       summaryPrompt twoSources (lit "<p>news of the day</p>") (lit "https://b.example"),
       focusPrompt twoSources (lit "Summary")] ∧
    getFile (runOnceLogged focusEnv twoSources emptyWorld).2.files combinedPath = none := by
  refine ⟨?_, ?_, ?_, ?_, ?_, ?_⟩ <;> first | rfl | decide

theorem runOnceLoop_eq_attemptAll (env : Env) (config : Config) (sources : List GoString) :
    ∀ (acc : List GoString) (w : World),
      runOnceLoop env config sources acc w =
        (acc ++ collected config (attemptAll env config sources w).1,
         (attemptAll env config sources w).2) := by
  induction sources with
  | nil =>
    intro acc w
    simp [runOnceLoop, attemptAll, collected]
  | cons s rest ih =>
    intro acc w
    unfold runOnceLoop attemptAll
    rcases processSource env config s w with ⟨r, w1⟩
    cases r with
    | error e =>
      dsimp only
      rw [ih]
      simp [collected]
    | ok summary =>
      dsimp only
      by_cases h : config.FocusTopics ≠ [] ∧ summary ≠ []
      · rw [if_pos h, ih]
        simp [collected, h]
      · rw [if_neg h, ih]
        simp only [collected, if_neg h]

theorem attemptAll_attempts (env : Env) (config : Config) (sources : List GoString) (w : World) :
    ∃ Δ, (attemptAll env config sources w).2.out = w.out ++ Δ ∧ attempts Δ = sources := by
  obtain ⟨Δ, h1, h2, -, -⟩ := runOnceLoop_spec env config sources [] w
  rw [runOnceLoop_eq_attemptAll] at h1
  exact ⟨Δ, h1, h2⟩

/-- The aggregation step with focus topics set and summaries collected: one
focus request over the summaries joined by the separator, and the combined
document written from a usable result when the store does not fail. -/
theorem combineFocus_request (env : Env) (config : Config) (all : List GoString) (v : World)
    (ht : config.FocusTopics ≠ []) (ha : all ≠ []) :
    prompts (combineFocus env config all v).out =
      prompts v.out ++ [focusPrompt config (join summarySeparator all)] ∧
    (∀ focused v1, ExtractFocusedContent env config (join summarySeparator all) v = (.ok focused, v1) →
      focused ≠ [] → focused ≠ noRelevantContent →
      (StoreCombinedFocusedContent env focused v1).1 = .ok () →
      getFile (combineFocus env config all v).files combinedPath =
        some ⟨combinedDocument env v1 focused, v1.now⟩) := by
  have hc : config.FocusTopics ≠ [] ∧ all.length > 0 := by
    refine ⟨ht, ?_⟩
    cases all with
    | nil => exact absurd rfl ha
    | cons a r => simp
  have hE : ExtractFocusedContent env config (join summarySeparator all) v =
      postChat env config (focusPrompt config (join summarySeparator all)) v := by
    simp [ExtractFocusedContent, ht]
  have hw := postChat_snd env config (focusPrompt config (join summarySeparator all)) v
  unfold combineFocus
  rw [if_pos hc, hE]
  rcases hp : postChat env config (focusPrompt config (join summarySeparator all)) v with ⟨r, v1⟩
  rw [hp] at hw
  simp only at hw
  have hout : prompts v1.out = prompts v.out ++ [focusPrompt config (join summarySeparator all)] := by
    rw [hw]
    simp [prompts, Event.prompt?]
  cases r with
  | error e =>
    refine ⟨?_, ?_⟩
    · simp only [World.log, prompts] at hout ⊢
      simp [hout, Event.prompt?]
    · intro focused v1' h
      simp at h
  | ok focused =>
    dsimp only
    by_cases hu : focused ≠ [] ∧ focused ≠ noRelevantContent
    · rw [if_pos hu]
      rcases StoreCombinedFocusedContent_spec env focused v1 with ⟨e, h⟩ | h
      · rw [h]
        refine ⟨?_, ?_⟩
        · simp only [World.log, prompts] at hout ⊢
          simp [hout, Event.prompt?]
        · intro focused' v1' h' _ _ hs
          simp only [Prod.mk.injEq, Except.ok.injEq] at h'
          obtain ⟨rfl, rfl⟩ := h'
          rw [h] at hs
          simp at hs
      · rw [h]
        refine ⟨?_, ?_⟩
        · simp only [prompts] at hout ⊢
          simp [hout, Event.prompt?]
        · intro focused' v1' h' _ _ _
          simp only [Prod.mk.injEq, Except.ok.injEq] at h'
          obtain ⟨rfl, rfl⟩ := h'
          exact getFile_putFile_same _ _ _
    · rw [if_neg hu]
      refine ⟨hout, ?_⟩
      intro focused' v1' h' h1 h2 _
      simp only [Prod.mk.injEq, Except.ok.injEq] at h'
      obtain ⟨rfl, rfl⟩ := h'
      exact absurd ⟨h1, h2⟩ hu

/-- C3 as amended, for the on-demand run.  For every valid configuration
`runOnce` attempts every configured source, in order, and only then runs the
aggregation, over the summaries of the successful attempts that are not empty,
in the order of the sources.  With focus topics set and at least one such
summary, exactly one focus request is sent, over these summaries joined by
the separator; a result that is neither empty nor the sentinel becomes the
combined focus document, replacing whatever was there, when the store does
not fail.  Without focus topics, or without a non-empty summary, the
aggregation does nothing. -/
theorem aggregation_in_runOnce (env : Env) (config : Config) (w : World)
    (hv : validateConfig config = none) :
    runOnce env config w =
      (.ok (), combineFocus env config
        (collected config (attemptAll env config config.Sources w).1)
        (attemptAll env config config.Sources w).2) ∧
    (∃ Δ, (attemptAll env config config.Sources w).2.out = w.out ++ Δ ∧
      attempts Δ = config.Sources) ∧
    (∀ all v, config.FocusTopics ≠ [] → all ≠ [] →
      prompts (combineFocus env config all v).out =
        prompts v.out ++ [focusPrompt config (join summarySeparator all)] ∧
      (∀ focused v1,
        ExtractFocusedContent env config (join summarySeparator all) v = (.ok focused, v1) →
        focused ≠ [] → focused ≠ noRelevantContent →
        (StoreCombinedFocusedContent env focused v1).1 = .ok () →
        getFile (combineFocus env config all v).files combinedPath =
          some ⟨combinedDocument env v1 focused, v1.now⟩)) ∧
    (∀ all v, config.FocusTopics = [] ∨ all = [] → combineFocus env config all v = v) := by
  refine ⟨?_, attemptAll_attempts env config config.Sources w, ?_, ?_⟩
  · unfold runOnce
    rw [hv]
    dsimp only
    rw [runOnceLoop_eq_attemptAll]
    simp
  · intro all v ht ha
    exact combineFocus_request env config all v ht ha
  · intro all v h
    unfold combineFocus
    rw [if_neg]
    rintro ⟨h1, h2⟩
    rcases h with h | h
    · exact h1 h
    · rw [h] at h2
      simp at h2

/-- Witness of C3 as amended: the run in which the first summary is empty. -/
theorem aggregation_in_runOnce_witness :
    validateConfig twoSources = none ∧
    runOnce blankFirstEnv twoSources emptyWorld =
      (.ok (), combineFocus blankFirstEnv twoSources
        (collected twoSources (attemptAll blankFirstEnv twoSources twoSources.Sources emptyWorld).1)
        (attemptAll blankFirstEnv twoSources twoSources.Sources emptyWorld).2) ∧
    twoSources.FocusTopics ≠ [] ∧
    prompts (combineFocus blankFirstEnv twoSources [lit "Summary"] emptyWorld).out =
      prompts emptyWorld.out ++ [focusPrompt twoSources (join summarySeparator [lit "Summary"])] :=
  ⟨by decide,
   (aggregation_in_runOnce blankFirstEnv twoSources emptyWorld (by decide)).1,
   by decide,
   ((aggregation_in_runOnce blankFirstEnv twoSources emptyWorld (by decide)).2.2.1
      [lit "Summary"] emptyWorld (by decide) (by decide)).1⟩

/-! ## The PID file and the process table -/

theorem decimalValue_append (l : List Nat) (d : Nat) :
    decimalValue (l ++ [d]) = 10 * decimalValue l + (d - 48) := by
  simp [decimalValue, List.foldl_append]

theorem decimalDigits_value (f n : Nat) (h : n < f) : decimalValue (decimalDigits f n) = n := by
  induction f generalizing n with
  | zero => omega
  | succ f ih =>
    unfold decimalDigits
    by_cases hn : n < 10
    · rw [if_pos hn]
      simp [decimalValue]
    · rw [if_neg hn, decimalValue_append, ih (n / 10) (by omega)]
      omega

theorem decimalDigits_range (f n : Nat) : ∀ d ∈ decimalDigits f n, 48 ≤ d ∧ d ≤ 57 := by
  induction f generalizing n with
  | zero => simp [decimalDigits]
  | succ f ih =>
    intro d hd
    unfold decimalDigits at hd
    by_cases hn : n < 10
    · rw [if_pos hn] at hd
      simp only [List.mem_singleton] at hd
      omega
    · rw [if_neg hn] at hd
      simp only [List.mem_append, List.mem_singleton] at hd
      rcases hd with hd | hd
      · exact ih _ d hd
      · omega

theorem decimalDigits_ne_nil (f n : Nat) : decimalDigits (f + 1) n ≠ [] := by
  unfold decimalDigits
  split <;> simp

theorem leadingSpace_digit (d : Nat) (t : GoString) (h1 : 48 ≤ d) (h2 : d ≤ 57) :
    leadingSpace spaceEncodings (d :: t) = none := by
  interval_cases d <;> simp [leadingSpace, spaceEncodings, hasPrefix]

theorem takeWhile_all {α : Type} (p : α → Bool) (l : List α) (h : ∀ x ∈ l, p x = true) :
    l.takeWhile p = l := by
  induction l with
  | nil => rfl
  | cons a r ih =>
    rw [List.takeWhile_cons, h a (by simp), if_pos rfl, ih (fun x hx => h x (by simp [hx]))]

/-- Scanning a string of decimal digits whose value is within the range of 64
bits gives the value. -/
theorem scanInt_digits (d : Nat) (t : GoString) (hall : ∀ x ∈ d :: t, 48 ≤ x ∧ x ≤ 57)
    (h : decimalValue (d :: t) < 9223372036854775808) :
    scanInt (d :: t) = (decimalValue (d :: t) : Int) := by
  have hd : 48 ≤ d ∧ d ≤ 57 := hall d (by simp)
  have hskip : skipSpaceFuel (d :: t).length (d :: t) = some (d :: t) := by
    simp only [List.length_cons]
    unfold skipSpaceFuel
    have : ¬ (hasPrefix (d :: t) [10] = true ∧ d :: t ≠ []) := by
      simp [hasPrefix]
      omega
    rw [if_neg this, leadingSpace_digit d t hd.1 hd.2]
  have htake : (d :: t).takeWhile (fun b => 48 ≤ b && b ≤ 57) = d :: t := by
    apply takeWhile_all
    intro x hx
    have := hall x hx
    simp [this.1, this.2]
  have h45 : hasPrefix (d :: t) [45] = false := by
    simp [hasPrefix]
    omega
  have h43 : hasPrefix (d :: t) [43] = false := by
    simp [hasPrefix]
    omega
  unfold scanInt
  rw [hskip]
  simp only [h45, h43, Bool.false_and, Bool.or_self, Bool.false_eq_true, ↓reduceIte, htake]
  rw [if_neg (by simp), if_pos h]

/-- Scanning the PID file that `StartDaemon` writes gives back the process
id. -/
theorem scanInt_formatPid (pid : Nat) (h : pid < 9223372036854775808) :
    scanInt (formatPid pid) = (pid : Int) := by
  have hr := decimalDigits_range (pid + 1) pid
  have hv : decimalValue (formatPid pid) = pid := decimalDigits_value (pid + 1) pid (by omega)
  have hne : formatPid pid ≠ [] := decimalDigits_ne_nil pid pid
  cases hf : formatPid pid with
  | nil => exact absurd hf hne
  | cons d t =>
    rw [hf] at hv
    have hall : ∀ x ∈ d :: t, 48 ≤ x ∧ x ≤ 57 := by
      intro x hx
      apply hr
      unfold formatPid at hf
      rw [hf]
      exact hx
    rw [scanInt_digits d t hall (by rw [hv]; exact h), hv]

theorem pidT_of_lt (p : Int) (h0 : 0 < p) (h1 : p < 2147483648) : pidT p = p := by
  unfold pidT
  omega

/-- A process id within the positive range of `pid_t` is probed by the look-up
of this process id in the process table. -/
theorem reached_of_lt (env : Env) (w : World) (p : Int) (h0 : 0 < p) (h1 : p < 2147483648) :
    reached env w p = (if processAlive w p.toNat then [p.toNat] else []) ∧
    probe env w p = processAlive w p.toNat := by
  have hr : reached env w p = (if processAlive w p.toNat then [p.toNat] else []) := by
    unfold reached
    rw [pidT_of_lt p h0 h1, if_pos h0]
  refine ⟨hr, ?_⟩
  unfold probe
  rw [hr]
  cases processAlive w p.toNat <;> rfl

theorem Untouched.refl (w : World) : Untouched w w := ⟨rfl, rfl⟩

theorem Untouched.trans {a b c : World} (h1 : Untouched a b) (h2 : Untouched b c) :
    Untouched a c := ⟨h2.1.trans h1.1, h2.2.trans h1.2⟩

theorem untouched_log (w : World) (e : Event) : Untouched w (w.log e) := ⟨rfl, rfl⟩

theorem untouched_writeFile (env : Env) (p : Path) (c : GoString) (w : World) (hp : p ≠ pidPath) :
    Untouched w (writeFile env p c w).2 := by
  rcases writeFile_spec env p c w with ⟨e, h⟩ | h
  · rw [h]; exact Untouched.refl w
  · rw [h]
    exact ⟨rfl, getFile_putFile_other _ _ _ _ (Ne.symm hp)⟩

theorem untouched_put (w w' : World) (p : Path) (f : File) (hp : p.dir ≠ .data)
    (h1 : w'.procs = w.procs) (h2 : w'.files = putFile w.files p f) : Untouched w w' := by
  refine ⟨h1, ?_⟩
  rw [h2]
  apply getFile_putFile_other
  intro e
  rw [← e] at hp
  exact hp rfl

theorem untouched_CacheContent (env : Env) (url c : GoString) (w : World) :
    Untouched w (CacheContent env url c w).2 := by
  rcases CacheContent_spec env url c w with ⟨e, h⟩ | h
  · rw [h]; exact Untouched.refl w
  · rw [h]
    exact untouched_put _ _ (cacheFile url) _ (by simp [cacheFile]) rfl rfl

theorem untouched_StoreSummarization (env : Env) (url c : GoString) (w : World) :
    Untouched w (StoreSummarization env url c w).2 := by
  rcases StoreSummarization_spec env url c w with ⟨e, h⟩ | h
  · rw [h]; exact Untouched.refl w
  · rw [h]
    exact untouched_put _ _ (summaryFile url) _ (by simp [summaryFile]) rfl rfl

theorem untouched_StoreFocusedContent (env : Env) (url c : GoString) (w : World) :
    Untouched w (StoreFocusedContent env url c w).2 := by
  rcases StoreFocusedContent_spec env url c w with ⟨e, h⟩ | h
  · rw [h]; exact Untouched.refl w
  · rw [h]
    exact untouched_put _ _ (focusFile url) _ (by simp [focusFile]) rfl rfl

theorem untouched_StoreCombined (env : Env) (c : GoString) (w : World) :
    Untouched w (StoreCombinedFocusedContent env c w).2 := by
  rcases StoreCombinedFocusedContent_spec env c w with ⟨e, h⟩ | h
  · rw [h]; exact Untouched.refl w
  · rw [h]
    exact untouched_put _ _ combinedPath _ (by simp [combinedPath]) rfl rfl

theorem untouched_postChat (env : Env) (config : Config) (p : GoString) (w : World) :
    Untouched w (postChat env config p w).2 := by
  rw [postChat_snd]
  exact ⟨rfl, rfl⟩

theorem untouched_Extract (env : Env) (config : Config) (t : GoString) (w : World) :
    Untouched w (ExtractFocusedContent env config t w).2 := by
  unfold ExtractFocusedContent
  split
  · exact Untouched.refl w
  · exact untouched_postChat env config _ w

theorem untouched_loadContent (env : Env) (source : GoString) (w : World) :
    Untouched w (loadContent env source w).2 := by
  unfold loadContent
  rcases IsCached env w source with e | b
  · exact Untouched.refl w
  · cases b
    · dsimp only
      have hc : Untouched w (CrawlWebsite env source w).2 := ⟨rfl, rfl⟩
      rcases hf : CrawlWebsite env source w with ⟨r, wf⟩
      rw [hf] at hc
      cases r with
      | error e => exact hc
      | ok c =>
        dsimp only
        have hw := untouched_CacheContent env source c wf
        rcases hcc : CacheContent env source c wf with ⟨r2, w2⟩
        rw [hcc] at hw
        cases r2 <;> exact hc.trans hw
    · exact Untouched.refl w

theorem untouched_processSource (env : Env) (config : Config) (source : GoString) (w : World) :
    Untouched w (processSource env config source w).2 := by
  unfold processSource
  have hl := (untouched_log w (.processing source)).trans
    (untouched_loadContent env source (w.log (.processing source)))
  rcases hx : loadContent env source (w.log (.processing source)) with ⟨r, w1⟩
  rw [hx] at hl
  cases r with
  | error e => exact hl
  | ok content =>
    dsimp only
    have hs := untouched_postChat env config (summaryPrompt config content source) w1
    unfold SummarizeWithAI
    rcases hy : postChat env config (summaryPrompt config content source) w1 with ⟨r2, w2⟩
    rw [hy] at hs
    cases r2 with
    | error e => exact hl.trans hs
    | ok summary =>
      dsimp only
      have hst := untouched_StoreSummarization env source summary w2
      rcases hz : StoreSummarization env source summary w2 with ⟨r3, w3⟩
      rw [hz] at hst
      cases r3 with
      | error e => exact (hl.trans hs).trans hst
      | ok u => exact ((hl.trans hs).trans hst).trans (untouched_log _ _)

theorem untouched_runOnceLoop (env : Env) (config : Config) (sources : List GoString) :
    ∀ (acc : List GoString) (w : World), Untouched w (runOnceLoop env config sources acc w).2 := by
  induction sources with
  | nil => intro acc w; exact Untouched.refl w
  | cons s rest ih =>
    intro acc w
    unfold runOnceLoop
    have hp := untouched_processSource env config s w
    rcases hx : processSource env config s w with ⟨r, w1⟩
    rw [hx] at hp
    cases r with
    | error e => exact (hp.trans (untouched_log _ _)).trans (ih _ _)
    | ok summary =>
      dsimp only
      split
      · exact hp.trans (ih _ _)
      · exact hp.trans (ih _ _)

theorem untouched_combineFocus (env : Env) (config : Config) (all : List GoString) (w : World) :
    Untouched w (combineFocus env config all w) := by
  unfold combineFocus
  split
  · have he := untouched_Extract env config (join summarySeparator all) w
    rcases hx : ExtractFocusedContent env config (join summarySeparator all) w with ⟨r, w1⟩
    rw [hx] at he
    cases r with
    | error e => exact he.trans (untouched_log _ _)
    | ok focused =>
      dsimp only
      split
      · have hs := untouched_StoreCombined env focused w1
        rcases hy : StoreCombinedFocusedContent env focused w1 with ⟨r2, w2⟩
        rw [hy] at hs
        cases r2 with
        | error e => exact (he.trans hs).trans (untouched_log _ _)
        | ok u => exact he.trans hs
      · exact he
  · exact Untouched.refl w

theorem untouched_runOnce (env : Env) (config : Config) (w : World) :
    Untouched w (runOnce env config w).2 := by
  unfold runOnce
  cases validateConfig config with
  | some e => exact Untouched.refl w
  | none =>
    dsimp only
    have hl := untouched_runOnceLoop env config config.Sources [] w
    rcases hx : runOnceLoop env config config.Sources [] w with ⟨all, w1⟩
    rw [hx] at hl
    exact hl.trans (untouched_combineFocus env config all w1)

theorem untouched_ClearCache (env : Env) (w : World) : Untouched w (ClearCache env w).2 := by
  unfold ClearCache
  split
  · exact Untouched.refl w
  · split
    · exact Untouched.refl w
    · dsimp only
      have : Untouched w { w with files := w.files.filter (fun pf => pf.1.dir != .cache) } := by
        refine ⟨rfl, ?_⟩
        simp only
        rw [getFile_filter_dir]
        simp [pidPath]
      split <;> exact this

theorem pidRecorded_of_untouched {w w' : World} (h : Untouched w w') (hi : PidRecorded w) :
    PidRecorded w' := by
  unfold PidRecorded liveDaemons at *
  rw [h.1, h.2]
  exact hi

theorem mem_liveDaemons {w : World} {p : Proc} :
    p ∈ liveDaemons w ↔ p ∈ w.procs ∧ p.daemon = true ∧ p.alive = true ∧ p.termSent = false := by
  simp [liveDaemons, and_assoc]

theorem processAlive_of_live {w : World} {p : Proc} (h : p ∈ liveDaemons w) :
    processAlive w p.pid = true := by
  obtain ⟨h1, -, h3, -⟩ := mem_liveDaemons.1 h
  simp only [processAlive, List.any_eq_true]
  exact ⟨p, h1, by simp [h3]⟩

/-- What the liveness check finds in a world that keeps the invariant: it
never changes the process table; when it reports running it changes nothing
and the process id it returns is that of every live daemon child; when it
reports not running although the home directory is known, no daemon child is
alive without a termination signal; when the home directory is unknown it
changes nothing. -/
theorem IsDaemonRunning_spec (env : Env) (w : World) (hr : Reliable env) (hi : PidRecorded w) :
    (IsDaemonRunning env w).2.procs = w.procs ∧
    ((IsDaemonRunning env w).1.1 = true →
      (IsDaemonRunning env w).2 = w ∧ 0 < (IsDaemonRunning env w).1.2 ∧
      probe env w (IsDaemonRunning env w).1.2 = true ∧
      ∀ p ∈ liveDaemons w, (p.pid : Int) = (IsDaemonRunning env w).1.2) ∧
    ((IsDaemonRunning env w).1.1 = false → env.homeErr w = none → liveDaemons w = []) ∧
    ((IsDaemonRunning env w).1.1 = false → env.homeErr w ≠ none → (IsDaemonRunning env w).2 = w) := by
  have hscan : ∀ p ∈ liveDaemons w, ∀ f, getFile w.files pidPath = some f →
      scanInt f.content = (p.pid : Int) ∧ 0 < p.pid ∧ p.pid < 2147483648 := by
    intro p hp f hf
    obtain ⟨⟨g, hg, hc⟩, hpos, hlt⟩ := hi.2 p hp
    rw [hf] at hg
    simp only [Option.some.injEq] at hg
    subst hg
    rw [hc]
    exact ⟨scanInt_formatPid p.pid (by omega), hpos, hlt⟩
  unfold IsDaemonRunning GetDataDir
  cases hh : env.homeErr w with
  | some e => simp
  | none =>
    dsimp only
    unfold readFile
    rw [hr.1 w]
    dsimp only
    cases hg : getFile w.files pidPath with
    | none =>
      dsimp only
      refine ⟨rfl, by simp, ?_, by simp⟩
      intro _ _
      apply List.eq_nil_iff_forall_not_mem.2
      intro p hp
      obtain ⟨⟨g, hg', -⟩, -, -⟩ := hi.2 p hp
      rw [hg] at hg'
      simp at hg'
    | some f =>
      dsimp only
      by_cases hpid : scanInt f.content ≤ 0
      · rw [if_pos hpid]
        refine ⟨rfl, by simp, ?_, by simp⟩
        intro _ _
        apply List.eq_nil_iff_forall_not_mem.2
        intro p hp
        obtain ⟨h1, h2⟩ := hscan p hp f hg
        rw [h1] at hpid
        omega
      · rw [if_neg hpid]
        by_cases hal : probe env w (scanInt f.content) = true
        · rw [if_pos hal]
          refine ⟨rfl, ?_, by simp, by simp⟩
          intro _
          refine ⟨rfl, by simpa using hpid, hal, ?_⟩
          intro p hp
          exact (hscan p hp f hg).1.symm
        · rw [if_neg hal]
          refine ⟨?_, by simp, ?_, by simp⟩
          · unfold removeFile
            split <;> rfl
          · intro _ _
            apply List.eq_nil_iff_forall_not_mem.2
            intro p hp
            obtain ⟨h1, h2, h3⟩ := hscan p hp f hg
            rw [h1, (reached_of_lt env w (p.pid : Int) (by omega) (by omega)).2] at hal
            simp only [Int.toNat_ofNat] at hal
            exact hal (processAlive_of_live hp)

theorem pidRecorded_of_none_live {w w' : World} (hp : w'.procs = w.procs)
    (h : liveDaemons w = []) : PidRecorded w' := by
  have : liveDaemons w' = [] := by
    unfold liveDaemons at h ⊢
    rw [hp]
    exact h
  unfold PidRecorded
  rw [this]
  simp

theorem openLog_procs (env : Env) (w : World) : (openLog env w).2.procs = w.procs := by
  unfold openLog
  split
  · rfl
  · split <;> rfl

/-- A start keeps the invariant, and while a daemon child is alive without a
termination signal it fails and spawns nothing. -/
theorem StartDaemon_keeps (env : Env) (w : World) (hr : Reliable env) (hi : PidRecorded w) :
    PidRecorded (StartDaemon env w).2 ∧
    (liveDaemons w ≠ [] →
      (StartDaemon env w).2.procs = w.procs ∧ ∃ e, (StartDaemon env w).1 = .error e) := by
  obtain ⟨s1, s2, s3, -⟩ := IsDaemonRunning_spec env w hr hi
  unfold StartDaemon GetDataDir
  cases hh : env.homeErr w with
  | some e => exact ⟨hi, fun _ => ⟨rfl, e, rfl⟩⟩
  | none =>
    dsimp only
    rcases hd : IsDaemonRunning env w with ⟨⟨b, pid⟩, w1⟩
    rw [hd] at s1 s2 s3
    simp only at s1 s2 s3
    cases b with
    | true =>
      dsimp only
      obtain ⟨hw, -⟩ := s2 rfl
      subst hw
      exact ⟨hi, fun _ => ⟨rfl, _, rfl⟩⟩
    | false =>
      dsimp only
      have hnone : liveDaemons w = [] := s3 rfl hh
      refine ⟨?_, fun hne => absurd hnone hne⟩
      cases env.mkdirErr w1 .data with
      | some e => exact pidRecorded_of_none_live s1 hnone
      | none =>
        dsimp only
        have hlog := openLog_procs env w1
        rcases ho : openLog env w1 with ⟨r, w2⟩
        rw [ho] at hlog
        simp only at hlog
        have hp2 : w2.procs = w.procs := hlog.trans s1
        cases r with
        | some e => exact pidRecorded_of_none_live hp2 hnone
        | none =>
          dsimp only
          cases env.executableErr w2 with
          | some e => exact pidRecorded_of_none_live hp2 hnone
          | none =>
            dsimp only
            cases hs : env.spawn w2 with
            | error e => exact pidRecorded_of_none_live hp2 hnone
            | ok child =>
              dsimp only
              obtain ⟨c1, c2, -⟩ := hr.2.2 w2 child hs
              unfold writeFile
              rw [hr.2.1]
              dsimp only
              have hlive : liveDaemons
                  { now := w2.now,
                    files := putFile w2.files pidPath ⟨formatPid child, w2.now⟩,
                    procs := w2.procs ++ [⟨child, true, false, true⟩],
                    out := w2.out ++ [.spawned child] ++ [.wrote pidPath (formatPid child)] } =
                  [⟨child, true, false, true⟩] := by
                unfold liveDaemons at hnone ⊢
                simp only [List.filter_append]
                rw [hp2, hnone]
                rfl
              unfold PidRecorded
              rw [hlive]
              refine ⟨by simp, ?_⟩
              intro p hp
              simp only [List.mem_singleton] at hp
              subst hp
              exact ⟨⟨_, getFile_putFile_same _ _ _, rfl⟩, c1, c2⟩

theorem removeFile_procs (env : Env) (p : Path) (w : World) : (removeFile env p w).procs = w.procs := by
  unfold removeFile
  split <;> rfl

/-- A stop keeps the invariant. -/
theorem StopDaemon_keeps (env : Env) (w : World) (hr : Reliable env) (hi : PidRecorded w) :
    PidRecorded (StopDaemon env w).2 := by
  obtain ⟨s1, s2, s3, s4⟩ := IsDaemonRunning_spec env w hr hi
  unfold StopDaemon
  rcases hd : IsDaemonRunning env w with ⟨⟨b, pid⟩, w1⟩
  rw [hd] at s1 s2 s3 s4
  simp only at s1 s2 s3 s4
  cases b with
  | false =>
    dsimp only
    cases hh : env.homeErr w with
    | none => exact pidRecorded_of_none_live s1 (s3 rfl hh)
    | some e =>
      rw [s4 rfl (by simp [hh])]
      exact hi
  | true =>
    dsimp only
    obtain ⟨hw, hpos, hal, hall⟩ := s2 rfl
    subst hw
    rw [if_pos hal]
    have hnone : liveDaemons (sendTerm (reached env w1 pid) pid.toNat w1) = [] := by
      apply List.eq_nil_iff_forall_not_mem.2
      intro q hq
      obtain ⟨q1, q2, q3, q4⟩ := mem_liveDaemons.1 hq
      simp only [sendTerm, List.mem_map] at q1
      obtain ⟨p, hp, hpq⟩ := q1
      by_cases hc : p.pid ∈ reached env w1 pid ∧ p.alive = true
      · rw [if_pos hc] at hpq
        rw [← hpq] at q4
        simp at q4
      · rw [if_neg hc] at hpq
        subst hpq
        have hlive : p ∈ liveDaemons w1 := mem_liveDaemons.2 ⟨hp, q2, q3, q4⟩
        have hpid := hall p hlive
        obtain ⟨-, b1, b2⟩ := hi.2 p hlive
        apply hc
        refine ⟨?_, q3⟩
        rw [← hpid, (reached_of_lt env w1 (p.pid : Int) (by omega) (by omega)).1]
        simp only [Int.toNat_ofNat]
        rw [if_pos (processAlive_of_live hlive)]
        simp
    exact pidRecorded_of_none_live (removeFile_procs env pidPath _) hnone

theorem liveDaemons_processExit (pid : Nat) (w : World) :
    liveDaemons (processExit pid w) = (liveDaemons w).filter (fun p => p.pid != pid) := by
  unfold liveDaemons processExit
  simp only
  induction w.procs with
  | nil => rfl
  | cons p r ih =>
    simp only [List.map_cons, List.filter_cons, ih]
    by_cases hp : p.pid = pid
    · simp [hp]
      split <;> simp [hp]
    · simp [hp]
      split <;> simp [hp]

/-- The exit of a process keeps the invariant. -/
theorem processExit_keeps (pid : Nat) (w : World) (hi : PidRecorded w) :
    PidRecorded (processExit pid w) := by
  unfold PidRecorded
  rw [liveDaemons_processExit]
  refine ⟨le_trans (List.length_filter_le _ _) hi.1, ?_⟩
  intro p hp
  exact hi.2 p (List.mem_of_mem_filter hp)

/-- Every command other than the clearing of all data keeps the invariant. -/
theorem perform_keeps (env : Env) (config : Config) (w : World) (c : Command)
    (hr : Reliable env) (hc : c ≠ .clearAllData) (hi : PidRecorded w) :
    PidRecorded (perform env config w c) := by
  cases c with
  | startBackground => exact (StartDaemon_keeps env w hr hi).1
  | stopBackground => exact StopDaemon_keeps env w hr hi
  | runOnce => exact pidRecorded_of_untouched (untouched_runOnce env config w) hi
  | clearCache => exact pidRecorded_of_untouched (untouched_ClearCache env w) hi
  | clearAllData => exact absurd rfl hc
  | exit pid => exact processExit_keeps pid w hi

theorem performAll_keeps (env : Env) (config : Config) (cs : List Command) :
    ∀ (w : World), Reliable env → Command.clearAllData ∉ cs → PidRecorded w →
      PidRecorded (performAll env config w cs) := by
  induction cs with
  | nil => intro w _ _ hi; exact hi
  | cons c rest ih =>
    intro w hr hc hi
    simp only [List.mem_cons, not_or] at hc
    exact ih (perform env config w c) hr hc.2 (perform_keeps env config w c hr (Ne.symm hc.1) hi)

/-- Single-instance execution without the clearing of all data.  In a
reliable environment, in every world reached from one without live daemon
children by starts, stops, on-demand runs, clearings of the cache and process
exits, at most one daemon child is alive that was never sent a termination
signal, and while there is one a further start fails and spawns nothing. -/
theorem single_instance_without_clear_data (env : Env) (config : Config) (w : World)
    (cs : List Command) (hr : Reliable env) (h0 : liveDaemons w = [])
    (hc : Command.clearAllData ∉ cs) :
    (liveDaemons (performAll env config w cs)).length ≤ 1 ∧
    (liveDaemons (performAll env config w cs) ≠ [] →
      (StartDaemon env (performAll env config w cs)).2.procs = (performAll env config w cs).procs ∧
      ∃ e, (StartDaemon env (performAll env config w cs)).1 = .error e) := by
  have hi : PidRecorded (performAll env config w cs) :=
    performAll_keeps env config cs w hr hc (pidRecorded_of_none_live rfl h0)
  exact ⟨hi.1, (StartDaemon_keeps env _ hr hi).2⟩

theorem le_foldr_max (l : List Nat) (b x : Nat) (h : x ∈ l) : x ≤ l.foldr max b := by
  induction l with
  | nil => simp at h
  | cons a r ih =>
    simp only [List.mem_cons] at h
    simp only [List.foldr_cons]
    rcases h with rfl | h
    · exact le_max_left _ _
    · exact le_trans (ih h) (le_max_right _ _)

/-- The environments of the scenarios are reliable. -/
theorem scenarioEnv_reliable (down : List GoString) (answer : ChatRequest → GoString) :
    Reliable (scenarioEnv down answer) := by
  refine ⟨fun _ => rfl, fun _ => rfl, ?_⟩
  intro w pid h
  simp only [scenarioEnv] at h
  split at h
  · rename_i hlt
    simp only [Except.ok.injEq] at h
    subst h
    refine ⟨by unfold freshPid; omega, hlt, ?_⟩
    simp only [processAlive, Bool.eq_false_iff, ne_eq, List.any_eq_true, not_exists, not_and]
    intro p hp
    have : p.pid ≤ (w.procs.map Proc.pid).foldr max 99 :=
      le_foldr_max _ _ _ (List.mem_map_of_mem _ hp)
    have hne : p.pid ≠ freshPid w := by
      unfold freshPid
      omega
    simp [hne]
  · simp at h

/-- The invariant at work: after a start, a refused start, a stop, a further
start, an on-demand run and a clearing of the cache exactly one daemon child
is alive without a termination signal, the one of the further start. -/
theorem single_instance_example :
    Reliable focusEnv ∧
    (liveDaemons (performAll focusEnv twoSources emptyWorld
      [.startBackground, .startBackground, .stopBackground, .startBackground, .runOnce,
       .clearCache])).length ≤ 1 :=
  ⟨scenarioEnv_reliable _ _,
   (single_instance_without_clear_data focusEnv twoSources emptyWorld
      [.startBackground, .startBackground, .stopBackground, .startBackground, .runOnce,
       .clearCache] (scenarioEnv_reliable _ _) rfl (by decide)).1⟩

/-! ## Configuration errors -/

theorem validateConfig_some_iff (config : Config) :
    (∃ e, validateConfig config = some e) ↔
      (config.Sources = [] ∨ config.LLMAPIKey = [] ∨ config.LLMAPIURL = [] ∨
        config.LLMAPIModel = []) := by
  unfold validateConfig
  by_cases h1 : config.Sources = []
  · simp [h1]
  · have h1' : ¬ config.Sources.length = 0 := by simpa using h1
    by_cases h2 : config.LLMAPIKey = []
    · simp [h1', h2]
    · by_cases h3 : config.LLMAPIURL = []
      · simp [h1', h2, h3]
      · by_cases h4 : config.LLMAPIModel = []
        · simp [h1', h2, h3, h4]
        · simp [h1, h1', h2, h3, h4]

/-- C14 (configuration errors).  `runOnce` and `runOnceLogged` return an error
exactly when the source list is empty or the LLM API key, the LLM API URL or
the LLM API model is the empty string.  In that case the world after the run
is the world before it: nothing is fetched, no request is sent, no file is
written.  For every other configuration both return success, whatever the
environment does to the individual sources. -/
theorem configuration_errors_are_fatal (env : Env) (config : Config) (w : World) :
    ((∃ e, (runOnce env config w).1 = .error e) ↔
      (config.Sources = [] ∨ config.LLMAPIKey = [] ∨ config.LLMAPIURL = [] ∨
        config.LLMAPIModel = [])) ∧
    ((∃ e, (runOnceLogged env config w).1 = .error e) ↔
      (config.Sources = [] ∨ config.LLMAPIKey = [] ∨ config.LLMAPIURL = [] ∨
        config.LLMAPIModel = [])) ∧
    ((config.Sources = [] ∨ config.LLMAPIKey = [] ∨ config.LLMAPIURL = [] ∨
        config.LLMAPIModel = []) →
      (runOnce env config w).2 = w ∧ (runOnceLogged env config w).2 = w) ∧
    (¬ (config.Sources = [] ∨ config.LLMAPIKey = [] ∨ config.LLMAPIURL = [] ∨
        config.LLMAPIModel = []) →
      (runOnce env config w).1 = .ok () ∧ (runOnceLogged env config w).1 = .ok ()) := by
  have hiff := validateConfig_some_iff config
  cases hv : validateConfig config with
  | some e =>
    have hbad := hiff.1 ⟨e, hv⟩
    have h1 : runOnce env config w = (.error e, w) := by
      unfold runOnce
      rw [hv]
    have h2 : runOnceLogged env config w = (.error e, w) := by
      unfold runOnceLogged
      rw [hv]
    rw [h1, h2]
    exact ⟨⟨fun _ => hbad, fun _ => ⟨e, rfl⟩⟩, ⟨fun _ => hbad, fun _ => ⟨e, rfl⟩⟩,
      fun _ => ⟨rfl, rfl⟩, fun h => absurd hbad h⟩
  | none =>
    have hgood : ¬ (config.Sources = [] ∨ config.LLMAPIKey = [] ∨ config.LLMAPIURL = [] ∨
        config.LLMAPIModel = []) := by
      intro h
      obtain ⟨e, he⟩ := hiff.2 h
      rw [hv] at he
      simp at he
    have h1 : (runOnce env config w).1 = .ok () := by
      unfold runOnce
      rw [hv]
    have h2 : (runOnceLogged env config w).1 = .ok () := by
      unfold runOnceLogged
      rw [hv]
    rw [h1, h2]
    exact ⟨⟨fun ⟨e, he⟩ => by simp at he, fun h => absurd h hgood⟩,
      ⟨fun ⟨e, he⟩ => by simp at he, fun h => absurd h hgood⟩,
      fun h => absurd h hgood, fun _ => ⟨rfl, rfl⟩⟩

/-- Witness of C14: the configuration `threeSources` without its API key
fails the run and leaves the world alone, and `threeSources` itself runs. -/
theorem configuration_errors_are_fatal_witness :
    (runOnce focusEnv { threeSources with LLMAPIKey := [] } emptyWorld).2 = emptyWorld ∧
    (runOnceLogged focusEnv { threeSources with LLMAPIKey := [] } emptyWorld).2 = emptyWorld ∧
    (runOnce secondDown threeSources emptyWorld).1 = .ok () :=
  ⟨((configuration_errors_are_fatal focusEnv { threeSources with LLMAPIKey := [] } emptyWorld).2.2.1
      (Or.inr (Or.inl rfl))).1,
   ((configuration_errors_are_fatal focusEnv { threeSources with LLMAPIKey := [] } emptyWorld).2.2.1
      (Or.inr (Or.inl rfl))).2,
   ((configuration_errors_are_fatal secondDown threeSources emptyWorld).2.2.2 (by decide)).1⟩

/-! ## Start and stop of the daemon -/

theorem IsDaemonRunning_procs (env : Env) (w : World) :
    (IsDaemonRunning env w).2.procs = w.procs := by
  unfold IsDaemonRunning
  split
  · rfl
  · split
    · rfl
    · dsimp only
      split
      · rfl
      · split
        · rfl
        · exact removeFile_procs env pidPath w

/-- The liveness check on a PID file from which a positive process id is
scanned whose probe succeeds: running, with this process id, and the world as
it was. -/
theorem IsDaemonRunning_live (env : Env) (w : World) (f : File)
    (hhome : env.homeErr w = none) (hread : env.readErr w pidPath = none)
    (hfile : getFile w.files pidPath = some f) (hpos : 0 < scanInt f.content)
    (hlive : probe env w (scanInt f.content) = true) :
    IsDaemonRunning env w = ((true, scanInt f.content), w) := by
  unfold IsDaemonRunning GetDataDir readFile
  rw [hhome]
  dsimp only
  rw [hread]
  dsimp only
  rw [hfile]
  dsimp only
  rw [if_neg (by omega), if_pos hlive]

theorem StartDaemon_live (env : Env) (w : World) (f : File)
    (hhome : env.homeErr w = none) (hread : env.readErr w pidPath = none)
    (hfile : getFile w.files pidPath = some f) (hpos : 0 < scanInt f.content)
    (hlive : probe env w (scanInt f.content) = true) :
    StartDaemon env w = (.error (.alreadyRunning (scanInt f.content)), w) := by
  unfold StartDaemon
  rw [IsDaemonRunning_live env w f hhome hread hfile hpos hlive]
  unfold GetDataDir
  rw [hhome]

/-- A successful start: the child is added to the process table and the PID
file holds its process id as printed by `%d`. -/
theorem StartDaemon_ok (env : Env) (w w' : World) (h : StartDaemon env w = (.ok (), w')) :
    ∃ pid, w'.procs = w.procs ++ [⟨pid, true, false, true⟩] ∧
      ∃ t, getFile w'.files pidPath = some ⟨formatPid pid, t⟩ := by
  have hp1 := IsDaemonRunning_procs env w
  unfold StartDaemon at h
  split at h
  · simp at h
  · rcases hd : IsDaemonRunning env w with ⟨⟨b, pid0⟩, w1⟩
    rw [hd] at h hp1
    simp only at hp1
    cases b with
    | true => simp at h
    | false =>
      dsimp only at h
      split at h
      · simp at h
      · have hp2 := openLog_procs env w1
        rcases ho : openLog env w1 with ⟨r, w2⟩
        rw [ho] at h hp2
        simp only at hp2
        cases r with
        | some e => simp at h
        | none =>
          dsimp only at h
          split at h
          · simp at h
          · split at h
            · simp at h
            · rename_i child hs
              rcases writeFile_spec env pidPath (formatPid child)
                { w2 with procs := w2.procs ++ [⟨child, true, false, true⟩],
                          out := w2.out ++ [.spawned child] } with ⟨e, hw⟩ | hw
              · rw [hw] at h
                simp at h
              · rw [hw] at h
                simp only [Prod.mk.injEq, true_and] at h
                subst h
                refine ⟨child, ?_, w2.now, ?_⟩
                · simp only
                  rw [hp2, hp1]
                · exact getFile_putFile_same _ _ _

/-- C11 (start when already running).  Whenever the home directory is known,
the PID file can be read, the number that `%d` scans from it is positive and
the probe of this process id with signal 0 succeeds, `StartDaemon` fails with
the already-running error that names this number, and the world is as before:
no child is spawned and the PID file is unchanged.  For a number within the
positive range of `pid_t` the probe succeeds exactly when the process table
has a live process with this id, so this covers every PID file that holds a
positive process id of a live process.  After a successful `StartDaemon` the
process table has the spawned child and the PID file holds exactly its
process id; scanning the file gives the process id back, so in every world
with this PID file in which the child is alive a further `StartDaemon` fails
with the already-running error for this process id and changes nothing. -/
theorem start_when_already_running (env : Env) :
    (∀ (w : World) (f : File), env.homeErr w = none → env.readErr w pidPath = none →
      getFile w.files pidPath = some f → 0 < scanInt f.content →
      probe env w (scanInt f.content) = true →
      StartDaemon env w = (.error (.alreadyRunning (scanInt f.content)), w)) ∧
    (∀ (w : World) (p : Int), 0 < p → p < 2147483648 →
      probe env w p = processAlive w p.toNat) ∧
    (∀ (w : World) (f : File), env.homeErr w = none → env.readErr w pidPath = none →
      getFile w.files pidPath = some f → 0 < scanInt f.content →
      scanInt f.content < 2147483648 → processAlive w (scanInt f.content).toNat = true →
      StartDaemon env w = (.error (.alreadyRunning (scanInt f.content)), w)) ∧
    (∀ (w w' : World), StartDaemon env w = (.ok (), w') →
      ∃ pid, w'.procs = w.procs ++ [⟨pid, true, false, true⟩] ∧
        (∃ t, getFile w'.files pidPath = some ⟨formatPid pid, t⟩) ∧
        (0 < pid → pid < 2147483648 →
          scanInt (formatPid pid) = (pid : Int) ∧
          ∀ (v : World), env.homeErr v = none → env.readErr v pidPath = none →
            getFile v.files pidPath = getFile w'.files pidPath → processAlive v pid = true →
            StartDaemon env v = (.error (.alreadyRunning pid), v))) := by
  have hthird : ∀ (w : World) (f : File), env.homeErr w = none → env.readErr w pidPath = none →
      getFile w.files pidPath = some f → 0 < scanInt f.content →
      scanInt f.content < 2147483648 → processAlive w (scanInt f.content).toNat = true →
      StartDaemon env w = (.error (.alreadyRunning (scanInt f.content)), w) := by
    intro w f h1 h2 h3 h4 h5 h6
    exact StartDaemon_live env w f h1 h2 h3 h4
      (by rw [(reached_of_lt env w _ h4 h5).2]; exact h6)
  refine ⟨fun w f h1 h2 h3 h4 h5 => StartDaemon_live env w f h1 h2 h3 h4 h5,
    fun w p h0 h1 => (reached_of_lt env w p h0 h1).2, hthird, ?_⟩
  intro w w' h
  obtain ⟨pid, hp, t, hf⟩ := StartDaemon_ok env w w' h
  refine ⟨pid, hp, ⟨t, hf⟩, ?_⟩
  intro hpos hlt
  have hscan := scanInt_formatPid pid (by omega)
  refine ⟨hscan, ?_⟩
  intro v hv1 hv2 hv3 hv4
  rw [hf] at hv3
  have := hthird v ⟨formatPid pid, t⟩ hv1 hv2 hv3
    (by simp only; rw [hscan]; omega) (by simp only; rw [hscan]; omega)
    (by simp only; rw [hscan]; simpa using hv4)
  simpa [hscan] using this

set_option maxRecDepth 1000000 in
/-- Witness of C11: a start in the empty world succeeds with the child 100, and
the start that follows is refused.  A start is also refused where the PID
file holds `6520_0` and the process 6520 is alive, naming 6520, and where it
holds `4294973826` and the process 6530 is alive, naming 4294973826. -/
theorem start_when_already_running_witness :
    StartDaemon focusEnv emptyWorld = (.ok (), startedWorld) ∧
    getFile startedWorld.files pidPath = some ⟨lit "100", 0⟩ ∧
    0 < scanInt (lit "100") ∧
    probe focusEnv startedWorld (scanInt (lit "100")) = true ∧
    StartDaemon focusEnv startedWorld = (.error (.alreadyRunning 100), startedWorld) ∧
    scanInt (lit "6520_0") = 6520 ∧
    StartDaemon focusEnv underscoreWorld = (.error (.alreadyRunning 6520), underscoreWorld) ∧
    scanInt (lit "4294973826") = 4294973826 ∧
    StartDaemon focusEnv wrappedWorld = (.error (.alreadyRunning 4294973826), wrappedWorld) :=
  ⟨rfl, rfl, by decide, by decide,
   (start_when_already_running focusEnv).1 startedWorld ⟨lit "100", 0⟩ rfl rfl rfl
     (by decide) (by decide),
   by decide,
   (start_when_already_running focusEnv).1 underscoreWorld ⟨lit "6520_0", 0⟩ rfl rfl rfl
     (by decide) (by decide),
   by decide,
   (start_when_already_running focusEnv).1 wrappedWorld ⟨lit "4294973826", 0⟩ rfl rfl rfl
     (by decide) (by decide)⟩

theorem getFile_filter_path (fs : List (Path × File)) (p q : Path) :
    getFile (fs.filter (fun pf => pf.1 != p)) q = if q = p then none else getFile fs q := by
  induction fs with
  | nil => simp [getFile]
  | cons a r ih =>
    obtain ⟨x, g⟩ := a
    by_cases hx : x = p
    · subst hx
      rw [List.filter_cons_of_neg (by simp), ih]
      by_cases hq : q = x
      · simp [hq]
      · simp [hq, getFile, Ne.symm hq]
    · rw [List.filter_cons_of_pos (by simpa using hx)]
      by_cases hq : q = p
      · subst hq
        simp [getFile, hx, ih]
      · by_cases hxq : x = q
        · simp [getFile, hxq, hq]
        · simp [getFile, hxq, hq, ih]

/-- The removal of a file that does not fail: the file is gone, every other
file is as before, and neither the process table nor the record of actions
changes. -/
theorem removeFile_spec (env : Env) (p : Path) (w : World) :
    (removeFile env p w).procs = w.procs ∧ (removeFile env p w).out = w.out ∧
    (env.removeErr w p = none →
      getFile (removeFile env p w).files p = none ∧
      ∀ q, q ≠ p → getFile (removeFile env p w).files q = getFile w.files q) := by
  unfold removeFile
  cases h : env.removeErr w p with
  | some e => exact ⟨rfl, rfl, fun h' => by simp at h'⟩
  | none =>
    refine ⟨rfl, rfl, fun _ => ⟨?_, ?_⟩⟩
    · simp only
      rw [getFile_filter_path]
      simp
    · intro q hq
      simp only
      rw [getFile_filter_path]
      simp [hq]

/-- C12 (stop when not running).  `StopDaemon` fails with the not-running
error and leaves the world as it was, files, processes and record of actions,
whenever the path of the PID file cannot be resolved, the file cannot be
read, the file is absent, or the number that `%d` scans from it is not
positive.  When the number is positive and its probe with signal 0 fails, which
for a number within the positive range of `pid_t` means that no live process
has this id, `StopDaemon` fails with the not-running error after the liveness
check has called for the removal of the PID file: no signal is sent and no
process changes, and when the removal does not fail the PID file is gone and
every other file is as before. -/
theorem stop_when_not_running (env : Env) (w : World) :
    ((env.homeErr w ≠ none ∨ env.readErr w pidPath ≠ none ∨ getFile w.files pidPath = none) →
      StopDaemon env w = (.error .notRunning, w)) ∧
    (∀ f, env.homeErr w = none → env.readErr w pidPath = none →
      getFile w.files pidPath = some f → scanInt f.content ≤ 0 →
      StopDaemon env w = (.error .notRunning, w)) ∧
    (∀ f, env.homeErr w = none → env.readErr w pidPath = none →
      getFile w.files pidPath = some f → 0 < scanInt f.content →
      probe env w (scanInt f.content) = false →
      StopDaemon env w = (.error .notRunning, removeFile env pidPath w) ∧
      (removeFile env pidPath w).procs = w.procs ∧
      (removeFile env pidPath w).out = w.out ∧
      (env.removeErr w pidPath = none →
        getFile (removeFile env pidPath w).files pidPath = none ∧
        ∀ q, q ≠ pidPath → getFile (removeFile env pidPath w).files q = getFile w.files q)) ∧
    (∀ (p : Int), 0 < p → p < 2147483648 → probe env w p = processAlive w p.toNat) := by
  refine ⟨?_, ?_, ?_, fun p h0 h1 => (reached_of_lt env w p h0 h1).2⟩
  · intro h
    unfold StopDaemon IsDaemonRunning GetDataDir readFile
    cases hh : env.homeErr w with
    | some e => rfl
    | none =>
      dsimp only
      cases hr : env.readErr w pidPath with
      | some e => rfl
      | none =>
        dsimp only
        rcases h with h | h | h
        · exact absurd hh h
        · exact absurd hr h
        · rw [h]
  · intro f hh hr hf hle
    unfold StopDaemon IsDaemonRunning GetDataDir readFile
    rw [hh]
    dsimp only
    rw [hr]
    dsimp only
    rw [hf]
    dsimp only
    rw [if_pos hle]
  · intro f hh hr hf hpos hdead
    obtain ⟨r1, r2, r3⟩ := removeFile_spec env pidPath w
    refine ⟨?_, r1, r2, r3⟩
    unfold StopDaemon IsDaemonRunning GetDataDir readFile
    rw [hh]
    dsimp only
    rw [hr]
    dsimp only
    rw [hf]
    dsimp only
    rw [if_neg (by omega), if_neg (by simp [hdead])]

set_option maxRecDepth 1000000 in
/-- Witness of C12: without a PID file, and with a PID file that names the
process 4242, which does not exist. -/
theorem stop_when_not_running_witness :
    StopDaemon focusEnv emptyWorld = (.error .notRunning, emptyWorld) ∧
    0 < scanInt (lit "4242") ∧ probe focusEnv stalePidWorld (scanInt (lit "4242")) = false ∧
    StopDaemon focusEnv stalePidWorld =
      (.error .notRunning, removeFile focusEnv pidPath stalePidWorld) ∧
    getFile (removeFile focusEnv pidPath stalePidWorld).files pidPath = none :=
  ⟨(stop_when_not_running focusEnv emptyWorld).1 (Or.inr (Or.inr rfl)),
   by decide, by decide,
   ((stop_when_not_running focusEnv stalePidWorld).2.2.1
      ⟨lit "4242", 0⟩ rfl rfl rfl (by decide) (by decide)).1,
   (((stop_when_not_running focusEnv stalePidWorld).2.2.1
      ⟨lit "4242", 0⟩ rfl rfl rfl (by decide) (by decide)).2.2.2 rfl).1⟩

/-- Without a PID file the liveness check reports not running and changes
nothing. -/
theorem IsDaemonRunning_absent (env : Env) (w : World) (h : getFile w.files pidPath = none) :
    IsDaemonRunning env w = ((false, 0), w) := by
  unfold IsDaemonRunning GetDataDir readFile
  cases hh : env.homeErr w with
  | some e => rfl
  | none =>
    dsimp only
    cases hr : env.readErr w pidPath with
    | some e => rfl
    | none =>
      dsimp only
      rw [h]

/-- Sending SIGTERM makes no process exit. -/
theorem processAlive_sendTerm (targets : List Nat) (pid q : Nat) (w : World) :
    processAlive (sendTerm targets pid w) q = processAlive w q := by
  unfold processAlive sendTerm
  simp only [List.any_map]
  congr 1
  funext p
  simp only [Function.comp]
  by_cases hp : p.pid ∈ targets ∧ p.alive = true
  · rw [if_pos hp]
  · rw [if_neg hp]

/-- The liveness check reports running with the process id `p` only when the
PID file can be read, `p` is the positive number scanned from it, and the
probe of `p` succeeds. -/
theorem IsDaemonRunning_true (env : Env) (w : World) (p : Int)
    (h : (IsDaemonRunning env w).1 = (true, p)) :
    ∃ f, env.homeErr w = none ∧ env.readErr w pidPath = none ∧
      getFile w.files pidPath = some f ∧ scanInt f.content = p ∧ 0 < p ∧
      probe env w p = true := by
  unfold IsDaemonRunning GetDataDir readFile at h
  cases hh : env.homeErr w with
  | some e => rw [hh] at h; simp at h
  | none =>
    rw [hh] at h
    dsimp only at h
    cases hr : env.readErr w pidPath with
    | some e => rw [hr] at h; simp at h
    | none =>
      rw [hr] at h
      dsimp only at h
      cases hf : getFile w.files pidPath with
      | none => rw [hf] at h; simp at h
      | some f =>
        rw [hf] at h
        dsimp only at h
        by_cases hpid : scanInt f.content ≤ 0
        · rw [if_pos hpid] at h
          simp at h
        · rw [if_neg hpid] at h
          by_cases hl : probe env w (scanInt f.content) = true
          · rw [if_pos hl] at h
            simp only [Prod.mk.injEq, true_and] at h
            subst h
            exact ⟨f, rfl, rfl, rfl, rfl, by omega, hl⟩
          · rw [if_neg hl] at h
            simp at h

/-- C13 (stop when running).  When the liveness check reports running with the
process id `p`, which it does exactly when the PID file can be read, `p` is the
positive number scanned from it and the probe of `p` succeeds, `StopDaemon`
succeeds; the world it leaves is the one after SIGTERM was sent with the
process id `p` and the removal of the PID file was called for.  The record of
actions grows by exactly one signal, sent with `p`; in the process table only
live processes that the signal reaches are marked as signalled, and for `p`
within the positive range of `pid_t` these are the processes with the id `p`
and no other.  No process has exited when `StopDaemon` returns, so nothing
waited for the exit.  When the removal does not fail the PID file is absent
afterwards, every other file is as before, the liveness check that follows
reports not running, and a `StopDaemon` that follows fails with the
not-running error, both without changing the world. -/
theorem stop_when_running (env : Env) (w : World) (p : Int)
    (h : (IsDaemonRunning env w).1 = (true, p)) :
    0 < p ∧ probe env w p = true ∧
    StopDaemon env w = (.ok (), removeFile env pidPath (sendTerm (reached env w p) p.toNat w)) ∧
    (StopDaemon env w).2.out = w.out ++ [.sigterm p.toNat] ∧
    (StopDaemon env w).2.procs =
      w.procs.map (fun q =>
        if q.pid ∈ reached env w p ∧ q.alive then { q with termSent := true } else q) ∧
    (p < 2147483648 → reached env w p = [p.toNat] ∧ processAlive w p.toNat = true ∧
      (StopDaemon env w).2.procs =
        w.procs.map (fun q =>
          if q.pid = p.toNat ∧ q.alive then { q with termSent := true } else q)) ∧
    (∀ q, processAlive (StopDaemon env w).2 q = processAlive w q) ∧
    (env.removeErr (sendTerm (reached env w p) p.toNat w) pidPath = none →
      getFile (StopDaemon env w).2.files pidPath = none ∧
      (∀ q, q ≠ pidPath → getFile (StopDaemon env w).2.files q = getFile w.files q) ∧
      IsDaemonRunning env (StopDaemon env w).2 = ((false, 0), (StopDaemon env w).2) ∧
      StopDaemon env (StopDaemon env w).2 = (.error .notRunning, (StopDaemon env w).2)) := by
  obtain ⟨f, hhome, hread, hfile, hscan, hpos, hlive⟩ := IsDaemonRunning_true env w p h
  have hrun : IsDaemonRunning env w = ((true, p), w) := by
    have := IsDaemonRunning_live env w f hhome hread hfile (by rw [hscan]; exact hpos)
      (by rw [hscan]; exact hlive)
    rw [hscan] at this
    exact this
  have hstop : StopDaemon env w =
      (.ok (), removeFile env pidPath (sendTerm (reached env w p) p.toNat w)) := by
    unfold StopDaemon
    rw [hrun]
    dsimp only
    rw [if_pos hlive]
  obtain ⟨r1, r2, r3⟩ := removeFile_spec env pidPath (sendTerm (reached env w p) p.toNat w)
  have hprocs : (StopDaemon env w).2.procs =
      w.procs.map (fun q =>
        if q.pid ∈ reached env w p ∧ q.alive then { q with termSent := true } else q) := by
    rw [hstop]
    exact r1
  refine ⟨hpos, hlive, hstop, ?_, hprocs, ?_, ?_, ?_⟩
  · rw [hstop]
    exact r2
  · intro hlt
    obtain ⟨e1, e2⟩ := reached_of_lt env w p hpos hlt
    have halive : processAlive w p.toNat = true := by
      rw [← e2]
      exact hlive
    have hreach : reached env w p = [p.toNat] := by
      rw [e1, if_pos halive]
    refine ⟨hreach, halive, ?_⟩
    rw [hprocs, hreach]
    simp only [List.mem_singleton]
  · intro q
    rw [hstop]
    have : processAlive (removeFile env pidPath (sendTerm (reached env w p) p.toNat w)) q
        = processAlive (sendTerm (reached env w p) p.toNat w) q := by
      unfold processAlive
      rw [r1]
    rw [this, processAlive_sendTerm]
  · intro hrm
    obtain ⟨g1, g2⟩ := r3 hrm
    rw [hstop]
    dsimp only
    have habs := IsDaemonRunning_absent env _ g1
    refine ⟨g1, fun q hq => g2 q hq, habs, ?_⟩
    unfold StopDaemon
    rw [habs]

set_option maxRecDepth 1000000 in
/-- Witness of C13: the daemon started in the empty world is stopped; the
signal went to the child 100, the PID file is gone, and a second stop finds no
daemon.  Where the PID file holds `4294973826` and the process 6530 is alive,
the stop succeeds and the process 6530 is the one marked as signalled. -/
theorem stop_when_running_witness :
    (IsDaemonRunning focusEnv startedWorld).1 = (true, 100) ∧
    (StopDaemon focusEnv startedWorld).1 = .ok () ∧
    (StopDaemon focusEnv startedWorld).2.out = startedWorld.out ++ [.sigterm 100] ∧
    (StopDaemon focusEnv startedWorld).2.procs = [⟨100, true, true, true⟩] ∧
    getFile (StopDaemon focusEnv startedWorld).2.files pidPath = none ∧
    StopDaemon focusEnv (StopDaemon focusEnv startedWorld).2 =
      (.error .notRunning, (StopDaemon focusEnv startedWorld).2) ∧
    (IsDaemonRunning focusEnv wrappedWorld).1 = (true, 4294973826) ∧
    (StopDaemon focusEnv wrappedWorld).1 = .ok () ∧
    (StopDaemon focusEnv wrappedWorld).2.procs = [⟨6530, true, true, true⟩] :=
  ⟨rfl, rfl,
   (stop_when_running focusEnv startedWorld 100 rfl).2.2.2.1,
   rfl,
   ((stop_when_running focusEnv startedWorld 100 rfl).2.2.2.2.2.2.2 rfl).1,
   ((stop_when_running focusEnv startedWorld 100 rfl).2.2.2.2.2.2.2 rfl).2.2.2,
   rfl, rfl, rfl⟩

/-! ## The source list -/

theorem SaveConfig_config (saveErr : Config → Option Err) (st : ConfigState) :
    (SaveConfig saveErr st).2.config = st.config ∧
    ((SaveConfig saveErr st).2.file = st.file ∨ (SaveConfig saveErr st).2.file = some st.config) := by
  unfold SaveConfig
  cases saveErr st.config with
  | some e => exact ⟨rfl, Or.inl rfl⟩
  | none => exact ⟨rfl, Or.inr rfl⟩

theorem SaveConfig_duplicateFree (saveErr : Config → Option Err) (st : ConfigState)
    (hc : st.config.Sources.Nodup) (hf : ∀ c, st.file = some c → c.Sources.Nodup) :
    DuplicateFree (SaveConfig saveErr st).2 := by
  obtain ⟨h1, h2⟩ := SaveConfig_config saveErr st
  refine ⟨by rw [h1]; exact hc, ?_⟩
  intro c hcf
  rcases h2 with h2 | h2
  · exact hf c (by rw [← h2]; exact hcf)
  · rw [h2] at hcf
    cases hcf
    exact hc

theorem AddSource_duplicateFree (saveErr : Config → Option Err) (url : GoString)
    (st : ConfigState) (h : DuplicateFree st) : DuplicateFree (AddSource saveErr url st).2 := by
  unfold AddSource
  by_cases hu : url ∈ st.config.Sources
  · rw [if_pos hu]
    exact h
  · rw [if_neg hu]
    apply SaveConfig_duplicateFree
    · show (st.config.Sources ++ [url]).Nodup
      exact List.Nodup.append h.1 (List.nodup_singleton url) (by simpa using hu)
    · exact h.2

theorem RemoveSource_duplicateFree (saveErr : Config → Option Err) (idOrURL : GoString)
    (st : ConfigState) (h : DuplicateFree st) :
    DuplicateFree (RemoveSource saveErr idOrURL st).2 := by
  unfold RemoveSource
  by_cases hi : removeIndex st.config.Sources idOrURL = -1
  · rw [if_pos hi]
    exact h
  · rw [if_neg hi]
    apply SaveConfig_duplicateFree
    · show (st.config.Sources.eraseIdx _).Nodup
      exact List.Nodup.sublist (List.eraseIdx_sublist _ _) h.1
    · exact h.2

theorem editSourcesAll_duplicateFree (saveErr : Config → Option Err) (cs : List SourceCommand)
    (st : ConfigState) (h : DuplicateFree st) : DuplicateFree (editSourcesAll saveErr st cs) := by
  induction cs generalizing st with
  | nil => exact h
  | cons c r ih =>
    unfold editSourcesAll
    rw [List.foldl_cons]
    apply ih
    cases c with
    | add url => exact AddSource_duplicateFree saveErr url st h
    | remove idOrURL => exact RemoveSource_duplicateFree saveErr idOrURL st h

/-- C15 (source uniqueness).  `AddSource` with a URL that is in the source
list fails with the source-already-exists error and changes neither the list
in memory nor the file.  With a URL that is not in the list, and a write of
the configuration that succeeds, it succeeds and the list, in memory and in
the file, is the old list with the URL appended at the end.  Whatever the
file system does, a source list without duplicates, in memory and in the
file, is without duplicates after every sequence of `AddSource` and
`RemoveSource`. -/
theorem source_uniqueness (saveErr : Config → Option Err) :
    (∀ url st, url ∈ st.config.Sources →
      AddSource saveErr url st = (.error (.sourceExists url), st)) ∧
    (∀ url st, url ∉ st.config.Sources →
      saveErr { st.config with Sources := st.config.Sources ++ [url] } = none →
      AddSource saveErr url st =
        (.ok (), ⟨{ st.config with Sources := st.config.Sources ++ [url] },
                  some { st.config with Sources := st.config.Sources ++ [url] }⟩)) ∧
    (∀ cs st, DuplicateFree st → DuplicateFree (editSourcesAll saveErr st cs)) := by
  refine ⟨?_, ?_, fun cs st h => editSourcesAll_duplicateFree saveErr cs st h⟩
  · intro url st hu
    unfold AddSource
    rw [if_pos hu]
  · intro url st hu hs
    unfold AddSource SaveConfig
    rw [if_neg hu]
    dsimp only
    rw [hs]

/-- Witness of C15: `b` is refused, `d` is appended, and the list stays
without duplicates under a sequence of additions and removals. -/
theorem source_uniqueness_witness :
    AddSource alwaysSaved (lit "b") threeSourcesState =
      (.error (.sourceExists (lit "b")), threeSourcesState) ∧
    (AddSource alwaysSaved (lit "d") threeSourcesState).2.config.Sources =
      [lit "a", lit "b", lit "c", lit "d"] ∧
    DuplicateFree (editSourcesAll alwaysSaved threeSourcesState
      [.add (lit "d"), .remove (lit "2"), .add (lit "a"), .add (lit "b"), .remove (lit "d")]) :=
  ⟨(source_uniqueness alwaysSaved).1 (lit "b") threeSourcesState (by decide),
   congrArg (fun r => r.2.config.Sources)
     ((source_uniqueness alwaysSaved).2.1 (lit "d") threeSourcesState (by decide) rfl),
   (source_uniqueness alwaysSaved).2.2 _ threeSourcesState
     ⟨by decide, fun c hc => by cases hc; decide⟩⟩

theorem firstLoop_neg_one (n : Nat) (s : GoString) : firstLoop (-1) n s = -1 := by
  induction n generalizing s with
  | zero => rfl
  | succ n ih =>
    cases s with
    | nil => rfl
    | cons b rest =>
      unfold firstLoop
      split
      · rfl
      · exact ih rest

theorem foldl_digits_ge (ds : List Nat) (v : Nat) :
    v ≤ ds.foldl (fun v d => 10 * v + (d - 48)) v := by
  induction ds generalizing v with
  | nil => exact Nat.le_refl v
  | cons b rest ih =>
    rw [List.foldl_cons]
    exact Nat.le_trans (by omega) (ih (10 * v + (b - 48)))

/-- The second loop on a string of digits whose value fits in 63 bits gives
the value. -/
theorem parseNum_digits (ds : List Nat) (v : Nat) (hd : ∀ b ∈ ds, 48 ≤ b ∧ b ≤ 57)
    (hb : ds.foldl (fun v d => 10 * v + (d - 48)) v < 9223372036854775808) :
    parseNum (v : Int) ds = ((ds.foldl (fun v d => 10 * v + (d - 48)) v : Nat) : Int) := by
  induction ds generalizing v with
  | nil => rfl
  | cons b rest ih =>
    rw [List.foldl_cons] at hb ⊢
    have hbd := hd b (by simp)
    have hge := foldl_digits_ge rest (10 * v + (b - 48))
    unfold parseNum
    rw [if_pos hbd]
    have hw : wrap64 ((v : Int) * 10 + ((b : Int) - 48)) = ((10 * v + (b - 48) : Nat) : Int) := by
      unfold wrap64
      omega
    rw [hw]
    exact ih (10 * v + (b - 48)) (fun x hx => hd x (by simp [hx])) hb

theorem parseNum_formatInt (k : Nat) (h : k < 9223372036854775808) :
    parseNum 0 (formatInt k) = (k : Int) := by
  have hv : decimalValue (formatInt k) = k := decimalDigits_value (k + 1) k (by omega)
  have := parseNum_digits (formatInt k) 0 (decimalDigits_range (k + 1) k)
    (by unfold decimalValue at hv; rw [hv]; exact h)
  unfold decimalValue at hv
  rw [hv] at this
  exact this

/-- The second loop on a string with a byte that is not a digit gives `-1`. -/
theorem parseNum_nondigit (s : GoString) (num : Int) (h : ∃ b ∈ s, b < 48 ∨ 57 < b) :
    parseNum num s = -1 := by
  induction s generalizing num with
  | nil => simp at h
  | cons b rest ih =>
    unfold parseNum
    by_cases hb : 48 ≤ b ∧ b ≤ 57
    · rw [if_pos hb]
      apply ih
      obtain ⟨x, hx, hx2⟩ := h
      rcases List.mem_cons.1 hx with hx1 | hx1
      · subst hx1
        omega
      · exact ⟨x, hx1, hx2⟩
    · rw [if_neg hb]

theorem findSource_split (idOrURL : GoString) (sources : List GoString) (i : Int)
    (h : idOrURL ∈ sources) :
    ∃ pre post, sources = pre ++ idOrURL :: post ∧ idOrURL ∉ pre ∧
      findSource idOrURL sources i = i + (pre.length : Nat) := by
  induction sources generalizing i with
  | nil => simp at h
  | cons s rest ih =>
    unfold findSource
    by_cases hs : s = idOrURL
    · rw [if_pos hs]
      subst hs
      exact ⟨[], rest, rfl, by simp, by simp⟩
    · rw [if_neg hs]
      have hm : idOrURL ∈ rest := by
        rcases List.mem_cons.1 h with h1 | h1
        · exact absurd h1.symm hs
        · exact h1
      obtain ⟨pre, post, e1, e2, e3⟩ := ih (i + 1) hm
      refine ⟨s :: pre, post, by rw [e1]; rfl, ?_, ?_⟩
      · intro hc
        rcases List.mem_cons.1 hc with h1 | h1
        · exact hs h1.symm
        · exact e2 h1
      · rw [e3]
        simp only [List.length_cons]
        push_cast
        omega

theorem eraseIdx_middle {α : Type} (pre post : List α) (x : α) :
    (pre ++ x :: post).eraseIdx pre.length = pre ++ post := by
  induction pre with
  | nil => rfl
  | cons a r ih => simp only [List.cons_append, List.length_cons, List.eraseIdx_cons_succ, ih]

theorem removeIndex_numeral (sources : List GoString) (k : Nat) (h1 : 1 ≤ k)
    (h2 : k ≤ sources.length) (hn : sources.length < 9223372036854775808) :
    removeIndex sources (formatInt k) = (k : Int) - 1 := by
  have hc : (k : Int) ≥ 1 ∧ (k : Int) ≤ (sources.length : Int) := ⟨by omega, by omega⟩
  unfold removeIndex
  simp only [firstLoop_neg_one, parseNum_formatInt k (by omega)]
  rw [if_pos trivial, if_pos hc, if_neg (by omega)]

theorem removeIndex_url (sources : List GoString) (idOrURL : GoString)
    (hd : ∃ b ∈ idOrURL, b < 48 ∨ 57 < b) :
    removeIndex sources idOrURL = findSource idOrURL sources 0 := by
  unfold removeIndex
  simp only [firstLoop_neg_one, parseNum_nondigit idOrURL 0 hd]
  have hc : ¬ ((-1 : Int) ≥ 1 ∧ (-1 : Int) ≤ (sources.length : Int)) := fun h => absurd h.1 (by decide)
  rw [if_pos trivial, if_neg hc, if_pos rfl]

/-- C16 (remove a source by ID or URL).  Let the source list have `n` entries,
fewer than `2^63`, as every Go slice has.  (a) For `1 ≤ k ≤ n` the decimal
numeral of `k` is the ID that `ListSources` prints for the `k`-th source, and
`RemoveSource` with this numeral settles on the index `k - 1`, whatever the
sources are, also when one of them is this numeral; when the write of the
configuration succeeds it returns success and the list, in memory and in the
file, is the old one without its `k`-th entry, the entries before and after
it in their order, `n - 1` in all.  (b) For an argument with a byte that is not
a digit and that is one of the sources, the list splits at the first
occurrence of the argument, and when the write succeeds `RemoveSource`
returns success and the list is what stands before this occurrence followed by
what stands after it, `n - 1` entries in all. -/
theorem remove_by_id_or_url (saveErr : Config → Option Err) (st : ConfigState) :
    (∀ k, 1 ≤ k → k ≤ st.config.Sources.length →
      st.config.Sources.length < 9223372036854775808 →
      (∀ src, st.config.Sources[k - 1]? = some src →
        (ListSources st.config)[k - 1]? = some (formatInt k, src)) ∧
      removeIndex st.config.Sources (formatInt k) = (k : Int) - 1 ∧
      st.config.Sources.eraseIdx (k - 1) =
        st.config.Sources.take (k - 1) ++ st.config.Sources.drop k ∧
      (st.config.Sources.eraseIdx (k - 1)).length = st.config.Sources.length - 1 ∧
      (saveErr { st.config with Sources := st.config.Sources.eraseIdx (k - 1) } = none →
        RemoveSource saveErr (formatInt k) st =
          (.ok (), ⟨{ st.config with Sources := st.config.Sources.eraseIdx (k - 1) },
                    some { st.config with Sources := st.config.Sources.eraseIdx (k - 1) }⟩))) ∧
    (∀ idOrURL, (∃ b ∈ idOrURL, b < 48 ∨ 57 < b) → idOrURL ∈ st.config.Sources →
      ∃ pre post, st.config.Sources = pre ++ idOrURL :: post ∧ idOrURL ∉ pre ∧
        (pre ++ post).length = st.config.Sources.length - 1 ∧
        (saveErr { st.config with Sources := pre ++ post } = none →
          RemoveSource saveErr idOrURL st =
            (.ok (), ⟨{ st.config with Sources := pre ++ post },
                      some { st.config with Sources := pre ++ post }⟩))) := by
  refine ⟨?_, ?_⟩
  · intro k h1 h2 hn
    have hidx := removeIndex_numeral st.config.Sources k h1 h2 hn
    have hnat : ((k : Int) - 1).toNat = k - 1 := by omega
    refine ⟨?_, hidx, ?_, ?_, ?_⟩
    · intro src hsrc
      unfold ListSources
      rw [List.getElem?_map, List.getElem?_enum, hsrc]
      simp only [Option.map_some']
      rw [Nat.sub_add_cancel h1]
    · rw [List.eraseIdx_eq_take_drop_succ, Nat.sub_add_cancel h1]
    · rw [List.length_eraseIdx]
      rw [if_pos (by omega)]
    · intro hs
      unfold RemoveSource SaveConfig
      rw [hidx, hnat, if_neg (by omega)]
      dsimp only
      rw [hs]
  · intro idOrURL hd hm
    obtain ⟨pre, post, e1, e2, e3⟩ := findSource_split idOrURL st.config.Sources 0 hm
    have hidx : removeIndex st.config.Sources idOrURL = (pre.length : Nat) := by
      rw [removeIndex_url _ _ hd, e3]
      omega
    refine ⟨pre, post, e1, e2, ?_, ?_⟩
    · rw [e1]
      simp
    · intro hs
      have he : st.config.Sources.eraseIdx pre.length = pre ++ post := by
        rw [e1]
        exact eraseIdx_middle pre post idOrURL
      unfold RemoveSource SaveConfig
      rw [hidx, if_neg (by omega), Int.toNat_ofNat, he]
      dsimp only
      rw [hs]

/-- Witness of C16: the second of three sources is removed by its ID, also
where the first source is the numeral `2`, and the source `b` is removed by
its URL. -/
theorem remove_by_id_or_url_witness :
    (RemoveSource alwaysSaved (formatInt 2) threeSourcesState =
      (.ok (), ⟨{ threeSources with Sources := [lit "a", lit "c"] },
                some { threeSources with Sources := [lit "a", lit "c"] }⟩)) ∧
    (RemoveSource alwaysSaved (formatInt 2) numeralSources =
      (.ok (), ⟨{ threeSources with Sources := [lit "2", lit "y"] },
                some { threeSources with Sources := [lit "2", lit "y"] }⟩)) ∧
    (∃ pre post, threeSourcesState.config.Sources = pre ++ lit "b" :: post ∧ lit "b" ∉ pre ∧
      (pre ++ post).length = threeSourcesState.config.Sources.length - 1 ∧
      (alwaysSaved { threeSourcesState.config with Sources := pre ++ post } = none →
        RemoveSource alwaysSaved (lit "b") threeSourcesState =
          (.ok (), ⟨{ threeSourcesState.config with Sources := pre ++ post },
                    some { threeSourcesState.config with Sources := pre ++ post }⟩))) :=
  ⟨((remove_by_id_or_url alwaysSaved threeSourcesState).1 2 (by decide) (by decide)
      (by decide)).2.2.2.2 rfl,
   ((remove_by_id_or_url alwaysSaved numeralSources).1 2 (by decide) (by decide)
      (by decide)).2.2.2.2 rfl,
   (remove_by_id_or_url alwaysSaved threeSourcesState).2 (lit "b") ⟨98, by decide, by decide⟩
     (by decide)⟩

set_option maxRecDepth 1000000 in
/-- C18 (RemoveSource rejects what is neither an ID nor a URL): the code does
not.  With the three sources `a`, `b`, `c`, the argument
`18446744073709551617` is none of the sources and is a string of digits of the
value `2^64 + 1`, which is greater than 3; the second loop of `RemoveSource`
accumulates it in 64-bit arithmetic, where it wraps around to 1, so that
`RemoveSource` returns success and removes the first source instead of
returning the source-not-found error. -/
theorem RemoveSource_accepts_wrapped_numeral :
    lit "18446744073709551617" ∉ threeSourcesState.config.Sources ∧
    (∀ b ∈ lit "18446744073709551617", 48 ≤ b ∧ b ≤ 57) ∧
    decimalValue (lit "18446744073709551617") = 18446744073709551617 ∧
    threeSourcesState.config.Sources.length < decimalValue (lit "18446744073709551617") ∧
    parseNum 0 (lit "18446744073709551617") = 1 ∧
    RemoveSource alwaysSaved (lit "18446744073709551617") threeSourcesState =
      (.ok (), ⟨{ threeSources with Sources := [lit "b", lit "c"] },
                some { threeSources with Sources := [lit "b", lit "c"] }⟩) :=
  ⟨by decide, by decide, by decide, by decide, by decide, rfl⟩

theorem findSource_not_mem (idOrURL : GoString) (sources : List GoString) (i : Int)
    (h : idOrURL ∉ sources) : findSource idOrURL sources i = -1 := by
  induction sources generalizing i with
  | nil => rfl
  | cons s rest ih =>
    unfold findSource
    rw [if_neg (fun hs => h (by simp [hs])), ih (i + 1) (fun hm => h (by simp [hm]))]

/-- Where no 64-bit overflow occurs `RemoveSource` does reject what is neither
an ID nor a URL: an argument that is none of the sources and that has a byte
that is not a digit, or is a string of digits of a value below `2^63` that is
0 or greater than the number of sources, gets the source-not-found error and
nothing changes. -/
theorem RemoveSource_rejects_without_overflow (saveErr : Config → Option Err)
    (idOrURL : GoString) (st : ConfigState) (hm : idOrURL ∉ st.config.Sources)
    (h : (∃ b ∈ idOrURL, b < 48 ∨ 57 < b) ∨
      ((∀ b ∈ idOrURL, 48 ≤ b ∧ b ≤ 57) ∧ decimalValue idOrURL < 9223372036854775808 ∧
        (decimalValue idOrURL = 0 ∨ st.config.Sources.length < decimalValue idOrURL))) :
    RemoveSource saveErr idOrURL st = (.error (.sourceNotFound idOrURL), st) := by
  have hidx : removeIndex st.config.Sources idOrURL = -1 := by
    rcases h with h | ⟨hd, hb, hv⟩
    · rw [removeIndex_url _ _ h]
      exact findSource_not_mem _ _ _ hm
    · have hp := parseNum_digits idOrURL 0 hd hb
      have hp2 : parseNum 0 idOrURL = (decimalValue idOrURL : Int) := hp
      have hc : ¬ ((decimalValue idOrURL : Int) ≥ 1 ∧
          (decimalValue idOrURL : Int) ≤ (st.config.Sources.length : Int)) := by omega
      unfold removeIndex
      simp only [firstLoop_neg_one, hp2]
      rw [if_pos trivial, if_neg hc, if_pos rfl]
      exact findSource_not_mem _ _ _ hm
  unfold RemoveSource
  rw [if_pos hidx]

/-! ## The interval of the daemon -/

set_option maxRecDepth 1000000 in
/-- C17 (daemon interval is at least one minute): the code does not ensure
it.  A configuration loaded with `schedule_minutes = -5` is not 0, so `main`
leaves it, and `runDaemonLoop` asks `time.NewTicker` for an interval of
`-5` minutes: the daemon child ends with the panic of a non-positive interval
before any run, whatever the number of ticks waited for, having only opened
the log file.  A configuration loaded with `schedule_minutes = 307445735` gets
an interval that overflows 64 bits to 26290448384 nanoseconds, less than one
minute and not the configured schedule. -/
theorem daemon_interval_not_positive :
    validateConfig negativeSchedule = none ∧
    tickerInterval negativeSchedule = -5 * minute ∧
    (∀ ticks, (daemonChildMain focusEnv negativeSchedule ticks emptyWorld).1 =
      .error .nonPositiveInterval) ∧
    (∀ ticks, (daemonChildMain focusEnv negativeSchedule ticks emptyWorld).2.out = []) ∧
    tickerInterval hugeSchedule = 26290448384 ∧
    tickerInterval hugeSchedule < minute :=
  ⟨by decide, by decide, fun _ => rfl, fun _ => rfl, by decide, by decide⟩

/-- For a loaded schedule from 0 to 153722867 minutes the daemon child does
what C17 says: the interval of the ticker is the schedule in minutes, 15
minutes for 0, at least one minute, and `runDaemonLoop` makes the initial run
and one run for each tick. -/
theorem daemon_interval_in_range (env : Env) (loaded : Config) (ticks : Nat) (w : World)
    (h0 : 0 ≤ loaded.ScheduleMinutes) (h1 : loaded.ScheduleMinutes ≤ 153722867) :
    tickerInterval (if loaded.ScheduleMinutes = 0 then { loaded with ScheduleMinutes := 15 }
        else loaded) =
      (if loaded.ScheduleMinutes = 0 then 15 else loaded.ScheduleMinutes) * minute ∧
    minute ≤ tickerInterval (if loaded.ScheduleMinutes = 0 then { loaded with ScheduleMinutes := 15 }
        else loaded) ∧
    runDaemonLoop env (if loaded.ScheduleMinutes = 0 then { loaded with ScheduleMinutes := 15 }
        else loaded) ticks w =
      (.ok (), daemonRuns env (if loaded.ScheduleMinutes = 0 then { loaded with ScheduleMinutes := 15 }
        else loaded) ticks w) := by
  have key : ∀ c : Config, 1 ≤ c.ScheduleMinutes → c.ScheduleMinutes ≤ 153722867 →
      tickerInterval c = c.ScheduleMinutes * minute ∧ minute ≤ tickerInterval c := by
    intro c a b
    have e : tickerInterval c = c.ScheduleMinutes * minute := by
      unfold tickerInterval wrap64 minute
      omega
    refine ⟨e, ?_⟩
    rw [e]
    unfold minute
    omega
  by_cases hz : loaded.ScheduleMinutes = 0
  · simp only [if_pos hz]
    obtain ⟨e1, e2⟩ := key { loaded with ScheduleMinutes := 15 }
      (show (1 : Int) ≤ 15 by decide) (show (15 : Int) ≤ 153722867 by decide)
    refine ⟨e1, e2, ?_⟩
    unfold runDaemonLoop
    rw [if_neg (by unfold minute at e2; omega)]
  · simp only [if_neg hz]
    obtain ⟨e1, e2⟩ := key loaded (by omega) h1
    refine ⟨e1, e2, ?_⟩
    unfold runDaemonLoop
    rw [if_neg (by unfold minute at e2; omega)]

/-! ## Text extraction -/

set_option maxRecDepth 1000000 in
/-- C20 (script and style removal keeps the surrounding text): the code does
not keep the text after the element.  With `A = Alpha`, `S = var x;` and
`B = Bravo`, the line `<script>var x;</script>` sets the script flag and is
skipped before it is looked at for `</script>`, so the flag stays set and
`Bravo` is dropped with the script: the result is `Alpha`, not `Alpha`, line
feed, `Bravo`.  The same with `<style>`.  When the closing tag stands on a line
of its own the text after the element is kept. -/
theorem inline_script_drops_following_text :
    extractTextFromHTML (lit "Alpha<script>var x;</script>Bravo") = lit "Alpha" ∧
    extractTextFromHTML (lit "Alpha<style>var x;</style>Bravo") = lit "Alpha" ∧
    extractTextFromHTML (lit "Alpha<script>var x;</script>Bravo") ≠ lit "Alpha\nBravo" ∧
    extractTextFromHTML (lit "Alpha<script>var x;\n</script>Bravo") = lit "Alpha\nBravo" :=
  ⟨by decide, by decide, by decide, by decide⟩

theorem indexByte_none (s : GoString) (c : Nat) : indexByte s c = none ↔ c ∉ s := by
  induction s with
  | nil => simp [indexByte]
  | cons a t ih =>
    unfold indexByte
    by_cases h : a = c
    · simp [h]
    · rw [if_neg h]
      simp only [Option.map_eq_none', ih, List.mem_cons, not_or]
      exact ⟨fun m => ⟨fun e => h e.symm, m⟩, fun m => m.2⟩

theorem indexByte_some (s : GoString) (c i : Nat) (h : indexByte s c = some i) :
    i < s.length ∧ s.drop i = c :: s.drop (i + 1) ∧ c ∉ s.take i := by
  induction s generalizing i with
  | nil => simp [indexByte] at h
  | cons a t ih =>
    unfold indexByte at h
    by_cases hac : a = c
    · rw [if_pos hac] at h
      cases h
      subst hac
      simp
    · rw [if_neg hac] at h
      cases hj : indexByte t c with
      | none => rw [hj] at h; simp at h
      | some j =>
        rw [hj] at h
        simp only [Option.map_some', Option.some.injEq] at h
        subst h
        obtain ⟨h1, h2, h3⟩ := ih j hj
        refine ⟨by simp only [List.length_cons]; omega, ?_, ?_⟩
        · simpa using h2
        · simp only [List.take_succ_cons, List.mem_cons, not_or]
          exact ⟨fun e => hac e.symm, h3⟩

theorem contains_byte (s : GoString) (c : Nat) : contains s [c] = true ↔ c ∈ s := by
  induction s with
  | nil => simp [contains]
  | cons a t ih =>
    unfold contains
    simp only [Bool.or_eq_true, ih, List.mem_cons]
    have hp : hasPrefix (a :: t) [c] = true ↔ c = a := by
      have h0 : hasPrefix t [] = true := by cases t <;> rfl
      rw [hasPrefix, h0]
      simp only [Bool.and_true, beq_iff_eq]
      exact eq_comm
    rw [hp]

/-- The tag-stripping loop written with `stripStep`. -/
theorem stripTagsFuel_succ (n : Nat) (text : GoString) :
    stripTagsFuel (n + 1) text =
      match stripStep text with
      | none => text
      | some t => stripTagsFuel n t := by
  unfold stripStep
  rw [stripTagsFuel]
  by_cases h : (contains text [60] && contains text [62]) = true
  · rw [if_pos h, if_pos h]
    cases indexByte text 60 with
    | none => rfl
    | some start =>
      dsimp only
      cases indexByte (List.drop start text) 62 with
      | none => rfl
      | some e => rfl
  · rw [if_neg h, if_neg h]

/-- Every round of the tag-stripping loop strictly shortens the text. -/
theorem stripStep_shortens (text t : GoString) (h : stripStep text = some t) :
    t.length < text.length := by
  unfold stripStep at h
  by_cases hc : (contains text [60] && contains text [62]) = true
  · rw [if_pos hc] at h
    cases hs : indexByte text 60 with
    | none => rw [hs] at h; simp at h
    | some start =>
      rw [hs] at h
      dsimp only at h
      cases he : indexByte (List.drop start text) 62 with
      | none => rw [he] at h; simp at h
      | some e =>
        rw [he] at h
        simp only [Option.some.injEq] at h
        subst h
        obtain ⟨s1, s2, _⟩ := indexByte_some text 60 start hs
        obtain ⟨e1, _, e3⟩ := indexByte_some _ 62 e he
        have e0 : e ≠ 0 := by
          intro z
          subst z
          have := indexByte_some _ 62 0 he
          rw [s2] at this
          simp at this
        simp only [List.length_append, List.length_take, List.length_drop, List.length_singleton] at e1 ⊢
        omega
  · rw [if_neg hc] at h
    simp at h

theorem stripTagsFuel_nil (n : Nat) : stripTagsFuel n [] = [] := by
  cases n with
  | zero => rfl
  | succ n => rfl

/-- A fuel of the length of the text, or more, is never used up: the result is
the same, and the loop was left. -/
theorem stripTagsFuel_enough (n : Nat) (text : GoString) (h : text.length ≤ n) :
    stripTagsFuel n text = stripTagsFuel text.length text ∧
    stripStep (stripTagsFuel n text) = none := by
  have key : ∀ n (text : GoString), text.length ≤ n →
      stripStep (stripTagsFuel n text) = none ∧
      ∀ m, text.length ≤ m → stripTagsFuel n text = stripTagsFuel m text := by
    intro n
    induction n with
    | zero =>
      intro text h
      have : text = [] := List.length_eq_zero.1 (by omega)
      subst this
      exact ⟨rfl, fun m _ => by rw [stripTagsFuel_nil, stripTagsFuel_nil]⟩
    | succ n ih =>
      intro text h
      rw [stripTagsFuel_succ]
      cases hs : stripStep text with
      | none =>
        refine ⟨hs, ?_⟩
        intro m hm
        cases m with
        | zero =>
          have : text = [] := List.length_eq_zero.1 (by omega)
          subst this
          rfl
        | succ m => rw [stripTagsFuel_succ, hs]
      | some t =>
        have hl := stripStep_shortens text t hs
        obtain ⟨a, b⟩ := ih t (by omega)
        refine ⟨a, ?_⟩
        intro m hm
        cases m with
        | zero => omega
        | succ m =>
          rw [stripTagsFuel_succ, hs]
          exact b m (by omega)
  exact ⟨(key n text h).2 text.length (Nat.le_refl _), (key n text h).1⟩

theorem sublist_append_of_not_mem {α : Type} (a : α) (l A B : List α) (h : a ∉ A)
    (hs : List.Sublist (a :: l) (A ++ B)) : List.Sublist (a :: l) B := by
  induction A with
  | nil => exact hs
  | cons x A ih =>
    have hx : a ≠ x := fun e => h (by simp [e])
    have hA : a ∉ A := fun m => h (List.mem_cons_of_mem _ m)
    rw [List.cons_append] at hs
    cases hs with
    | cons _ h1 => exact ih hA h1
    | cons₂ _ h1 => exact absurd rfl hx

/-- When the tag-stripping loop is left, no `<` of the text is followed later
by a `>`. -/
theorem no_tag_of_stripStep_none (s : GoString) (h : stripStep s = none) :
    ¬ List.Sublist [60, 62] s := by
  intro hsub
  have m60 : 60 ∈ s := hsub.subset (by simp)
  have m62 : 62 ∈ s := hsub.subset (by simp)
  unfold stripStep at h
  have hc : (contains s [60] && contains s [62]) = true := by
    rw [Bool.and_eq_true]
    exact ⟨(contains_byte s 60).2 m60, (contains_byte s 62).2 m62⟩
  rw [if_pos hc] at h
  cases hs : indexByte s 60 with
  | none => exact (indexByte_none s 60).1 hs m60
  | some start =>
    rw [hs] at h
    dsimp only at h
    cases he : indexByte (List.drop start s) 62 with
    | none =>
      obtain ⟨_, _, s3⟩ := indexByte_some s 60 start hs
      have hsplit : List.Sublist [60, 62] (s.take start ++ s.drop start) := by
        rw [List.take_append_drop]
        exact hsub
      have h2 := sublist_append_of_not_mem 60 [62] _ _ s3 hsplit
      exact (indexByte_none _ 62).1 he (h2.subset (by simp))
    | some e =>
      rw [he] at h
      simp at h

theorem join_splitOn (c : Nat) (s : GoString) : join [c] (splitOn c s) = s := by
  induction s with
  | nil => rfl
  | cons a t ih =>
    unfold splitOn
    by_cases h : a = c
    · rw [if_pos h]
      cases hs : splitOn c t with
      | nil => rw [hs] at ih; simp [join] at ih; subst ih; simp [splitOn] at hs
      | cons l ls =>
        rw [hs] at ih
        simp only [join, List.nil_append, List.singleton_append, ih, h]
    · rw [if_neg h]
      cases hs : splitOn c t with
      | nil => rw [hs] at ih; simp [join] at ih; subst ih; simp [splitOn] at hs
      | cons l ls =>
        rw [hs] at ih
        dsimp only
        cases ls with
        | nil =>
          simp only [join] at ih ⊢
          rw [ih]
        | cons y r =>
          simp only [join] at ih ⊢
          rw [← ih]
          simp

theorem join_cons_sublist (sep x : GoString) (ls : List GoString) :
    List.Sublist (join sep ls) (join sep (x :: ls)) := by
  cases ls with
  | nil => simp [join]
  | cons y r =>
    simp only [join]
    exact List.sublist_append_of_sublist_right (List.Sublist.refl _)

theorem sublist_join_cons (sep x : GoString) (ls : List GoString) :
    List.Sublist x (join sep (x :: ls)) := by
  cases ls with
  | nil => simp [join]
  | cons y r =>
    simp only [join, List.append_assoc]
    exact List.sublist_append_left _ _

/-- Shrinking every line and dropping some lines gives a subsequence of the
joined text. -/
theorem join_map_filter_sublist (sep : GoString) (f : GoString → GoString)
    (p : GoString → Bool) (hf : ∀ l, List.Sublist (f l) l) (ls : List GoString) :
    List.Sublist (join sep ((ls.map f).filter p)) (join sep ls) := by
  induction ls with
  | nil => simp [join]
  | cons x r ih =>
    rw [List.map_cons]
    by_cases hp : p (f x) = true
    · rw [List.filter_cons_of_pos hp]
      cases hr : (r.map f).filter p with
      | nil =>
        simp only [join]
        exact (hf x).trans (sublist_join_cons sep x r)
      | cons y r2 =>
        rw [hr] at ih
        cases r with
        | nil => simp at hr
        | cons z r3 =>
          simp only [join] at ih ⊢
          exact List.Sublist.append (List.Sublist.append (hf x) (List.Sublist.refl _)) ih
    · rw [List.filter_cons_of_neg hp]
      exact ih.trans (join_cons_sublist sep x r)

theorem hasPrefix_iff (s p : GoString) : hasPrefix s p = true ↔ p <+: s := by
  induction p generalizing s with
  | nil => cases s <;> simp [hasPrefix]
  | cons b p ih =>
    cases s with
    | nil => simp [hasPrefix]
    | cons a s =>
      simp only [hasPrefix, Bool.and_eq_true, beq_iff_eq, ih, List.cons_prefix_cons]
      exact ⟨fun h => ⟨h.1.symm, h.2⟩, fun h => ⟨h.1.symm, h.2⟩⟩

theorem leadingSpace_none (encs : List GoString) (s : GoString) :
    leadingSpace encs s = none ↔ ∀ e ∈ encs, ¬ e <+: s := by
  unfold leadingSpace
  simp only [Option.map_eq_none', List.find?_eq_none, hasPrefix_iff]

theorem leadingSpace_some (encs : List GoString) (s : GoString) (k : Nat)
    (h : leadingSpace encs s = some k) : ∃ e ∈ encs, e <+: s ∧ k = e.length := by
  unfold leadingSpace at h
  cases hf : encs.find? (fun e => hasPrefix s e) with
  | none => rw [hf] at h; simp at h
  | some e =>
    rw [hf] at h
    simp only [Option.map_some', Option.some.injEq] at h
    exact ⟨e, List.mem_of_find?_eq_some hf, (hasPrefix_iff s e).1 (List.find?_some hf), h.symm⟩

theorem trimLeftFuel_suffix (encs : List GoString) (n : Nat) (s : GoString) :
    trimLeftFuel encs n s <:+ s := by
  induction n generalizing s with
  | zero => exact List.suffix_refl s
  | succ n ih =>
    unfold trimLeftFuel
    cases leadingSpace encs s with
    | none => exact List.suffix_refl s
    | some k => exact (ih (s.drop k)).trans (List.drop_suffix k s)

/-- With a fuel of the length of the string, what `trimLeftFuel` returns does
not start with white space. -/
theorem trimLeftFuel_done (encs : List GoString) (hne : ∀ e ∈ encs, e ≠ []) (n : Nat)
    (s : GoString) (h : s.length ≤ n) : leadingSpace encs (trimLeftFuel encs n s) = none := by
  induction n generalizing s with
  | zero =>
    have : s = [] := List.length_eq_zero.1 (by omega)
    subst this
    rw [leadingSpace_none]
    intro e he hp
    exact hne e he (List.prefix_nil.1 hp)
  | succ n ih =>
    unfold trimLeftFuel
    cases hl : leadingSpace encs s with
    | none => exact hl
    | some k =>
      dsimp only
      obtain ⟨e, he, hp, hk⟩ := leadingSpace_some encs s k hl
      have hpos : 0 < e.length := List.length_pos.2 (hne e he)
      apply ih
      rw [List.length_drop]
      omega

theorem spaceEncodings_ne_nil : ∀ e ∈ spaceEncodings, e ≠ [] := by decide

theorem spaceEncodings_reverse_ne_nil : ∀ e ∈ spaceEncodings.map List.reverse, e ≠ [] := by decide

/-- The function `strings.TrimSpace` returns a stretch of its argument that
neither starts nor ends with white space. -/
theorem trimSpace_spec (x : GoString) :
    List.Sublist (trimSpace x) x ∧
    leadingSpace spaceEncodings (trimSpace x) = none ∧
    leadingSpace (spaceEncodings.map List.reverse) (trimSpace x).reverse = none := by
  have hl := trimLeftFuel_suffix spaceEncodings x.length x
  have hld := trimLeftFuel_done spaceEncodings spaceEncodings_ne_nil x.length x (Nat.le_refl _)
  unfold trimSpace
  dsimp only
  generalize trimLeftFuel spaceEncodings x.length x = l at hl hld
  have hr := trimLeftFuel_suffix (spaceEncodings.map List.reverse) l.length l.reverse
  have hrd := trimLeftFuel_done (spaceEncodings.map List.reverse) spaceEncodings_reverse_ne_nil
    l.length l.reverse (by simp)
  generalize trimLeftFuel (spaceEncodings.map List.reverse) l.length l.reverse = r at hr hrd
  have hpre : r.reverse <+: l := by
    have := List.reverse_prefix.2 hr
    rwa [List.reverse_reverse] at this
  refine ⟨hpre.sublist.trans hl.sublist, ?_, ?_⟩
  · rw [leadingSpace_none] at hld ⊢
    intro e he hp
    exact hld e he (hp.trans hpre)
  · rw [List.reverse_reverse]
    exact hrd

theorem splitOn_ne_nil (c : Nat) (s : GoString) : splitOn c s ≠ [] := by
  cases s with
  | nil => simp [splitOn]
  | cons a t =>
    unfold splitOn
    split
    · simp
    · split <;> simp

theorem splitOn_not_mem (c : Nat) (s : GoString) : ∀ x ∈ splitOn c s, c ∉ x := by
  induction s with
  | nil => simp [splitOn]
  | cons a t ih =>
    unfold splitOn
    by_cases h : a = c
    · rw [if_pos h]
      intro x hx
      rcases List.mem_cons.1 hx with e | e
      · subst e
        simp
      · exact ih x e
    · rw [if_neg h]
      cases hs : splitOn c t with
      | nil => exact absurd hs (splitOn_ne_nil c t)
      | cons l ls =>
        rw [hs] at ih
        dsimp only
        intro x hx
        rcases List.mem_cons.1 hx with e | e
        · subst e
          simp only [List.mem_cons, not_or]
          exact ⟨fun e2 => h e2.symm, ih l (by simp)⟩
        · exact ih x (by simp [e])

theorem splitOn_append_cons (c : Nat) (x rest : GoString) (h : c ∉ x) :
    splitOn c (x ++ c :: rest) = x :: splitOn c rest := by
  induction x with
  | nil => simp [splitOn]
  | cons a t ih =>
    have ht : c ∉ t := fun m => h (List.mem_cons_of_mem _ m)
    have ha : a ≠ c := fun e => h (by simp [e])
    simp only [List.cons_append]
    rw [splitOn, if_neg ha, ih ht]

/-- Splitting the joined lines gives the lines back, when there is a line and
no line has a line feed. -/
theorem splitOn_join (c : Nat) (ls : List GoString) (hne : ls ≠ [])
    (h : ∀ l ∈ ls, c ∉ l) : splitOn c (join [c] ls) = ls := by
  induction ls with
  | nil => exact absurd rfl hne
  | cons x r ih =>
    cases r with
    | nil =>
      simp only [join]
      exact splitOn_of_not_mem c x (h x (by simp))
    | cons y r2 =>
      simp only [join, List.append_assoc, List.singleton_append]
      rw [splitOn_append_cons c x _ (h x (by simp))]
      have := ih (by simp) (fun l hl => h l (List.mem_cons_of_mem _ hl))
      simp only [join] at this
      rw [this]

/-- C19 (tag stripping terminates and is complete).  Every round of the
tag-stripping loop strictly shortens the text, so that the loop is left after
at most as many rounds as the text has bytes: with a fuel of the length of the
text or more the result is the same and no further round is possible.  For
every input, the result of `extractTextFromHTML` has no `<` that is followed
anywhere later by a `>`.  The result is the join with line feeds of lines
without a line feed, each longer than 3 bytes and neither starting nor ending
with white space; when the result is not empty these are the lines it splits
into. -/
theorem tag_stripping_terminates_and_is_complete (html : GoString) :
    (∀ text t, stripStep text = some t → t.length < text.length) ∧
    (∀ text n, text.length ≤ n →
      stripTagsFuel n text = stripTagsFuel text.length text ∧
      stripStep (stripTagsFuel n text) = none) ∧
    ¬ List.Sublist [60, 62] (extractTextFromHTML html) ∧
    (∃ ls, extractTextFromHTML html = join [10] ls ∧
      (ls = [] → extractTextFromHTML html = []) ∧
      (ls ≠ [] → splitOn 10 (extractTextFromHTML html) = ls) ∧
      ∀ l ∈ ls, 10 ∉ l ∧ l.length > 3 ∧ leadingSpace spaceEncodings l = none ∧
        leadingSpace (spaceEncodings.map List.reverse) l.reverse = none) := by
  refine ⟨stripStep_shortens, fun text n h => stripTagsFuel_enough n text h, ?_, ?_⟩
  · unfold extractTextFromHTML
    dsimp only
    generalize scanLines false false _ = text
    have hdone := (stripTagsFuel_enough text.length text (Nat.le_refl _)).2
    have hno := no_tag_of_stripStep_none _ hdone
    intro hsub
    apply hno
    have h1 : List.Sublist (join [10] (cleanLines (splitOn 10 (stripTagsFuel text.length text))))
        (join [10] (splitOn 10 (stripTagsFuel text.length text))) :=
      join_map_filter_sublist [10] trimSpace _ (fun l => (trimSpace_spec l).1) _
    rw [join_splitOn] at h1
    exact hsub.trans h1
  · unfold extractTextFromHTML
    dsimp only
    generalize stripTagsFuel _ _ = text
    have hl : ∀ l ∈ cleanLines (splitOn 10 text), 10 ∉ l ∧ l.length > 3 ∧
        leadingSpace spaceEncodings l = none ∧
        leadingSpace (spaceEncodings.map List.reverse) l.reverse = none := by
      intro l hl
      unfold cleanLines at hl
      rw [List.mem_filter, List.mem_map] at hl
      obtain ⟨⟨x, hx, rfl⟩, hp⟩ := hl
      obtain ⟨t1, t2, t3⟩ := trimSpace_spec x
      refine ⟨fun m => splitOn_not_mem 10 text x hx (t1.subset m), ?_, t2, t3⟩
      simp only [Bool.and_eq_true, decide_eq_true_eq] at hp
      exact hp.2
    refine ⟨cleanLines (splitOn 10 text), rfl, ?_, ?_, hl⟩
    · intro he
      rw [he]
      rfl
    · intro hne
      exact splitOn_join 10 _ hne (fun l h => (hl l h).1)

set_option maxRecDepth 1000000 in
/-- Witness of C19: a round on `a<b>c` gives `a c`, one byte less where the
tag was two bytes more than the space, and a page with markup and indented
lines comes out as two trimmed lines without markup. -/
theorem tag_stripping_terminates_and_is_complete_witness :
    stripStep (lit "a<b>c") = some (lit "a c") ∧
    (lit "a c").length < (lit "a<b>c").length ∧
    extractTextFromHTML (lit "<p>Hello <b>world</b></p>\n  ok  \n <a href=x>link text</a> ") =
      lit "Hello  world\nlink text" ∧
    ¬ List.Sublist [60, 62]
      (extractTextFromHTML (lit "<p>Hello <b>world</b></p>\n  ok  \n <a href=x>link text</a> ")) :=
  ⟨by decide,
   (tag_stripping_terminates_and_is_complete []).1 (lit "a<b>c") (lit "a c") (by decide),
   by decide,
   (tag_stripping_terminates_and_is_complete
      (lit "<p>Hello <b>world</b></p>\n  ok  \n <a href=x>link text</a> ")).2.2.1⟩

/-! ## Failure isolation of the run -/

theorem summariesKept_refl (w : World) : SummariesKept w w := fun _ _ => rfl

theorem summariesKept_trans {a b c : World} (h1 : SummariesKept a b) (h2 : SummariesKept b c) :
    SummariesKept a c := fun p hp => (h2 p hp).trans (h1 p hp)

theorem summariesKept_of_files {w v : World} (h : v.files = w.files) : SummariesKept w v := by
  intro p _
  rw [h]

theorem summariesKept_put {w v : World} (p : Path) (f : File) (hp : p.dir ≠ .summaries)
    (h : v.files = putFile w.files p f) : SummariesKept w v := by
  intro q hq
  rw [h]
  apply getFile_putFile_other
  intro e
  rw [e] at hq
  exact hp hq

theorem quiet_nil : Quiet [] := ⟨rfl, rfl, rfl⟩

theorem quiet_append {a b : List Event} (ha : Quiet a) (hb : Quiet b) : Quiet (a ++ b) := by
  obtain ⟨a1, a2, a3⟩ := ha
  obtain ⟨b1, b2, b3⟩ := hb
  exact ⟨by rw [attempts_append, a1, b1]; rfl, by rw [outcomes_append, a2, b2]; rfl,
    by rw [writesIn_append, a3, b3]; rfl⟩

theorem quiet_chat (r : ChatRequest) : Quiet [.chat r] := ⟨rfl, rfl, rfl⟩

/-- The first step leaves the summary documents alone. -/
theorem loadContent_kept (env : Env) (source : GoString) (w : World) :
    ∃ δ, (loadContent env source w).2.out = w.out ++ δ ∧ Quiet δ ∧
      SummariesKept w (loadContent env source w).2 := by
  obtain ⟨δ, h1, h2⟩ := loadContent_out env source w
  obtain ⟨q1, q2, q3, -, -⟩ := load_shape_quiet h2
  refine ⟨δ, h1, ⟨q1, q2, q3⟩, ?_⟩
  unfold loadContent
  rcases IsCached env w source with e | b
  · exact summariesKept_refl w
  · cases b
    · simp only [CrawlWebsite]
      cases env.fetch w source with
      | error e => exact summariesKept_of_files rfl
      | ok c =>
        dsimp only
        rcases CacheContent_spec env source c
          { w with now := w.now + env.elapsed w, out := w.out ++ [.httpGet source] } with ⟨e, h⟩ | h
        · rw [h]
          exact summariesKept_of_files rfl
        · rw [h]
          exact summariesKept_put (cacheFile source) _ (by simp [cacheFile]) rfl
    · exact summariesKept_refl w

/-- The focus step of the daemon leaves the summary documents alone. -/
theorem focusStep_kept (env : Env) (config : Config) (source summary : GoString) (w : World) :
    ∃ δ, (focusStep env config source summary w).out = w.out ++ δ ∧ Quiet δ ∧
      SummariesKept w (focusStep env config source summary w) := by
  obtain ⟨δ, h1, h2⟩ := focusStep_out env config source summary w
  obtain ⟨q1, q2, q3, -⟩ := focus_actions_quiet (by rfl) h2
  refine ⟨δ, h1, ⟨q1, q2, q3⟩, ?_⟩
  have hE := (ExtractFocusedContent_snd env config summary w).1
  unfold focusStep
  split
  · rcases hx : ExtractFocusedContent env config summary w with ⟨r, w1⟩
    rw [hx] at hE
    simp only at hE
    cases r with
    | error e => exact summariesKept_of_files hE
    | ok focused =>
      dsimp only
      split
      · rcases StoreFocusedContent_spec env source focused w1 with ⟨e, h⟩ | h
        · rw [h]
          exact summariesKept_of_files hE
        · rw [h]
          exact summariesKept_trans (summariesKept_of_files hE)
            (summariesKept_put (focusFile source) _ (by simp [focusFile]) rfl)
      · exact summariesKept_of_files hE
  · exact summariesKept_refl w

/-- The aggregation at the end of the on-demand run leaves the summary
documents alone. -/
theorem combineFocus_kept (env : Env) (config : Config) (all : List GoString) (w : World) :
    ∃ δ, (combineFocus env config all w).out = w.out ++ δ ∧ Quiet δ ∧
      SummariesKept w (combineFocus env config all w) := by
  obtain ⟨δ, h1, -, h2⟩ := combineFocus_out env config all w
  obtain ⟨q1, q2, q3, -⟩ := focus_actions_quiet (by rfl) h2
  refine ⟨δ, h1, ⟨q1, q2, q3⟩, ?_⟩
  have hE := (ExtractFocusedContent_snd env config (join summarySeparator all) w).1
  unfold combineFocus
  split
  · rcases hx : ExtractFocusedContent env config (join summarySeparator all) w with ⟨r, w1⟩
    rw [hx] at hE
    simp only at hE
    cases r with
    | error e => exact summariesKept_of_files hE
    | ok focused =>
      dsimp only
      split
      · rcases StoreCombinedFocusedContent_spec env focused w1 with ⟨e, h⟩ | h
        · rw [h]
          exact summariesKept_of_files hE
        · rw [h]
          exact summariesKept_trans (summariesKept_of_files hE)
            (summariesKept_put combinedPath _ (by simp [combinedPath]) rfl)
      · exact summariesKept_of_files hE
  · exact summariesKept_refl w

/-- An attempt that fails and is reported, as the failure isolation asks. -/
theorem isolated_fail {env : Env} {config : Config} {s : GoString} {w v : World}
    (δ1 : List Event) (e : Err)
    (hout : v.out = w.out ++ (.processing s :: δ1 ++ [.errorProcessing s e])) (hq : Quiet δ1)
    (hk : SummariesKept w v)
    (hno : ¬ ∃ summary w3, Steps123 env config s summary (w.log (.processing s)) w3) :
    IsolatedAttempt env config s w false v := by
  obtain ⟨q1, q2, q3⟩ := hq
  refine ⟨_, hout, ?_, ?_, ?_, ?_, ?_, ?_⟩
  · simp only [attempts] at q1 ⊢
    simp [Event.attempt?, q1]
  · simp only [outcomes] at q2 ⊢
    simp [Event.outcome?, q2]
  · simp only [Bool.false_eq_true, false_iff]
    exact hno
  · intro h
    simp at h
  · intro _
    refine ⟨?_, hk⟩
    simp only [writesIn] at q3 ⊢
    simp [Event.wrote?, q3]
  · intro p hp _
    exact hk p hp

/-- An attempt that completes, as the failure isolation asks. -/
theorem isolated_ok {env : Env} {config : Config} {s content summary : GoString}
    {w v w1 w2 w3 : World} (δ1 δ2 : List Event)
    (hload : LoadOk env s content (w.log (.processing s)) w1)
    (hsum : SummarizeWithAI env config content s w1 = (.ok summary, w2))
    (hstore : StoreSummarization env s summary w2 = (.ok (), w3))
    (hout : v.out = w.out ++ (.processing s :: δ1 ++
      [.wrote (summaryFile s) (summaryDocument env w2 s summary)] ++ δ2 ++ [.completed s]))
    (hq1 : Quiet δ1) (hq2 : Quiet δ2)
    (hfile : getFile v.files (summaryFile s) = some ⟨summaryDocument env w2 s summary, w2.now⟩)
    (hother : ∀ p, p.dir = .summaries → p ≠ summaryFile s →
      getFile v.files p = getFile w.files p) :
    IsolatedAttempt env config s w true v := by
  obtain ⟨a1, a2, a3⟩ := hq1
  obtain ⟨b1, b2, b3⟩ := hq2
  refine ⟨_, hout, ?_, ?_, ?_, ?_, ?_, hother⟩
  · simp only [attempts] at a1 b1 ⊢
    simp [Event.attempt?, a1, b1]
  · simp only [outcomes] at a2 b2 ⊢
    simp [Event.outcome?, a2, b2]
  · simp only [true_iff]
    exact ⟨summary, w3, content, w1, w2, hload, hsum, hstore⟩
  · intro _
    refine ⟨content, w1, summary, w2, w3, hload, hsum, hstore, ?_, hfile⟩
    simp only [writesIn] at a3 b3 ⊢
    simp [Event.wrote?, a3, b3, summaryFile, summaryDocument]
  · intro h
    simp at h

/-- The attempt of the on-demand run on one source, with the report of a
failure, is an isolated attempt. -/
theorem processSource_isolated (env : Env) (config : Config) (s : GoString) (w : World) :
    (∀ e w1, processSource env config s w = (.error e, w1) →
      IsolatedAttempt env config s w false (w1.log (.errorProcessing s e))) ∧
    (∀ summary w1, processSource env config s w = (.ok summary, w1) →
      IsolatedAttempt env config s w true w1) := by
  obtain ⟨δ1, hδ1, hq1, hk1⟩ := loadContent_kept env s (w.log (.processing s))
  have hk0 : SummariesKept w (w.log (.processing s)) := summariesKept_of_files rfl
  unfold processSource
  rcases hl : loadContent env s (w.log (.processing s)) with ⟨r, wl⟩
  rw [hl] at hδ1 hk1
  simp only [World.log] at hδ1
  cases r with
  | error e =>
    refine ⟨?_, fun summary w1 h => by simp at h⟩
    intro e' w1 h
    simp only [Prod.mk.injEq, Except.error.injEq] at h
    rw [← h.1, ← h.2]
    exact isolated_fail δ1 e (by simp [World.log, hδ1]) hq1
      (summariesKept_trans hk0 (summariesKept_trans hk1 (summariesKept_of_files rfl)))
      (fun ⟨summary, w3, h⟩ => not_steps123_of_load_error hl summary w3 h)
  | ok content =>
    dsimp only
    have hload := (loadContent_ok_iff env s content _ wl).1 hl
    rcases hs : SummarizeWithAI env config content s wl with ⟨r2, w2⟩
    have hw2 := postChat_snd env config (summaryPrompt config content s) wl
    have hs' := hs
    unfold SummarizeWithAI at hs'
    rw [hs'] at hw2
    simp only at hw2
    have hk2 : SummariesKept wl w2 := summariesKept_of_files (by rw [hw2])
    have hout2 : w2.out = w.out ++ (.processing s :: (δ1 ++ [.chat ⟨config.LLMAPIURL,
        config.LLMAPIKey, config.LLMAPIModel, summaryPrompt config content s⟩])) := by
      rw [hw2]
      simp [hδ1]
    have hq2 : Quiet (δ1 ++ [.chat ⟨config.LLMAPIURL, config.LLMAPIKey, config.LLMAPIModel,
        summaryPrompt config content s⟩]) := quiet_append hq1 (quiet_chat _)
    cases r2 with
    | error e =>
      refine ⟨?_, fun summary w1 h => by simp at h⟩
      intro e' w1 h
      simp only [Prod.mk.injEq, Except.error.injEq] at h
      rw [← h.1, ← h.2]
      refine isolated_fail (δ1 ++ [.chat ⟨config.LLMAPIURL, config.LLMAPIKey,
        config.LLMAPIModel, summaryPrompt config content s⟩]) e (by simp [World.log, hout2]) hq2
        (summariesKept_trans hk0 (summariesKept_trans hk1 (summariesKept_trans hk2 (summariesKept_of_files rfl)))) ?_
      rintro ⟨summary, w3, h⟩
      obtain ⟨v2, h2, -⟩ := (steps123_of_load_ok hl summary w3).1 h
      rw [hs] at h2
      simp at h2
    | ok summary =>
      dsimp only
      rcases StoreSummarization_spec env s summary w2 with ⟨e, h⟩ | h
      · rw [h]
        refine ⟨?_, fun summary w1 h => by simp at h⟩
        intro e' w1 h'
        simp only [Prod.mk.injEq, Except.error.injEq] at h'
        rw [← h'.1, ← h'.2]
        refine isolated_fail (δ1 ++ [.chat ⟨config.LLMAPIURL, config.LLMAPIKey,
          config.LLMAPIModel, summaryPrompt config content s⟩]) e (by simp [World.log, hout2]) hq2
          (summariesKept_trans hk0 (summariesKept_trans hk1 (summariesKept_trans hk2 (summariesKept_of_files rfl)))) ?_
        rintro ⟨summary', w3, h'⟩
        obtain ⟨v2, h2, h3⟩ := (steps123_of_load_ok hl summary' w3).1 h'
        rw [hs] at h2
        simp only [Prod.mk.injEq, Except.ok.injEq] at h2
        obtain ⟨rfl, rfl⟩ := h2
        rw [h] at h3
        simp at h3
      · rw [h]
        refine ⟨fun e w1 h => by simp at h, ?_⟩
        intro summary' w1 h'
        simp only [Prod.mk.injEq, Except.ok.injEq] at h'
        obtain ⟨rfl, rfl⟩ := h'
        refine isolated_ok (δ1 ++ [.chat ⟨config.LLMAPIURL, config.LLMAPIKey,
          config.LLMAPIModel, summaryPrompt config content s⟩]) [] hload hs h ?_ hq2
          quiet_nil ?_ ?_
        · simp [World.log, hout2]
        · simp only [World.log]
          exact getFile_putFile_same _ _ _
        · intro p hp hne
          simp only [World.log]
          rw [getFile_putFile_other _ _ _ _ hne]
          exact (summariesKept_trans hk0 (summariesKept_trans hk1 hk2)) p hp

/-- The attempt of the daemon's run on one source, with the report of a
failure, is an isolated attempt. -/
theorem processSourceLogged_isolated (env : Env) (config : Config) (s : GoString) (w : World) :
    (∀ e w1, processSourceLogged env config s w = (.error e, w1) →
      IsolatedAttempt env config s w false (w1.log (.errorProcessing s e))) ∧
    (∀ w1, processSourceLogged env config s w = (.ok (), w1) →
      IsolatedAttempt env config s w true w1) := by
  obtain ⟨δ1, hδ1, hq1, hk1⟩ := loadContent_kept env s (w.log (.processing s))
  have hk0 : SummariesKept w (w.log (.processing s)) := summariesKept_of_files rfl
  unfold processSourceLogged
  rcases hl : loadContent env s (w.log (.processing s)) with ⟨r, wl⟩
  rw [hl] at hδ1 hk1
  simp only [World.log] at hδ1
  cases r with
  | error e =>
    refine ⟨?_, fun w1 h => by simp at h⟩
    intro e' w1 h
    simp only [Prod.mk.injEq, Except.error.injEq] at h
    rw [← h.1, ← h.2]
    exact isolated_fail δ1 e (by simp [World.log, hδ1]) hq1
      (summariesKept_trans hk0 (summariesKept_trans hk1 (summariesKept_of_files rfl)))
      (fun ⟨summary, w3, h⟩ => not_steps123_of_load_error hl summary w3 h)
  | ok content =>
    dsimp only
    have hload := (loadContent_ok_iff env s content _ wl).1 hl
    rcases hs : SummarizeWithAI env config content s wl with ⟨r2, w2⟩
    have hw2 := postChat_snd env config (summaryPrompt config content s) wl
    have hs' := hs
    unfold SummarizeWithAI at hs'
    rw [hs'] at hw2
    simp only at hw2
    have hk2 : SummariesKept wl w2 := summariesKept_of_files (by rw [hw2])
    have hout2 : w2.out = w.out ++ (.processing s :: (δ1 ++ [.chat ⟨config.LLMAPIURL,
        config.LLMAPIKey, config.LLMAPIModel, summaryPrompt config content s⟩])) := by
      rw [hw2]
      simp [hδ1]
    have hq2 : Quiet (δ1 ++ [.chat ⟨config.LLMAPIURL, config.LLMAPIKey, config.LLMAPIModel,
        summaryPrompt config content s⟩]) := quiet_append hq1 (quiet_chat _)
    cases r2 with
    | error e =>
      refine ⟨?_, fun w1 h => by simp at h⟩
      intro e' w1 h
      simp only [Prod.mk.injEq, Except.error.injEq] at h
      rw [← h.1, ← h.2]
      refine isolated_fail (δ1 ++ [.chat ⟨config.LLMAPIURL, config.LLMAPIKey,
        config.LLMAPIModel, summaryPrompt config content s⟩]) e (by simp [World.log, hout2]) hq2
        (summariesKept_trans hk0 (summariesKept_trans hk1 (summariesKept_trans hk2 (summariesKept_of_files rfl)))) ?_
      rintro ⟨summary, w3, h⟩
      obtain ⟨v2, h2, -⟩ := (steps123_of_load_ok hl summary w3).1 h
      rw [hs] at h2
      simp at h2
    | ok summary =>
      dsimp only
      rcases StoreSummarization_spec env s summary w2 with ⟨e, h⟩ | h
      · rw [h]
        refine ⟨?_, fun w1 h => by simp at h⟩
        intro e' w1 h'
        simp only [Prod.mk.injEq, Except.error.injEq] at h'
        rw [← h'.1, ← h'.2]
        refine isolated_fail (δ1 ++ [.chat ⟨config.LLMAPIURL, config.LLMAPIKey,
          config.LLMAPIModel, summaryPrompt config content s⟩]) e (by simp [World.log, hout2]) hq2
          (summariesKept_trans hk0 (summariesKept_trans hk1 (summariesKept_trans hk2 (summariesKept_of_files rfl)))) ?_
        rintro ⟨summary', w3, h'⟩
        obtain ⟨v2, h2, h3⟩ := (steps123_of_load_ok hl summary' w3).1 h'
        rw [hs] at h2
        simp only [Prod.mk.injEq, Except.ok.injEq] at h2
        obtain ⟨rfl, rfl⟩ := h2
        rw [h] at h3
        simp at h3
      · rw [h]
        obtain ⟨δf, hδf, hqf, hkf⟩ := focusStep_kept env config s summary
          { w2 with files := putFile w2.files (summaryFile s)
                      ⟨summaryDocument env w2 s summary, w2.now⟩,
                    out := w2.out ++ [.wrote (summaryFile s) (summaryDocument env w2 s summary)] }
        refine ⟨fun e w1 h => by simp at h, ?_⟩
        intro w1 h'
        simp only [Prod.mk.injEq, true_and] at h'
        subst h'
        refine isolated_ok (δ1 ++ [.chat ⟨config.LLMAPIURL, config.LLMAPIKey,
          config.LLMAPIModel, summaryPrompt config content s⟩]) δf hload hs h ?_ hq2
          hqf ?_ ?_
        · simp only [World.log, hδf]
          simp [hout2]
        · simp only [World.log]
          rw [hkf (summaryFile s) (by simp [summaryFile])]
          exact getFile_putFile_same _ _ _
        · intro p hp hne
          simp only [World.log]
          rw [hkf p hp]
          simp only
          rw [getFile_putFile_other _ _ _ _ hne]
          exact (summariesKept_trans hk0 (summariesKept_trans hk1 hk2)) p hp

theorem runOnceLoop_isolated (env : Env) (config : Config) (sources : List GoString) :
    ∀ (acc : List GoString) (w : World),
      AttemptsInOrder env config sources w (runOnceLoop env config sources acc w).2 := by
  induction sources with
  | nil =>
    intro acc w
    rfl
  | cons s rest ih =>
    intro acc w
    obtain ⟨hf, hs⟩ := processSource_isolated env config s w
    unfold runOnceLoop AttemptsInOrder
    rcases hp : processSource env config s w with ⟨r, w1⟩
    cases r with
    | error e => exact ⟨false, _, hf e w1 hp, ih _ _⟩
    | ok summary =>
      dsimp only
      split
      · exact ⟨true, _, hs summary w1 hp, ih _ _⟩
      · exact ⟨true, _, hs summary w1 hp, ih _ _⟩

theorem runOnceLoggedLoop_isolated (env : Env) (config : Config) (sources : List GoString) :
    ∀ (w : World), AttemptsInOrder env config sources w (runOnceLoggedLoop env config sources w) := by
  induction sources with
  | nil =>
    intro w
    rfl
  | cons s rest ih =>
    intro w
    obtain ⟨hf, hs⟩ := processSourceLogged_isolated env config s w
    unfold runOnceLoggedLoop AttemptsInOrder
    rcases hp : processSourceLogged env config s w with ⟨r, w1⟩
    cases r with
    | error e => exact ⟨false, _, hf e w1 hp, ih _⟩
    | ok u => exact ⟨true, _, hs w1 hp, ih _⟩

/-- C1 (failure isolation).  For every valid configuration, every environment
(hence every pattern of failures of the cache lookup, the fetch, the cache
write, the summarizer and the summary store) and every world, both `runOnce`
and `runOnceLogged` return success, announce every configured source exactly
once and in the configured order, close every attempt as completed or failed,
and write the summary documents of exactly the completed attempts; and an
attempt, from whatever world a failure before it has left, completes exactly
when its steps 1 to 3 all succeed.  The run of the daemon is a sequence of
isolated attempts, one for each configured source in the order of the list,
each starting in the world that the attempt before it has left: an attempt is
completed exactly when steps 1 to 3 succeed from there, the file of its
source then holds the summary document with the summary that the summarizer
returned, a failed attempt writes no summary document, and no attempt changes
the summary document of another source.  The on-demand run is such a sequence
followed by actions that announce no source, close no attempt and leave every
summary document as it is. -/
theorem failure_isolation (env : Env) (config : Config) (w : World)
    (hv : validateConfig config = none) :
    ((runOnce env config w).1 = .ok () ∧ RunSpec config w (runOnce env config w).2) ∧
    ((runOnceLogged env config w).1 = .ok () ∧ RunSpec config w (runOnceLogged env config w).2) ∧
    (∀ source v, AttemptSpec env config source v (processSource env config source v).1.isOk
      (processSource env config source v).2) ∧
    (∀ source v, AttemptSpec env config source v (processSourceLogged env config source v).1.isOk
      (processSourceLogged env config source v).2) ∧
    AttemptsInOrder env config config.Sources w (runOnceLogged env config w).2 ∧
    (∃ u, AttemptsInOrder env config config.Sources w u ∧
      (∃ δ, (runOnce env config w).2.out = u.out ++ δ ∧ Quiet δ) ∧
      SummariesKept u (runOnce env config w).2) := by
  refine ⟨?_, ?_, processSource_attempt env config, processSourceLogged_attempt env config,
    ?_, ?_⟩
  · unfold runOnce RunSpec
    rw [hv]
    obtain ⟨Δ, g1, g2, g3, g4⟩ := runOnceLoop_spec env config config.Sources [] w
    rcases hr : runOnceLoop env config config.Sources [] w with ⟨all, w1⟩
    rw [hr] at g1
    obtain ⟨δ, c1, -, c3⟩ := combineFocus_out env config all w1
    obtain ⟨f1, f2, f3, -⟩ := focus_actions_quiet (by rfl) c3
    refine ⟨rfl, Δ ++ δ, ?_, ?_, ?_, ?_⟩
    · dsimp only
      rw [c1]
      simp only at g1
      simp [g1]
    · simp only [attempts] at g2 f1 ⊢
      simp [g2, f1]
    · simp only [outcomes] at g3 f2 ⊢
      simp [g3, f2]
    · unfold SummariesMatch at g4 ⊢
      simp only [outcomes, writesIn] at g4 f2 f3 ⊢
      simp [g4, f2, f3]
  · unfold runOnceLogged RunSpec
    rw [hv]
    exact ⟨rfl, runOnceLoggedLoop_spec env config config.Sources w⟩
  · unfold runOnceLogged
    rw [hv]
    exact runOnceLoggedLoop_isolated env config config.Sources w
  · have hl := runOnceLoop_isolated env config config.Sources [] w
    unfold runOnce
    rw [hv]
    rcases hr : runOnceLoop env config config.Sources [] w with ⟨all, w1⟩
    rw [hr] at hl
    obtain ⟨δ, c1, c2, c3⟩ := combineFocus_kept env config all w1
    exact ⟨w1, hl, ⟨δ, c1, c2⟩, c3⟩

/-- Witness of C1: the three sources `a`, `b`, `c`, the fetch of `b` failing. -/
theorem failure_isolation_witness :
    validateConfig threeSources = none ∧
    (runOnce secondDown threeSources emptyWorld).1 = .ok () ∧
    RunSpec threeSources emptyWorld (runOnce secondDown threeSources emptyWorld).2 ∧
    (runOnceLogged secondDown threeSources emptyWorld).1 = .ok () ∧
    RunSpec threeSources emptyWorld (runOnceLogged secondDown threeSources emptyWorld).2 ∧
    AttemptsInOrder secondDown threeSources threeSources.Sources emptyWorld
      (runOnceLogged secondDown threeSources emptyWorld).2 :=
  ⟨by decide, (failure_isolation secondDown threeSources emptyWorld (by decide)).1.1,
    (failure_isolation secondDown threeSources emptyWorld (by decide)).1.2,
    (failure_isolation secondDown threeSources emptyWorld (by decide)).2.1.1,
    (failure_isolation secondDown threeSources emptyWorld (by decide)).2.1.2,
    (failure_isolation secondDown threeSources emptyWorld (by decide)).2.2.2.2.1⟩

set_option maxRecDepth 1000000 in
/-- The isolation scenario of the specification, the files: with the fetch of
the second of three sources failing, both runs leave the summary documents of
`a` and of `c`, each with the summary `S` that the summarizer returned, and
none of `b`. -/
theorem isolation_three_sources_files :
    (getFile (runOnce secondDown threeSources emptyWorld).2.files (summaryFile (lit "a"))).map
      File.content =
      some (lit "# Summary for: a\n\nGenerated: 2026-01-01T00:00:00Z\n\n---\n\nS\n") ∧
    getFile (runOnce secondDown threeSources emptyWorld).2.files (summaryFile (lit "b")) = none ∧
    (getFile (runOnce secondDown threeSources emptyWorld).2.files (summaryFile (lit "c"))).map
      File.content =
      some (lit "# Summary for: c\n\nGenerated: 2026-01-01T00:00:00Z\n\n---\n\nS\n") ∧
    (getFile (runOnceLogged secondDown threeSources emptyWorld).2.files
      (summaryFile (lit "a"))).map File.content =
      some (lit "# Summary for: a\n\nGenerated: 2026-01-01T00:00:00Z\n\n---\n\nS\n") ∧
    getFile (runOnceLogged secondDown threeSources emptyWorld).2.files (summaryFile (lit "b")) =
      none ∧
    (getFile (runOnceLogged secondDown threeSources emptyWorld).2.files
      (summaryFile (lit "c"))).map File.content =
      some (lit "# Summary for: c\n\nGenerated: 2026-01-01T00:00:00Z\n\n---\n\nS\n") := by
  decide

end Nub
